import Mathlib

/-!
Verification of the kurpod encrypted-blob engine and its steganography
carriers, as a shallow embedding of the Rust sources in
`encryption_core/src/blob.rs` and `encryption_core/src/steganography/`.

Byte files and byte strings are modelled as `List Nat` (each element one
byte; Rust strings appear through their UTF-8 bytes).  Cryptographic
primitives (Argon2id key derivation and the XChaCha20-Poly1305 AEAD) are
kept abstract in a `CryptoPrims` record; the properties a real AEAD
provides (round-trip, ciphertext length, key authentication, KDF
injectivity) appear as explicit hypotheses of the theorems that need
them.  Randomness (salts, nonces, padding bytes) enters through explicit
stream parameters, mirroring the `OsRng` draws of the source.
-/

deriving instance DecidableEq for Except

namespace Kurpod

/-! ## Byte-file toolkit -/

/-- Bytes of a file at positions `off, off+1, …, off+len-1` (truncated at
end of file), modelling a seek followed by a read. -/
def extractSeg (f : List Nat) (off len : Nat) : List Nat :=
  (f.drop off).take len

/-- Model of a seek to `off` followed by `write_all d`: bytes before `off`
are kept (the gap is zero-filled when the file is shorter, as POSIX does),
the `d.length` bytes at `off` are replaced, and any bytes after them are
kept. -/
def writeAt (f : List Nat) (off : Nat) (d : List Nat) : List Nat :=
  (f ++ List.replicate (off - f.length) 0).take off ++ d ++ f.drop (off + d.length)

/-- Little-endian encoding of a `u64`, as in `u64::to_le_bytes`. -/
def le64 (n : Nat) : List Nat :=
  [n % 256, n / 256 % 256, n / 256 ^ 2 % 256, n / 256 ^ 3 % 256,
   n / 256 ^ 4 % 256, n / 256 ^ 5 % 256, n / 256 ^ 6 % 256, n / 256 ^ 7 % 256]

/-- `u64::from_le_bytes` on the first 8 bytes of a list. -/
def readLe64 (b : List Nat) : Nat :=
  b.getD 0 0 + 256 * (b.getD 1 0 + 256 * (b.getD 2 0 + 256 * (b.getD 3 0 +
    256 * (b.getD 4 0 + 256 * (b.getD 5 0 + 256 * (b.getD 6 0 + 256 * b.getD 7 0))))))

/-- Big-endian encoding of a `u64`, as in `u64::to_be_bytes`. -/
def be64 (n : Nat) : List Nat :=
  [n / 256 ^ 7 % 256, n / 256 ^ 6 % 256, n / 256 ^ 5 % 256, n / 256 ^ 4 % 256,
   n / 256 ^ 3 % 256, n / 256 ^ 2 % 256, n / 256 % 256, n % 256]

/-- `u64::from_be_bytes` on the first 8 bytes of a list. -/
def readBe64 (b : List Nat) : Nat :=
  b.getD 7 0 + 256 * (b.getD 6 0 + 256 * (b.getD 5 0 + 256 * (b.getD 4 0 +
    256 * (b.getD 3 0 + 256 * (b.getD 2 0 + 256 * (b.getD 1 0 + 256 * b.getD 0 0))))))

/-- Big-endian encoding of a `u32`. -/
def be32 (n : Nat) : List Nat :=
  [n / 256 ^ 3 % 256, n / 256 ^ 2 % 256, n / 256 % 256, n % 256]

/-- `u32::from_be_bytes` on the first 4 bytes of a list. -/
def readBe32 (b : List Nat) : Nat :=
  b.getD 3 0 + 256 * (b.getD 2 0 + 256 * (b.getD 1 0 + 256 * b.getD 0 0))

/-- Big-endian encoding of a `u16`. -/
def be16 (n : Nat) : List Nat :=
  [n / 256 % 256, n % 256]

/-- `u16::from_be_bytes` on the first 2 bytes of a list. -/
def readBe16 (b : List Nat) : Nat :=
  b.getD 1 0 + 256 * b.getD 0 0

/-- The pattern `pat` occurs in `f` at position `i` (a full window of
`f.windows(pat.len())` equal to `pat`). -/
def occursAt (pat f : List Nat) (i : Nat) : Prop :=
  i + pat.length ≤ f.length ∧ extractSeg f i pat.length = pat

instance (pat f : List Nat) (i : Nat) : Decidable (occursAt pat f i) := by
  unfold occursAt; infer_instance

/-- First occurrence of `pat` in `f` at a position `≥ i`, modelling
`windows(n).position(…)` of the Rust sources.  The loop advances one
position per step, so the structural fuel argument of the wrapper below
always suffices. -/
def findSubFrom (f pat : List Nat) : Nat → Nat → Option Nat
  | 0, _ => none
  | fuel + 1, i =>
    if i + pat.length ≤ f.length then
      if occursAt pat f i then some i else findSubFrom f pat fuel (i + 1)
    else none

/-- First occurrence of `pat` in `f`. -/
def findSub (f pat : List Nat) : Option Nat :=
  findSubFrom f pat (f.length + 1) 0

/-- Helper for the last occurrence: scan indices `i-1, i-2, …, 0`. -/
def findSubLastGo (f pat : List Nat) : Nat → Option Nat
  | 0 => none
  | i + 1 => if occursAt pat f i then some i else findSubLastGo f pat i

/-- Last occurrence of `pat` in `f`, modelling `windows(n).rposition(…)`. -/
def findSubLast (f pat : List Nat) : Option Nat :=
  findSubLastGo f pat (f.length + 1 - pat.length)

/-- Boolean form of `windows(n).any(|w| w == pat)`. -/
def containsSubB (f pat : List Nat) : Bool :=
  (findSub f pat).isSome

/-- Fueled loop of `slice.chunks n`. -/
def chunksOfGo (n : Nat) : Nat → List Nat → List (List Nat)
  | 0, _ => []
  | fuel + 1, l =>
    if l = [] then []
    else if n = 0 then []
    else l.take n :: chunksOfGo n fuel (l.drop n)

/-- `slice.chunks n` of Rust: split a list into consecutive pieces of `n`
bytes, the last one possibly shorter. -/
def chunksOf (n : Nat) (l : List Nat) : List (List Nat) :=
  chunksOfGo n (l.length + 1) l

/-! ## Steganography carriers

The shared ASCII marker `KURPODSTEGO` and the four carrier
implementations from `encryption_core/src/steganography/`. -/

/-- The 11 ASCII bytes of `KURPODSTEGO`. -/
def markerB : List Nat := [75, 85, 82, 80, 79, 68, 83, 84, 69, 71, 79]

/-! ### PNG ancillary-chunk carrier (`png_chunk.rs`) -/

/-- The 8-byte PNG signature. -/
def pngSignature : List Nat := [137, 80, 78, 71, 13, 10, 26, 10]

/-- ASCII bytes of the ancillary chunk type `ruNd`. -/
def rundType : List Nat := [114, 117, 78, 100]

/-- ASCII bytes of the chunk type `IDAT`. -/
def idatType : List Nat := [73, 68, 65, 84]

/-- ASCII bytes of the chunk type `IEND`. -/
def iendType : List Nat := [73, 69, 78, 68]

/-- `PngChunkCarrier::validate_png`. -/
def pngValidate (d : List Nat) : Except String Unit :=
  if d.length < 8 then .error "Data too short to be a PNG file"
  else if extractSeg d 0 8 ≠ pngSignature then .error "Invalid PNG signature"
  else .ok ()

/-- One step of the CRC-32 shift register (polynomial `0xEDB88320`). -/
def crc32Step (c : Nat) : Nat :=
  if c % 2 = 1 then (c / 2) ^^^ 0xEDB88320 else c / 2

/-- Feed one byte into the CRC-32 state. -/
def crc32Byte (c b : Nat) : Nat :=
  crc32Step^[8] (c ^^^ b % 256)

/-- CRC-32 of a byte list, as computed by the `crc32fast` crate. -/
def crc32 (data : List Nat) : Nat :=
  (data.foldl crc32Byte 0xFFFFFFFF) ^^^ 0xFFFFFFFF

/-- `PngChunkCarrier::write_chunk`: length, type, data, CRC over
type-plus-data. -/
def pngWriteChunk (ty d : List Nat) : List Nat :=
  be32 d.length ++ ty ++ d ++ be32 (crc32 (ty ++ d))

/-- Chunk-walking loop of `PngChunkCarrier::extract_custom_chunks`,
starting at byte position `pos` (8 after the signature).  Returns the data
of every `ruNd` chunk met before `IEND` or a short read. -/
def pngExtractGo (d : List Nat) : Nat → Nat → List (List Nat)
  | 0, _ => []
  | fuel + 1, pos =>
    if pos < d.length then
      if pos + 4 ≤ d.length then
        let len := readBe32 (extractSeg d pos 4)
        if pos + 8 ≤ d.length then
          let ty := extractSeg d (pos + 4) 4
          if pos + 8 + len ≤ d.length then
            if pos + 12 + len ≤ d.length then
              let chunk := extractSeg d (pos + 8) len
              (if ty = rundType then [chunk] else []) ++
                (if ty = iendType then [] else pngExtractGo d fuel (pos + 12 + len))
            else []
          else []
        else []
      else []
    else []

/-- `PngChunkCarrier::extract_custom_chunks`. -/
def pngExtractChunks (d : List Nat) : Except String (List (List Nat)) :=
  match pngValidate d with
  | .error e => .error e
  | .ok _ => .ok (pngExtractGo d (d.length + 1) 8)

/-- `PngChunkCarrier::extract`: concatenation of all `ruNd` chunk data, or
`none` when there is none. -/
def pngExtract (d : List Nat) : Option (List Nat) :=
  match pngExtractChunks d with
  | .error _ => none
  | .ok cs => if cs = [] then none else some cs.flatten

/-- Chunk-copying loop of `PngChunkCarrier::embed_custom_chunks`: copy
every chunk, inserting the pre-rendered `stego` bytes immediately before
the first `IDAT` chunk; a truncated chunk body is an error, any other
short read ends the copy. -/
def pngEmbedGo (d : List Nat) (stego : List Nat) :
    Nat → Nat → Bool → Except String (List Nat)
  | 0, _, _ => .ok []
  | fuel + 1, pos, found =>
    if pos < d.length then
      if pos + 4 ≤ d.length then
        let len := readBe32 (extractSeg d pos 4)
        if pos + 8 ≤ d.length then
          let ty := extractSeg d (pos + 4) 4
          let ins : List Nat := if ty = idatType ∧ found = false then stego else []
          let found' : Bool := found || ty = idatType
          if pos + 12 + len ≤ d.length then
            let chunkBytes := extractSeg d pos (12 + len)
            if ty = iendType then .ok (ins ++ chunkBytes)
            else
              match pngEmbedGo d stego fuel (pos + 12 + len) found' with
              | .ok rest => .ok (ins ++ chunkBytes ++ rest)
              | .error e => .error e
          else .error "failed to fill whole buffer"
        else .ok []
      else .ok []
    else .ok []

/-- `PngChunkCarrier::embed_custom_chunks` with chunk data list
`payloadChunks`. -/
def pngEmbedChunks (d : List Nat) (payloadChunks : List (List Nat)) :
    Except String (List Nat) :=
  match pngValidate d with
  | .error e => .error e
  | .ok _ =>
    match pngEmbedGo d (payloadChunks.map (pngWriteChunk rundType)).flatten
        (d.length + 1) 8 false with
    | .ok rest => .ok (pngSignature ++ rest)
    | .error e => .error e

/-- `PngChunkCarrier::capacity` (100 MiB when the signature validates). -/
def pngCapacity (d : List Nat) : Nat :=
  match pngValidate d with
  | .ok _ => 100 * 1024 * 1024
  | .error _ => 0

/-- `PngChunkCarrier::embed`: empty payloads return the carrier unchanged;
otherwise the payload is split into 256 KiB chunks and inserted. -/
def pngEmbed (carrier payload : List Nat) : Except String (List Nat) :=
  if payload = [] then .ok carrier
  else pngEmbedChunks carrier (chunksOf (256 * 1024) payload)

/-! ### JPEG comment-segment carrier (`jpeg_comment.rs`) -/

/-- `JpegCommentCarrier::validate_jpeg`. -/
def jpegValidate (d : List Nat) : Except String Unit :=
  if d.length < 4 then .error "Data too short to be a JPEG file"
  else if d.getD 0 0 ≠ 255 ∨ d.getD 1 0 ≠ 216 then .error "Invalid JPEG signature"
  else if containsSubB d [255, 217] = false then .error "No End of Image marker found"
  else .ok ()

/-- Segment-walking loop of `JpegCommentCarrier::find_stego_segments`:
collect the `(start, end)` spans of every COM segment whose data begins
with the marker. -/
def findStegoGo (d : List Nat) : Nat → Nat → List (Nat × Nat)
  | 0, _ => []
  | fuel + 1, pos =>
    if pos + 4 < d.length then
      if d.getD pos 0 ≠ 255 then findStegoGo d fuel (pos + 1)
      else if d.getD (pos + 1) 0 = 254 then
        let len := readBe16 (extractSeg d (pos + 2) 2)
        let segEnd := pos + 2 + len
        if segEnd ≤ d.length ∧ 19 ≤ len ∧ pos + 4 + 11 ≤ d.length ∧
            extractSeg d (pos + 4) 11 = markerB then
          (pos, segEnd) :: findStegoGo d fuel segEnd
        else findStegoGo d fuel segEnd
      else
        let len := readBe16 (extractSeg d (pos + 2) 2)
        findStegoGo d fuel (pos + 2 + len)
    else []

/-- `JpegCommentCarrier::find_stego_segments`. -/
def findStegoSegments (d : List Nat) : List (Nat × Nat) :=
  findStegoGo d (d.length + 1) 2

/-- `JpegCommentCarrier::extract_payload_from_segments` (the payload
accumulation; `none` when nothing was collected). -/
def jpegCollectPayload (d : List Nat) (segs : List (Nat × Nat)) : List Nat :=
  segs.foldl
    (fun acc se =>
      if se.2 ≤ se.1 + 23 then acc
      else
        let clen := readBe64 (extractSeg d (se.1 + 15) 8)
        if se.1 + 23 + clen ≤ se.2 then acc ++ extractSeg d (se.1 + 23) clen
        else acc)
    []

/-- Spliced copy dropping the byte spans `spans` (assumed disjoint and in
increasing order), as in `JpegCommentCarrier::strip_existing_segments`. -/
def stripSpans (d : List Nat) (spans : List (Nat × Nat)) : List Nat :=
  let p := spans.foldl (fun p se => (p.1 ++ extractSeg d p.2 (se.1 - p.2), se.2))
    (([] : List Nat), 0)
  p.1 ++ d.drop p.2

/-- `JpegCommentCarrier::strip_existing_segments`. -/
def jpegStrip (d : List Nat) : List Nat :=
  let segs := findStegoSegments d
  if segs = [] then d else stripSpans d segs

/-- Insertion-point walk of `JpegCommentCarrier::embed_segments`: the last
segment boundary reached before the first SOS (`FF DA`) marker. -/
def insertPosGo (d : List Nat) : Nat → Nat → Nat → Nat
  | 0, _, ipos => ipos
  | fuel + 1, pos, ipos =>
    if pos + 4 < d.length then
      if d.getD pos 0 ≠ 255 then insertPosGo d fuel (pos + 1) ipos
      else if d.getD (pos + 1) 0 = 218 then pos
      else
        let len := readBe16 (extractSeg d (pos + 2) 2)
        insertPosGo d fuel (pos + 2 + len) (pos + 2 + len)
    else ipos

/-- Bytes of one steganographic COM segment for one payload chunk. -/
def jpegRenderSeg (chunk : List Nat) : List Nat :=
  [255, 254] ++ be16 (2 + 11 + 8 + chunk.length) ++ markerB ++ be64 chunk.length ++ chunk

/-- `JpegCommentCarrier::embed_segments`. -/
def jpegEmbedSegments (d : List Nat) (chunks : List (List Nat)) : List Nat :=
  let ipos := insertPosGo d (d.length + 1) 2 2
  d.take ipos ++ (chunks.map jpegRenderSeg).flatten ++ d.drop ipos

/-- `JpegCommentCarrier::capacity` (100 segments of 65514 bytes). -/
def jpegCapacity (d : List Nat) : Nat :=
  match jpegValidate d with
  | .ok _ => 100 * 65514
  | .error _ => 0

/-- `JpegCommentCarrier::embed`. -/
def jpegEmbed (carrier payload : List Nat) : Except String (List Nat) :=
  if payload = [] then .ok carrier
  else
    match jpegValidate carrier with
    | .error e => .error e
    | .ok _ =>
      if jpegCapacity carrier < payload.length then
        .error "Payload exceeds JPEG capacity"
      else .ok (jpegEmbedSegments (jpegStrip carrier) (chunksOf 65514 payload))

/-- `JpegCommentCarrier::extract`. -/
def jpegExtract (d : List Nat) : Option (List Nat) :=
  match jpegValidate d with
  | .error _ => none
  | .ok _ =>
    let segs := findStegoSegments d
    if segs = [] then none
    else
      let p := jpegCollectPayload d segs
      if p = [] then none else some p

/-! ### MP4 free-box carrier (`mp4_free_box.rs`) -/

/-- ASCII bytes of `ftyp`. -/
def ftypB : List Nat := [102, 116, 121, 112]

/-- ASCII bytes of `free`. -/
def freeB : List Nat := [102, 114, 101, 101]

/-- `Mp4FreeBoxCarrier::validate_mp4`: at least 12 bytes and `ftyp`
somewhere in the first KiB. -/
def mp4Validate (d : List Nat) : Except String Unit :=
  if d.length < 12 then .error "Data too short to be an MP4 file"
  else if containsSubB (d.take 1024) ftypB = false then
    .error "Missing ftyp box - not a valid MP4/ISOBMFF file"
  else .ok ()

/-- `Mp4FreeBoxCarrier::strip_existing_payload`. -/
def mp4Strip (d : List Nat) : List Nat :=
  match findSub d markerB with
  | none => d
  | some mi =>
    if mi < 8 then d
    else
      let boxStart := mi - 8
      let boxSize := readBe32 (extractSeg d boxStart 4)
      if d.length < boxStart + boxSize then d
      else d.take boxStart ++ d.drop (boxStart + boxSize)

/-- `Mp4FreeBoxCarrier::build_free_box`. -/
def mp4BuildFreeBox (payload : List Nat) : Except String (List Nat) :=
  let total := 8 + 11 + 8 + payload.length
  if 4294967295 < total then .error "Payload too large for MP4 free box"
  else .ok (be32 total ++ freeB ++ markerB ++ be64 payload.length ++ payload)

/-- `Mp4FreeBoxCarrier::capacity`. -/
def mp4Capacity (d : List Nat) : Nat :=
  match mp4Validate d with
  | .ok _ => 4294967295 - 8 - 11 - 8
  | .error _ => 0

/-- `Mp4FreeBoxCarrier::embed`: strip any previous stego box, then append
a fresh `free` box carrying the payload. -/
def mp4Embed (carrier payload : List Nat) : Except String (List Nat) :=
  if payload = [] then .ok carrier
  else
    match mp4Validate carrier with
    | .error e => .error e
    | .ok _ =>
      if mp4Capacity carrier < payload.length then
        .error "Payload exceeds MP4 capacity"
      else
        match mp4BuildFreeBox payload with
        | .error e => .error e
        | .ok box => .ok (mp4Strip carrier ++ box)

/-- `Mp4FreeBoxCarrier::extract`. -/
def mp4Extract (d : List Nat) : Option (List Nat) :=
  match mp4Validate d with
  | .error _ => none
  | .ok _ =>
    match findSub d markerB with
    | none => none
    | some mi =>
      if d.length < mi + 11 + 8 then none
      else
        let plen := readBe64 (extractSeg d (mi + 11) 8)
        if d.length < mi + 19 + plen then none
        else some (extractSeg d (mi + 19) plen)

/-! ### PDF after-EOF carrier (`pdf_eof.rs`) -/

/-- ASCII bytes of the PDF header sentinel. -/
def pdfHeaderB : List Nat := [37, 80, 68, 70, 45]

/-- ASCII bytes of the end-of-file sentinel. -/
def pdfEofB : List Nat := [37, 37, 69, 79, 70]

/-- `PdfEofCarrier::validate_pdf`. -/
def pdfValidate (d : List Nat) : Except String Unit :=
  if d.length < 8 then .error "Data too short to be a PDF file"
  else if extractSeg d 0 5 ≠ pdfHeaderB then .error "Invalid PDF header"
  else if containsSubB d pdfEofB = false then .error "No EOF marker found"
  else .ok ()

/-- Skip the run of newline bytes following the EOF sentinel. -/
def pdfSkipNewlines (d : List Nat) : Nat → Nat → Nat
  | 0, idx => idx
  | fuel + 1, idx =>
    if idx < d.length ∧ (d.getD idx 0 = 10 ∨ d.getD idx 0 = 13) then
      pdfSkipNewlines d fuel (idx + 1)
    else idx

/-- `PdfEofCarrier::locate_eof`. -/
def pdfLocateEof (d : List Nat) : Option Nat :=
  (findSubLast d pdfEofB).map (fun pos => pdfSkipNewlines d (d.length + 1) (pos + 5))

/-- `PdfEofCarrier::strip_existing_payload`. -/
def pdfStrip (d : List Nat) : List Nat :=
  match findSubLast d markerB with
  | some pos => d.take pos
  | none => d

/-- `PdfEofCarrier::capacity` (100 MiB for a valid PDF). -/
def pdfCapacity (d : List Nat) : Nat :=
  match pdfValidate d with
  | .ok _ => 100 * 1024 * 1024
  | .error _ => 0

/-- `PdfEofCarrier::embed`. -/
def pdfEmbed (carrier payload : List Nat) : Except String (List Nat) :=
  if payload = [] then .ok carrier
  else
    match pdfValidate carrier with
    | .error e => .error e
    | .ok _ =>
      if pdfCapacity carrier < payload.length then
        .error "Payload exceeds maximum supported size"
      else
        let clean := pdfStrip carrier
        match pdfLocateEof clean with
        | none => .error "Failed to locate EOF marker in PDF"
        | some eofIdx =>
          let nl : List Nat :=
            if eofIdx = 0 ∨ ¬(clean.getD (eofIdx - 1) 0 = 10 ∨ clean.getD (eofIdx - 1) 0 = 13)
            then [10] else []
          .ok (clean.take eofIdx ++ nl ++ markerB ++ be64 payload.length ++ payload)

/-- `PdfEofCarrier::extract`. -/
def pdfExtract (d : List Nat) : Option (List Nat) :=
  match pdfValidate d with
  | .error _ => none
  | .ok _ =>
    match findSubLast d markerB with
    | none => none
    | some mp =>
      if d.length < mp + 11 + 8 then none
      else
        let plen := readBe64 (extractSeg d (mp + 11) 8)
        if d.length < mp + 19 + plen then none
        else some (extractSeg d (mp + 19) plen)

/-! ## The blob engine (`blob.rs`)

Constants, the metadata index and its bincode serialization, header and
block I/O, and the public volume operations. -/

/-- The 8 ASCII bytes of the magic identifier `ENC_BLOB`. -/
def MAGICB : List Nat := [69, 78, 67, 95, 66, 76, 79, 66]

/-- Format version byte. -/
def VERSION : Nat := 3

/-- Salt length in bytes. -/
def SALT_LEN : Nat := 16

/-- XChaCha20-Poly1305 nonce length in bytes. -/
def XNONCE_LEN : Nat := 24

/-- Magic plus version byte. -/
def HEADER_COMMON_LEN : Nat := 9

/-- Full standard header length: common part, salt, nonce, size. -/
def STANDARD_HEADER_LEN : Nat := HEADER_COMMON_LEN + SALT_LEN + XNONCE_LEN + 8

/-- Hidden header length: salt, nonce, size. -/
def HIDDEN_HEADER_LEN : Nat := SALT_LEN + XNONCE_LEN + 8

/-- Standard metadata ciphertext offset (57). -/
def STANDARD_METADATA_OFFSET : Nat := STANDARD_HEADER_LEN

/-- Hidden header offset (64 KiB). -/
def HIDDEN_HEADER_OFFSET : Nat := 65536

/-- Hidden metadata ciphertext offset (65584). -/
def HIDDEN_METADATA_OFFSET : Nat := HIDDEN_HEADER_OFFSET + HIDDEN_HEADER_LEN

/-- Data-area start: 1 MiB after the hidden metadata offset. -/
def DATA_AREA_START_OFFSET : Nat := HIDDEN_METADATA_OFFSET + 1024 * 1024

/-- Which volume is active. -/
inductive VolumeType where
  | Standard
  | Hidden
deriving DecidableEq, Repr

/-- Metadata of one stored file (`FileMetadata` of `blob.rs`; the MIME
string is carried as its UTF-8 bytes). -/
structure FileMetadata where
  size : Nat
  data_offset : Nat
  data_length : Nat
  mime_type : List Nat
deriving DecidableEq, Repr

/-- The in-memory metadata index: the `HashMap<String, FileMetadata>` of
the source, modelled as an association list with unique keys (the keys are
UTF-8 byte strings). -/
abbrev MetadataMap : Type := List (List Nat × FileMetadata)

/-- `HashMap::get`. -/
def lookupKey (m : MetadataMap) (k : List Nat) : Option FileMetadata :=
  match m with
  | [] => none
  | (k', v) :: t => if k' = k then some v else lookupKey t k

/-- `HashMap::insert`: replace the value when the key is present, append
otherwise. -/
def insertKey (m : MetadataMap) (k : List Nat) (v : FileMetadata) : MetadataMap :=
  match m with
  | [] => [(k, v)]
  | (k', v') :: t => if k' = k then (k, v) :: t else (k', v') :: insertKey t k v

/-- `HashMap::remove` (on unique keys, dropping every pair at the key). -/
def removeKey (m : MetadataMap) (k : List Nat) : MetadataMap :=
  m.filter (fun kv => !(kv.1 == k))

/-- Bincode encoding of a single map entry: length-prefixed key bytes,
the three fixed-width `u64` fields, then the length-prefixed MIME bytes
(field order as declared in `FileMetadata`). -/
def serializeEntry (kv : List Nat × FileMetadata) : List Nat :=
  le64 kv.1.length ++ kv.1 ++ le64 kv.2.size ++ le64 kv.2.data_offset ++
    le64 kv.2.data_length ++ le64 kv.2.mime_type.length ++ kv.2.mime_type

/-- `bincode::serialize` of the metadata map: `u64` entry count followed
by the entries. -/
def serializeMap (m : MetadataMap) : List Nat :=
  le64 (List.length m) ++ (m.map serializeEntry).flatten

/-- Read one little-endian `u64` off the front of a byte stream. -/
def parseLe64 (b : List Nat) : Option (Nat × List Nat) :=
  if 8 ≤ b.length then some (readLe64 b, b.drop 8) else none

/-- Read `n` raw bytes off the front of a byte stream. -/
def parseBytes (n : Nat) (b : List Nat) : Option (List Nat × List Nat) :=
  if n ≤ b.length then some (b.take n, b.drop n) else none

/-- Decode one serialized map entry. -/
def parseEntry (b : List Nat) : Option ((List Nat × FileMetadata) × List Nat) := do
  let (klen, r1) ← parseLe64 b
  let (k, r2) ← parseBytes klen r1
  let (sz, r3) ← parseLe64 r2
  let (off, r4) ← parseLe64 r3
  let (dlen, r5) ← parseLe64 r4
  let (mlen, r6) ← parseLe64 r5
  let (mime, r7) ← parseBytes mlen r6
  pure ((k, ⟨sz, off, dlen, mime⟩), r7)

/-- Decode `n` serialized map entries. -/
def parseEntries : Nat → List Nat → Option (MetadataMap × List Nat)
  | 0, b => some ([], b)
  | n + 1, b => do
    let (e, r) ← parseEntry b
    let (t, r') ← parseEntries n r
    pure (e :: t, r')

/-- `bincode::deserialize` of the metadata map. -/
def deserializeMap (b : List Nat) : Option MetadataMap := do
  let (n, r) ← parseLe64 b
  let (m, _) ← parseEntries n r
  pure m

/-- The abstract cryptographic primitives: Argon2id key derivation
(password bytes and salt to key) and the XChaCha20-Poly1305 AEAD
(key, nonce, plaintext to ciphertext and back). -/
structure CryptoPrims where
  deriveKey : List Nat → List Nat → List Nat
  encrypt : List Nat → List Nat → List Nat → List Nat
  decrypt : List Nat → List Nat → List Nat → Option (List Nat)

/-- The AEAD appends a 16-byte authentication tag. -/
def EncLen (c : CryptoPrims) : Prop :=
  ∀ k n pt, (c.encrypt k n pt).length = pt.length + 16

/-- Decrypting with the right key and nonce recovers the plaintext. -/
def DecEnc (c : CryptoPrims) : Prop :=
  ∀ k n pt, c.decrypt k n (c.encrypt k n pt) = some pt

/-- Decrypting a ciphertext produced under a different key fails closed
(the idealization of AEAD authentication). -/
def DecAuth (c : CryptoPrims) : Prop :=
  ∀ k k' n n' pt, k ≠ k' → c.decrypt k' n' (c.encrypt k n pt) = none

/-- A successful decryption strips exactly the 16-byte tag. -/
def DecLen (c : CryptoPrims) : Prop :=
  ∀ k n ct pt, c.decrypt k n ct = some pt → pt.length + 16 = ct.length

/-- Distinct passwords derive distinct keys for the same salt (the
idealization of the memory-hard KDF). -/
def KdfInj (c : CryptoPrims) : Prop :=
  ∀ p p' s, p ≠ p' → c.deriveKey p s ≠ c.deriveKey p' s

/-- Header fields of one volume (salt, metadata nonce, metadata size). -/
structure HeaderInfo where
  salt : List Nat
  nonce : List Nat
  size : Nat
deriving DecidableEq, Repr

/-- Metadata ciphertext offset of a volume. -/
def metadataOffset : VolumeType → Nat
  | .Standard => STANDARD_METADATA_OFFSET
  | .Hidden => HIDDEN_METADATA_OFFSET

/-- File offset of the metadata-nonce plus metadata-size header fields. -/
def headerFieldOffset : VolumeType → Nat
  | .Standard => HEADER_COMMON_LEN + SALT_LEN
  | .Hidden => HIDDEN_HEADER_OFFSET + SALT_LEN

/-- File offset of a volume's salt field. -/
def saltOffset : VolumeType → Nat
  | .Standard => HEADER_COMMON_LEN
  | .Hidden => HIDDEN_HEADER_OFFSET

/-- `read_standard_header`: verify magic and version, then read salt,
nonce and size. -/
def read_standard_header (f : List Nat) : Except String HeaderInfo :=
  if f.length < 8 then .error "failed to fill whole buffer"
  else if extractSeg f 0 8 ≠ MAGICB then .error "Invalid blob format"
  else if f.length < 9 then .error "failed to fill whole buffer"
  else if f.getD 8 0 ≠ VERSION then .error "Unsupported blob version"
  else if f.length < 57 then .error "failed to fill whole buffer"
  else .ok ⟨extractSeg f 9 16, extractSeg f 25 24, readLe64 (extractSeg f 49 8)⟩

/-- `read_hidden_header`: read salt, nonce and size at the fixed offset
(no magic). -/
def read_hidden_header (f : List Nat) : Except String HeaderInfo :=
  if f.length < 65584 then .error "failed to fill whole buffer"
  else .ok ⟨extractSeg f 65536 16, extractSeg f 65552 24, readLe64 (extractSeg f 65576 8)⟩

/-- `read_metadata_block`: size 0 yields the empty map, oversized blocks
are corruption, otherwise read, AEAD-decrypt and deserialize. -/
def read_metadata_block (c : CryptoPrims) (f : List Nat) (key nonce : List Nat)
    (size off : Nat) : Except String MetadataMap :=
  if size = 0 then .ok []
  else if 50 * 1024 * 1024 < size then .error "metadata block size too large"
  else if f.length < off + size then .error "read metadata failed"
  else
    match c.decrypt key nonce (extractSeg f off size) with
    | none => .error "metadata decryption failed"
    | some pt =>
      match deserializeMap pt with
      | some m => .ok m
      | none => .error "metadata deserialization failed"

/-- `write_metadata_block`: serialize, encrypt under a fresh random nonce
(here a parameter), overwrite at the volume's metadata offset; returns the
new file bytes with the nonce used and the ciphertext size. -/
def write_metadata_block (c : CryptoPrims) (nonce : List Nat) (f : List Nat)
    (key : List Nat) (m : MetadataMap) (off : Nat) : List Nat × List Nat × Nat :=
  let ct := c.encrypt key nonce (serializeMap m)
  (writeAt f off ct, nonce, ct.length)

/-- `update_header_metadata`: overwrite the nonce and size fields of the
matching header. -/
def update_header_metadata (f : List Nat) (vt : VolumeType) (nonce : List Nat)
    (size : Nat) : List Nat :=
  writeAt f (headerFieldOffset vt) (nonce ++ le64 size)

/-- The padding step of `append_file_data`: extend a file shorter than
the data-area start with random bytes up to that offset. -/
def padToDataArea (padRng : Nat → Nat) (f : List Nat) : List Nat :=
  if f.length < DATA_AREA_START_OFFSET then
    f ++ (List.range (DATA_AREA_START_OFFSET - f.length)).map padRng
  else f

/-- The entry metadata recorded by `append_file_data` for a block
appended to file `f`. -/
def appendedMeta (c : CryptoPrims) (nonce : List Nat) (f : List Nat)
    (key content mime : List Nat) : FileMetadata :=
  ⟨content.length,
   if f.length < DATA_AREA_START_OFFSET then DATA_AREA_START_OFFSET else f.length,
   XNONCE_LEN + (c.encrypt key nonce content).length, mime⟩

/-- `append_file_data`: pad the file with random bytes up to the data-area
start when it is shorter, then append nonce and ciphertext at the end;
returns the new file bytes and the entry metadata. -/
def append_file_data (c : CryptoPrims) (padRng : Nat → Nat) (nonce : List Nat)
    (f : List Nat) (key content mime : List Nat) : List Nat × FileMetadata :=
  (padToDataArea padRng f ++ nonce ++ c.encrypt key nonce content,
   appendedMeta c nonce f key content mime)

/-- `read_file_data`: read the 24-byte nonce and the following ciphertext
at the entry's offset, then AEAD-decrypt. -/
def read_file_data (c : CryptoPrims) (f : List Nat) (key : List Nat)
    (md : FileMetadata) : Except String (List Nat) :=
  if f.length < md.data_offset + 24 then .error "failed to fill whole buffer"
  else
    let nonce := extractSeg f md.data_offset 24
    let ctLen := md.data_length - 24
    if f.length < md.data_offset + 24 + ctLen then .error "failed to fill whole buffer"
    else
      match c.decrypt key nonce (extractSeg f (md.data_offset + 24) ctLen) with
      | some pt => .ok pt
      | none => .error "file data decryption failed"

/-- `get_file`. -/
def get_file (c : CryptoPrims) (f : List Nat) (key : List Nat)
    (md : FileMetadata) : Except String (List Nat) :=
  read_file_data c f key md

/-- `add_file`: append the encrypted data block, insert the entry, rewrite
the volume's metadata block and update its header fields.  The two fresh
nonces of the operation are parameters; returns the new file bytes and
the updated index. -/
def add_file (c : CryptoPrims) (padRng : Nat → Nat) (nonceData nonceMeta : List Nat)
    (f : List Nat) (vt : VolumeType) (key : List Nat) (m : MetadataMap)
    (filePath content mime : List Nat) : List Nat × MetadataMap :=
  let fm := append_file_data c padRng nonceData f key content mime
  let m' := insertKey m filePath fm.2
  let w := write_metadata_block c nonceMeta fm.1 key m' (metadataOffset vt)
  (update_header_metadata w.1 vt w.2.1 w.2.2, m')

/-- `remove_file`: a missing entry is a `false` no-op; otherwise drop the
entry, rewrite the metadata block and update the header. -/
def remove_file (c : CryptoPrims) (nonceMeta : List Nat) (f : List Nat)
    (vt : VolumeType) (key : List Nat) (m : MetadataMap) (filePath : List Nat) :
    Bool × List Nat × MetadataMap :=
  match lookupKey m filePath with
  | none => (false, f, m)
  | some _ =>
    let m' := removeKey m filePath
    let w := write_metadata_block c nonceMeta f key m' (metadataOffset vt)
    (true, update_header_metadata w.1 vt w.2.1 w.2.2, m')

/-- The prefix string computed by `remove_folder` (the folder path,
slash-terminated unless empty). -/
def removeFolderPre (folderPath : List Nat) : List Nat :=
  if folderPath = [] then []
  else if folderPath.getLast? = some 47 then folderPath
  else folderPath ++ [47]

/-- The exact-match key computed by `remove_folder`:
`folder_path.trim_end_matches('/')`. -/
def removeFolderBase (folderPath : List Nat) : List Nat :=
  (folderPath.reverse.dropWhile (fun b => b == 47)).reverse

/-- The key filter of `remove_folder`:
`k == path_itself || (!prefix.is_empty() && k.starts_with(&prefix))`. -/
def removeFolderMatches (folderPath k : List Nat) : Bool :=
  k == removeFolderBase folderPath ||
    (!(removeFolderPre folderPath == [])) && (removeFolderPre folderPath).isPrefixOf k

/-- In-memory part of `remove_folder`: compute the prefix and the trimmed
path, collect the matching keys, and remove them; `false` when nothing
matched. -/
def remove_folder_update (m : MetadataMap) (folderPath : List Nat) :
    Bool × MetadataMap :=
  let keysToRemove := (m.map Prod.fst).filter (removeFolderMatches folderPath)
  if keysToRemove = [] then (false, m)
  else (true, keysToRemove.foldl (fun mm k => removeKey mm k) m)

/-- `remove_folder`: the in-memory removal followed by the metadata
rewrite and header update when anything was removed. -/
def remove_folder (c : CryptoPrims) (nonceMeta : List Nat) (f : List Nat)
    (vt : VolumeType) (key : List Nat) (m : MetadataMap) (folderPath : List Nat) :
    Bool × List Nat × MetadataMap :=
  match remove_folder_update m folderPath with
  | (false, m') => (false, f, m')
  | (true, m') =>
    let w := write_metadata_block c nonceMeta f key m' (metadataOffset vt)
    (true, update_header_metadata w.1 vt w.2.1 w.2.2, m')

/-- One unlock attempt against a given volume: read that volume's header,
derive the key from the password and the header's salt, decrypt and
deserialize the metadata block. -/
def unlock_attempt (c : CryptoPrims) (f : List Nat) (password : List Nat)
    (vt : VolumeType) : Except String (List Nat × MetadataMap) :=
  match (match vt with
         | VolumeType.Standard => read_standard_header f
         | VolumeType.Hidden => read_hidden_header f) with
  | .error e => .error e
  | .ok h =>
    let key := c.deriveKey password h.salt
    match read_metadata_block c f key h.nonce h.size (metadataOffset vt) with
    | .error e => .error e
    | .ok m => .ok (key, m)

/-- The single generic unlock failure message. -/
def unlockFailure : String := "Invalid password or corrupted blob"

/-- `unlock_blob`: try the standard volume, then the hidden volume; both
failing collapses to the one generic error. -/
def unlock_blob (c : CryptoPrims) (f : List Nat) (password : List Nat) :
    Except String (VolumeType × List Nat × MetadataMap) :=
  match unlock_attempt c f password VolumeType.Standard with
  | .ok km => .ok (VolumeType.Standard, km.1, km.2)
  | .error _ =>
    match unlock_attempt c f password VolumeType.Hidden with
    | .ok km => .ok (VolumeType.Hidden, km.1, km.2)
    | .error _ => .error unlockFailure

/-- `init_blob`: refuse equal passwords; draw a standard salt and redraw
the hidden salt until it differs (the draws are the stream `saltDraw`,
with the guarantee `hdraw` that some draw differs); write both empty
metadata blocks, both headers, the random gap padding, and extend the
file to the data-area start.  Returns the bytes of the created file; on
the equal-password error no file is created. -/
def initCt (c : CryptoPrims) (pw salt nonce : List Nat) : List Nat :=
  c.encrypt (c.deriveKey pw salt) nonce (serializeMap [])

/-- The full standard header bytes written by `write_full_standard_header`:
magic, version, salt, metadata nonce, metadata size. -/
def stdHeaderBytes (salt nonce : List Nat) (size : Nat) : List Nat :=
  MAGICB ++ [VERSION] ++ salt ++ nonce ++ le64 size

/-- The full hidden header bytes written by `write_full_hidden_header`. -/
def hidHeaderBytes (salt nonce : List Nat) (size : Nat) : List Nat :=
  salt ++ nonce ++ le64 size

/-- Step 7 of `init_blob`: fill the gap between the end of the standard
metadata ciphertext and the hidden header with random bytes. -/
def padGap (padRng : Nat → Nat) (smEnd : Nat) (f : List Nat) : List Nat :=
  if smEnd < HIDDEN_HEADER_OFFSET then
    writeAt f smEnd ((List.range (HIDDEN_HEADER_OFFSET - smEnd)).map padRng)
  else f

/-- Step 8 of `init_blob`: `set_len` up to the data-area start
(zero-extension). -/
def extendToDataArea (f : List Nat) : List Nat :=
  if f.length < DATA_AREA_START_OFFSET then
    f ++ List.replicate (DATA_AREA_START_OFFSET - f.length) 0
  else f

/-- The bytes of a freshly initialized blob: empty metadata ciphertexts
of both volumes, both full headers, the random gap padding, and the
extension to the data-area start. -/
def initFileBytes (c : CryptoPrims) (saltS saltH nonceS nonceH : List Nat)
    (padRng : Nat → Nat) (pwS pwH : List Nat) : List Nat :=
  extendToDataArea
    (padGap padRng (STANDARD_METADATA_OFFSET + (initCt c pwS saltS nonceS).length)
      (writeAt
        (writeAt
          (writeAt (writeAt [] STANDARD_METADATA_OFFSET (initCt c pwS saltS nonceS))
            HIDDEN_METADATA_OFFSET (initCt c pwH saltH nonceH))
          0 (stdHeaderBytes saltS nonceS (initCt c pwS saltS nonceS).length))
        HIDDEN_HEADER_OFFSET (hidHeaderBytes saltH nonceH (initCt c pwH saltH nonceH).length)))

def init_blob (c : CryptoPrims) (saltS : List Nat) (saltDraw : Nat → List Nat)
    (hdraw : ∃ i, saltDraw i ≠ saltS) (nonceS nonceH : List Nat)
    (padRng : Nat → Nat) (pwS pwH : List Nat) : Except String (List Nat) :=
  if pwS = pwH then .error "Standard and hidden passwords must be different"
  else
    .ok (initFileBytes c saltS (saltDraw (Nat.find hdraw)) nonceS nonceH padRng pwS pwH)

/-- Iterated `add_file` over a list of `(inner path, bytes, mime)`
triples, drawing the data and metadata nonces of step `k` from the
streams at index `i0 + k`. -/
def addAll (c : CryptoPrims) (padRng : Nat → Nat) (nonceD nonceM : Nat → List Nat)
    (vt : VolumeType) (key : List Nat) :
    Nat → List (List Nat × List Nat × List Nat) → List Nat × MetadataMap →
    List Nat × MetadataMap
  | _, [], s => s
  | i0, t :: ts, s =>
    addAll c padRng nonceD nonceM vt key (i0 + 1) ts
      (add_file c padRng (nonceD i0) (nonceM i0) s.1 vt key s.2 t.1 t.2.1 t.2.2)

/-- The per-entry loop of `compact_blob`: read each entry's plaintext from
the old blob and re-add it to the new blob under the same inner path and
MIME. -/
def compactAddAll (c : CryptoPrims) (padRng : Nat → Nat)
    (nonceD nonceM : Nat → List Nat) (oldf : List Nat) (oldKey : List Nat)
    (vt : VolumeType) (newKey : List Nat) :
    Nat → List (List Nat × FileMetadata) → List Nat × MetadataMap →
    Except String (List Nat × MetadataMap)
  | _, [], s => .ok s
  | i0, e :: ts, s =>
    match get_file c oldf oldKey e.2 with
    | .error err => .error err
    | .ok data =>
      compactAddAll c padRng nonceD nonceM oldf oldKey vt newKey (i0 + 1) ts
        (add_file c padRng (nonceD i0) (nonceM i0) s.1 vt newKey s.2 e.1 data
          e.2.mime_type)

/-- `compact_blob`: read both headers and indices of the old blob, init a
fresh blob, unlock both of its volumes, re-add every entry of both old
indices, and return the new blob's bytes (which the source then renames
over the original path). -/
def compact_blob (c : CryptoPrims) (saltS : List Nat) (saltDraw : Nat → List Nat)
    (hdraw : ∃ i, saltDraw i ≠ saltS) (nonceS nonceH : List Nat)
    (padRngInit : Nat → Nat) (padRngAdd : Nat → Nat)
    (nonceD nonceM : Nat → List Nat) (f : List Nat) (pwS pwH : List Nat) :
    Except String (List Nat) := do
  let hS ← read_standard_header f
  let hH ← read_hidden_header f
  let keySold := c.deriveKey pwS hS.salt
  let mS ← read_metadata_block c f keySold hS.nonce hS.size STANDARD_METADATA_OFFSET
  let keyHold := c.deriveKey pwH hH.salt
  let mH ← read_metadata_block c f keyHold hH.nonce hH.size HIDDEN_METADATA_OFFSET
  let tmp ← init_blob c saltS saltDraw hdraw nonceS nonceH padRngInit pwS pwH
  let uS ← unlock_blob c tmp pwS
  let uH ← unlock_blob c tmp pwH
  let sS ← compactAddAll c padRngAdd nonceD nonceM f keySold VolumeType.Standard
    uS.2.1 0 mS (tmp, uS.2.2)
  let sH ← compactAddAll c padRngAdd nonceD nonceM f keyHold VolumeType.Hidden
    uH.2.1 mS.length mH (sS.1, uH.2.2)
  pure sH.1

/-! ## A concrete instantiation of the primitives

Used to evaluate the model at concrete inputs.  Keys and tags are encoded
injectively into single naturals via iterated `Nat.pair`, so the toy
scheme has exact round-trip, length, and authentication behaviour. -/

/-- Injective encoding of a byte list into one natural. -/
def encList (l : List Nat) : Nat :=
  l.foldr (fun b a => Nat.pair b a + 1) 0

/-- The 16-byte tag the toy AEAD appends: the key's code then zeros. -/
def toyTag (key : List Nat) : List Nat :=
  encList key :: List.replicate 15 0

/-- A toy `CryptoPrims` with perfect round-trip and authentication. -/
def toyCrypto : CryptoPrims where
  deriveKey := fun pw salt => encList pw :: encList salt :: List.replicate 30 0
  encrypt := fun k _ pt => pt ++ toyTag k
  decrypt := fun k _ ct =>
    if 16 ≤ ct.length ∧ ct.drop (ct.length - 16) = toyTag k then
      some (ct.take (ct.length - 16))
    else none

/-! ## Auxiliary definitions used by the statements -/

/-- Numeric well-formedness of one index entry (every length and field
fits in a `u64`), needed for the bincode round-trip. -/
def EntryWf (kv : List Nat × FileMetadata) : Prop :=
  kv.1.length < 2 ^ 64 ∧ kv.2.size < 2 ^ 64 ∧ kv.2.data_offset < 2 ^ 64 ∧
    kv.2.data_length < 2 ^ 64 ∧ kv.2.mime_type.length < 2 ^ 64

/-- Numeric well-formedness of a whole index. -/
def MapWf (m : MetadataMap) : Prop :=
  List.length m < 2 ^ 64 ∧ ∀ kv ∈ m, EntryWf kv

/-- The minimal 1x1 grayscale PNG built by the repository's own test
fixture `create_minimal_png` (IHDR, IDAT, IEND). -/
def minPng : List Nat :=
  pngSignature ++
    (be32 13 ++ [73, 72, 68, 82] ++ [0, 0, 0, 1, 0, 0, 0, 1, 8, 0, 0, 0, 0] ++
      be32 0x376ef9db) ++
    (be32 9 ++ idatType ++ [120, 156, 98, 0, 0, 0, 2, 0, 1] ++ be32 0x25be6486) ++
    (be32 0 ++ iendType ++ be32 0xae426082)

/-- Raw bytes of one PNG chunk: a `(type, data, stored crc bytes)`
triple in standard framing. -/
def pngChunkBytes (ch : List Nat × List Nat × List Nat) : List Nat :=
  be32 ch.2.1.length ++ ch.1 ++ ch.2.1 ++ ch.2.2

/-- A PNG file as the signature followed by framed chunks. -/
def mkPng (chunks : List (List Nat × List Nat × List Nat)) : List Nat :=
  pngSignature ++ (chunks.map pngChunkBytes).flatten

/-- Shape constraints making a chunk triple well-framed. -/
def PngChunkShape (ch : List Nat × List Nat × List Nat) : Prop :=
  ch.1.length = 4 ∧ ch.2.1.length < 2 ^ 32 ∧ ch.2.2.length = 4

/-- Raw bytes of one JPEG segment `(marker byte, data)`: `FF`, the
marker, the big-endian length (counting itself), the data. -/
def jpegSegBytes (s : Nat × List Nat) : List Nat :=
  [255, s.1] ++ be16 (s.2.length + 2) ++ s.2

/-- A JPEG file as SOI, a run of framed segments, and EOI. -/
def mkJpeg (segs : List (Nat × List Nat)) : List Nat :=
  [255, 216] ++ (segs.map jpegSegBytes).flatten ++ [255, 217]

/-- Shape constraints on a JPEG segment: not an SOS marker, a length that
fits the 16-bit field, and a COM segment must not begin with the stego
marker. -/
def JpegSegShape (s : Nat × List Nat) : Prop :=
  s.1 ≠ 218 ∧ s.2.length + 2 < 65536 ∧ (s.1 = 254 → s.2.take 11 ≠ markerB)

/-- The removal predicate claimed by the specification: the key is the
folder path itself or extends it by a slash separator. -/
def claimFolderMatches (folderPath k : List Nat) : Prop :=
  k = folderPath ∨ k.take (folderPath.length + 1) = folderPath ++ [47]

/-- The end of each volume's metadata region: the standard region runs up
to the hidden header, the hidden region up to the data area. -/
def regionEnd : VolumeType → Nat
  | .Standard => HIDDEN_HEADER_OFFSET
  | .Hidden => DATA_AREA_START_OFFSET

/-- The on-disk state of one volume: its salt field, its header
nonce-and-size field for the current metadata nonce `nm`, and the
metadata ciphertext of the index `m` under `key` and `nm`. -/
def VolDisk (c : CryptoPrims) (vt : VolumeType) (key salt nm : List Nat)
    (m : MetadataMap) (f : List Nat) : Prop :=
  extractSeg f (saltOffset vt) 16 = salt ∧
  extractSeg f (headerFieldOffset vt) 32
    = nm ++ le64 (c.encrypt key nm (serializeMap m)).length ∧
  extractSeg f (metadataOffset vt) (c.encrypt key nm (serializeMap m)).length
    = c.encrypt key nm (serializeMap m)

/-- One added file is recorded and readable: the index holds an entry at
its path whose MIME string and size match, whose data block lies inside
the data area of the file, and whose decryption returns the bytes. -/
def EntryGood (c : CryptoPrims) (key : List Nat) (f : List Nat)
    (e : List Nat × List Nat × List Nat) (m : MetadataMap) : Prop :=
  ∃ md, lookupKey m e.1 = some md ∧ md.mime_type = e.2.2 ∧
    md.size = e.2.1.length ∧
    DATA_AREA_START_OFFSET ≤ md.data_offset ∧
    md.data_offset + md.data_length ≤ f.length ∧
    md.data_length = 40 + e.2.1.length ∧
    read_file_data c f key md = .ok e.2.1

/-- The invariant maintained by the add loop after the files `done` have
been added to volume `vt` under `key`, starting from a file of length
`L0` (the data-area start for a fresh blob, or further along when blocks
of the other volume already follow the data-area start). -/
def C1Inv (c : CryptoPrims) (vt : VolumeType) (key salt : List Nat) (L0 : Nat)
    (done : List (List Nat × List Nat × List Nat)) (f : List Nat)
    (m : MetadataMap) : Prop :=
  f.length = L0 + (done.map (fun e => 40 + e.2.1.length)).sum ∧
  m.map Prod.fst = done.map (fun e => e.1) ∧
  (serializeMap m).length
    = 8 + (done.map (fun e => 40 + e.1.length + e.2.2.length)).sum ∧
  (∀ kv ∈ m, EntryWf kv) ∧
  (∃ nm, nm.length = 24 ∧ VolDisk c vt key salt nm m f) ∧
  (∀ e ∈ done, EntryGood c key f e m)

/-- Well-formedness of a PNG chunk-list tail as seen by the walkers: every
chunk up to and including the first `IEND` is well-framed and not a stego
chunk. -/
def PngTailWf : List (List Nat × List Nat × List Nat) → Prop
  | [] => True
  | ch :: t => PngChunkShape ch ∧ ch.1 ≠ rundType ∧ (ch.1 ≠ iendType → PngTailWf t)

/-- The chunks the embed copy loop keeps: everything up to and including
the first `IEND`. -/
def pngCopyTail : List (List Nat × List Nat × List Nat) →
    List (List Nat × List Nat × List Nat)
  | [] => []
  | ch :: t => ch :: (if ch.1 = iendType then [] else pngCopyTail t)

instance instDecPngChunkShape (ch : List Nat × List Nat × List Nat) :
    Decidable (PngChunkShape ch) := by
  unfold PngChunkShape; infer_instance

instance instDecPngTailWf : (l : List (List Nat × List Nat × List Nat)) →
    Decidable (PngTailWf l)
  | [] => by unfold PngTailWf; infer_instance
  | ch :: t => by
    unfold PngTailWf
    have := instDecPngTailWf t
    infer_instance

instance instDecJpegSegShape (s : Nat × List Nat) : Decidable (JpegSegShape s) := by
  unfold JpegSegShape; infer_instance

/-- The spans the JPEG stego-segment scanner reports for a run of
steganographic COM segments laid out back to back from position `q`. -/
def jpegSpans : Nat → List (List Nat) → List (Nat × Nat)
  | _, [] => []
  | q, ck :: t => (q, q + 23 + ck.length) :: jpegSpans (q + 23 + ck.length) t

/-- A minimal JPEG (SOI, JFIF APP0, EOI), after the repository's own test
fixture `create_minimal_jpeg`. -/
def minJpeg : List Nat :=
  mkJpeg [(224, [74, 70, 73, 70, 0, 1, 1, 0, 0, 1, 0, 1, 0, 0])]

/-- A minimal MP4: a single 12-byte `ftyp` box. -/
def minMp4 : List Nat := be32 12 ++ ftypB ++ [0, 0, 0, 0]

/-- A minimal PDF: header, one newline, and the EOF sentinel. -/
def minPdf : List Nat := pdfHeaderB ++ [49, 46, 52, 10] ++ pdfEofB

/-- The password used to unlock a given volume. -/
def volPw (pwS pwH : List Nat) : VolumeType → List Nat
  | .Standard => pwS
  | .Hidden => pwH

/-- The salt of a given volume as laid down by `init_blob`. -/
def volSalt (saltS saltH : List Nat) : VolumeType → List Nat
  | .Standard => saltS
  | .Hidden => saltH

/-! ## Lemmas: the byte-file toolkit -/

theorem length_extractSeg (f : List Nat) (off len : Nat) :
    (extractSeg f off len).length = min len (f.length - off) := by
  simp [extractSeg]

theorem length_extractSeg_of_le (f : List Nat) (off len : Nat)
    (h : off + len ≤ f.length) : (extractSeg f off len).length = len := by
  simp [extractSeg]; omega

theorem extractSeg_append_left (a b : List Nat) (off len : Nat)
    (h : off + len ≤ a.length) : extractSeg (a ++ b) off len = extractSeg a off len := by
  unfold extractSeg
  have h1 : off ≤ a.length := by omega
  rw [List.drop_append_of_le_length h1, List.take_append_of_le_length]
  simp; omega

theorem extractSeg_append_right (a b : List Nat) (k len : Nat) :
    extractSeg (a ++ b) (a.length + k) len = extractSeg b k len := by
  unfold extractSeg
  rw [List.drop_append]

theorem extractSeg_append_right' (a b : List Nat) (off len : Nat)
    (h : a.length ≤ off) : extractSeg (a ++ b) off len = extractSeg b (off - a.length) len := by
  have h2 := extractSeg_append_right a b (off - a.length) len
  rw [show a.length + (off - a.length) = off from by omega] at h2
  exact h2

theorem extractSeg_zero_length (f : List Nat) (h : f.length ≤ off) :
    extractSeg f off len = [] := by
  unfold extractSeg
  rw [List.drop_eq_nil_of_le h]; simp

theorem extractSeg_eq_self (f : List Nat) : extractSeg f 0 f.length = f := by
  simp [extractSeg]

theorem getD_drop (l : List Nat) (m k : Nat) : (l.drop m).getD k 0 = l.getD (m + k) 0 := by
  simp [List.getD_eq_getElem?_getD, List.getElem?_drop]

theorem getD_take (l : List Nat) (n k : Nat) (h : k < n) :
    (l.take n).getD k 0 = l.getD k 0 := by
  simp [List.getD_eq_getElem?_getD, List.getElem?_take, h]

theorem getD_replicate (n k x : Nat) (h : k < n) :
    (List.replicate n x).getD k 0 = x := by
  simp [List.getD_eq_getElem?_getD, List.getElem?_replicate, h]

theorem getD_out_of_range (l : List Nat) (k : Nat) (h : l.length ≤ k) :
    l.getD k 0 = 0 := by
  simp [List.getD_eq_getElem?_getD, List.getElem?_eq_none, h]

theorem getD_extractSeg (f : List Nat) (off len k : Nat) (h : k < len) :
    (extractSeg f off len).getD k 0 = f.getD (off + k) 0 := by
  unfold extractSeg
  rw [getD_take _ _ _ h, getD_drop]

theorem getD_of_extractSeg_eq (f s : List Nat) (off len k : Nat)
    (h : extractSeg f off len = s) (hk : k < len) :
    f.getD (off + k) 0 = s.getD k 0 := by
  rw [← h, getD_extractSeg _ _ _ _ hk]

theorem getD_append_left (a b : List Nat) (i : Nat) (h : i < a.length) :
    (a ++ b).getD i 0 = a.getD i 0 :=
  List.getD_append a b 0 i h

theorem getD_append_right (a b : List Nat) (i : Nat) (h : a.length ≤ i) :
    (a ++ b).getD i 0 = b.getD (i - a.length) 0 :=
  List.getD_append_right a b 0 i h

theorem length_writeAt (f : List Nat) (off : Nat) (d : List Nat) :
    (writeAt f off d).length = max f.length (off + d.length) := by
  simp [writeAt]
  omega

theorem writeAt_parts (f : List Nat) (off : Nat) (d : List Nat) :
    writeAt f off d =
      (f ++ List.replicate (off - f.length) 0).take off ++
        (d ++ f.drop (off + d.length)) := by
  simp [writeAt]

theorem writeAt_parts_length (f : List Nat) (off : Nat) :
    ((f ++ List.replicate (off - f.length) 0).take off).length = off := by
  simp
  omega

theorem extractSeg_writeAt_inside (f d : List Nat) (off o l : Nat)
    (h1 : off ≤ o) (h2 : o + l ≤ off + d.length) :
    extractSeg (writeAt f off d) o l = extractSeg d (o - off) l := by
  rw [writeAt_parts]
  rw [extractSeg_append_right' _ _ o l (by rw [writeAt_parts_length]; omega)]
  rw [writeAt_parts_length]
  rw [extractSeg_append_left _ _ _ _ (by omega)]

theorem extractSeg_writeAt_after (f d : List Nat) (off o l : Nat)
    (h : off + d.length ≤ o) :
    extractSeg (writeAt f off d) o l = extractSeg f o l := by
  rw [writeAt_parts]
  rw [extractSeg_append_right' _ _ o l (by rw [writeAt_parts_length]; omega)]
  rw [writeAt_parts_length]
  rw [extractSeg_append_right' _ _ _ l (by omega)]
  unfold extractSeg
  rw [List.drop_drop]
  congr 2
  omega

theorem extractSeg_writeAt_before (f d : List Nat) (off o l : Nat)
    (h1 : o + l ≤ off) (h2 : o + l ≤ f.length) :
    extractSeg (writeAt f off d) o l = extractSeg f o l := by
  rw [writeAt_parts]
  rw [extractSeg_append_left _ _ _ _ (by rw [writeAt_parts_length]; omega)]
  unfold extractSeg
  rw [List.take_drop]
  rw [List.take_take]
  have hm : min (o + l) off = o + l := by omega
  rw [hm, List.take_append_of_le_length (by omega), ← List.take_drop]

theorem getD_writeAt_inside (f d : List Nat) (off i : Nat)
    (h1 : off ≤ i) (h2 : i < off + d.length) :
    (writeAt f off d).getD i 0 = d.getD (i - off) 0 := by
  rw [writeAt_parts]
  rw [getD_append_right _ _ i (by rw [writeAt_parts_length]; omega)]
  rw [writeAt_parts_length]
  rw [getD_append_left _ _ _ (by omega)]

theorem getD_writeAt_after (f d : List Nat) (off i : Nat)
    (h : off + d.length ≤ i) :
    (writeAt f off d).getD i 0 = f.getD i 0 := by
  rw [writeAt_parts]
  rw [getD_append_right _ _ i (by rw [writeAt_parts_length]; omega)]
  rw [writeAt_parts_length]
  rw [getD_append_right _ _ _ (by omega)]
  rw [getD_drop]
  congr 1
  omega

theorem getD_writeAt_before (f d : List Nat) (off i : Nat)
    (h1 : i + 1 ≤ off) (h2 : i + 1 ≤ f.length) :
    (writeAt f off d).getD i 0 = f.getD i 0 := by
  rw [writeAt_parts]
  rw [getD_append_left _ _ _ (by rw [writeAt_parts_length]; omega)]
  rw [getD_take _ _ _ (by omega)]
  rw [getD_append_left _ _ _ (by omega)]

/-! ## Lemmas: integer byte encodings -/

theorem length_le64 (n : Nat) : (le64 n).length = 8 := by simp [le64]

theorem length_be64 (n : Nat) : (be64 n).length = 8 := by simp [be64]

theorem length_be32 (n : Nat) : (be32 n).length = 4 := by simp [be32]

theorem length_be16 (n : Nat) : (be16 n).length = 2 := by simp [be16]

theorem readLe64_le64 (n : Nat) (h : n < 2 ^ 64) : readLe64 (le64 n) = n := by
  simp [readLe64, le64, List.getD_cons_zero, List.getD_cons_succ]
  omega

theorem readBe64_be64 (n : Nat) (h : n < 2 ^ 64) : readBe64 (be64 n) = n := by
  simp [readBe64, be64, List.getD_cons_zero, List.getD_cons_succ]
  omega

theorem readBe32_be32 (n : Nat) (h : n < 2 ^ 32) : readBe32 (be32 n) = n := by
  simp [readBe32, be32, List.getD_cons_zero, List.getD_cons_succ]
  omega

theorem readBe16_be16 (n : Nat) (h : n < 2 ^ 16) : readBe16 (be16 n) = n := by
  simp [readBe16, be16, List.getD_cons_zero, List.getD_cons_succ]
  omega

/-! ## Lemmas: substring search -/

theorem findSubFrom_eq_none (f pat : List Nat) (fuel i : Nat)
    (h : ∀ k, i ≤ k → ¬occursAt pat f k) : findSubFrom f pat fuel i = none := by
  induction fuel generalizing i with
  | zero => rfl
  | succ fuel ih =>
    unfold findSubFrom
    split
    · rw [if_neg (h i le_rfl)]
      exact ih (i + 1) (fun k hk => h k (by omega))
    · rfl

theorem findSubFrom_eq_some (f pat : List Nat) (fuel i j : Nat)
    (hij : i ≤ j) (hfuel : j < i + fuel) (hocc : occursAt pat f j)
    (hmin : ∀ k, i ≤ k → k < j → ¬occursAt pat f k) :
    findSubFrom f pat fuel i = some j := by
  induction fuel generalizing i with
  | zero => omega
  | succ fuel ih =>
    unfold findSubFrom
    rw [if_pos (by have := hocc.1; omega)]
    by_cases hcase : occursAt pat f i
    · have hji : i = j := by
        by_contra hne
        exact hmin i le_rfl (by omega) hcase
      rw [if_pos hcase, hji]
    · rw [if_neg hcase]
      have hij' : i + 1 ≤ j := by
        rcases Nat.eq_or_lt_of_le hij with he | hl
        · exact absurd (he ▸ hocc) hcase
        · omega
      exact ih (i + 1) hij' (by omega) (fun k hk1 hk2 => hmin k (by omega) hk2)

theorem findSub_eq_none (f pat : List Nat) (h : ∀ k, ¬occursAt pat f k) :
    findSub f pat = none :=
  findSubFrom_eq_none f pat _ 0 (fun k _ => h k)

theorem findSub_eq_some (f pat : List Nat) (j : Nat) (hocc : occursAt pat f j)
    (hmin : ∀ k, k < j → ¬occursAt pat f k) : findSub f pat = some j := by
  apply findSubFrom_eq_some f pat _ 0 j (Nat.zero_le j) _ hocc
    (fun k _ hk => hmin k hk)
  have := hocc.1
  omega

theorem containsSubB_of_occurs (f pat : List Nat) (j : Nat)
    (hocc : occursAt pat f j) : containsSubB f pat = true := by
  have hex : ∃ k, occursAt pat f k := ⟨j, hocc⟩
  have := findSub_eq_some f pat (Nat.find hex) (Nat.find_spec hex)
    (fun k hk => Nat.find_min hex hk)
  simp [containsSubB, this]

theorem containsSubB_eq_false (f pat : List Nat)
    (h : ∀ k, ¬occursAt pat f k) : containsSubB f pat = false := by
  simp [containsSubB, findSub_eq_none f pat h]

theorem findSubLastGo_eq_none (f pat : List Nat) (m : Nat)
    (h : ∀ k, k < m → ¬occursAt pat f k) : findSubLastGo f pat m = none := by
  induction m with
  | zero => rfl
  | succ m ih =>
    unfold findSubLastGo
    rw [if_neg (h m (by omega))]
    exact ih (fun k hk => h k (by omega))

theorem findSubLastGo_eq_some (f pat : List Nat) (m j : Nat) (hj : j < m)
    (hocc : occursAt pat f j) (hmax : ∀ k, j < k → k < m → ¬occursAt pat f k) :
    findSubLastGo f pat m = some j := by
  induction m with
  | zero => omega
  | succ m ih =>
    unfold findSubLastGo
    by_cases hcase : occursAt pat f m
    · have hjm : j = m := by
        by_contra hne
        exact hmax m (by omega) (by omega) hcase
      rw [if_pos hcase, hjm]
    · rw [if_neg hcase]
      have hj' : j < m := by
        rcases Nat.lt_succ_iff_lt_or_eq.mp hj with hl | he
        · exact hl
        · exact absurd (he ▸ hocc) hcase
      exact ih hj' (fun k hk1 hk2 => hmax k hk1 (by omega))

theorem findSubLast_eq_none (f pat : List Nat) (h : ∀ k, ¬occursAt pat f k) :
    findSubLast f pat = none :=
  findSubLastGo_eq_none f pat _ (fun k _ => h k)

theorem findSubLast_eq_some (f pat : List Nat) (j : Nat) (hocc : occursAt pat f j)
    (hmax : ∀ k, j < k → ¬occursAt pat f k) : findSubLast f pat = some j := by
  apply findSubLastGo_eq_some f pat _ j (by have := hocc.1; omega) hocc
  exact fun k hk _ => hmax k hk

theorem occursAt_append_left (pat a b : List Nat) (j : Nat)
    (h : occursAt pat a j) : occursAt pat (a ++ b) j := by
  obtain ⟨h1, h2⟩ := h
  refine ⟨by simp; omega, ?_⟩
  rw [extractSeg_append_left _ _ _ _ h1, h2]

/-! ## Lemmas: payload chunking -/

theorem chunksOfGo_flatten (n : Nat) (hn : 0 < n) (fuel : Nat) (l : List Nat)
    (hfuel : l.length < fuel) : (chunksOfGo n fuel l).flatten = l := by
  induction fuel generalizing l with
  | zero => omega
  | succ fuel ih =>
    unfold chunksOfGo
    by_cases hl : l = []
    · simp [hl]
    · rw [if_neg hl, if_neg (by omega)]
      have hlen : 0 < l.length := List.length_pos.mpr hl
      simp only [List.flatten_cons]
      rw [ih (l.drop n) (by simp [List.length_drop]; omega)]
      exact List.take_append_drop n l

theorem chunksOf_flatten (n : Nat) (l : List Nat) (hn : 0 < n) :
    (chunksOf n l).flatten = l :=
  chunksOfGo_flatten n hn _ l (by omega)

theorem chunksOfGo_mem (n : Nat) (hn : 0 < n) (fuel : Nat) (l c : List Nat)
    (hc : c ∈ chunksOfGo n fuel l) : c ≠ [] ∧ c.length ≤ n := by
  induction fuel generalizing l with
  | zero => simp [chunksOfGo] at hc
  | succ fuel ih =>
    unfold chunksOfGo at hc
    by_cases hl : l = []
    · simp [hl] at hc
    · rw [if_neg hl, if_neg (by omega)] at hc
      rcases List.mem_cons.mp hc with he | hm
      · subst he
        have hlen : 0 < l.length := List.length_pos.mpr hl
        constructor
        · intro hcontra
          have hlt : (l.take n).length = min n l.length := List.length_take n l
          rw [hcontra] at hlt
          simp at hlt
          omega
        · simp
      · exact ih (l.drop n) hm

theorem chunksOf_mem (n : Nat) (l c : List Nat) (hn : 0 < n)
    (hc : c ∈ chunksOf n l) : c ≠ [] ∧ c.length ≤ n :=
  chunksOfGo_mem n hn _ l c hc

/-! ## Lemmas: the toy primitives -/

theorem encList_nil : encList [] = 0 := rfl

theorem encList_cons (x : Nat) (t : List Nat) :
    encList (x :: t) = Nat.pair x (encList t) + 1 := rfl

theorem encList_injective : ∀ a b : List Nat, encList a = encList b → a = b := by
  intro a
  induction a with
  | nil =>
    intro b h
    cases b with
    | nil => rfl
    | cons y s => simp [encList_nil, encList_cons] at h
  | cons x t ih =>
    intro b h
    cases b with
    | nil => simp [encList_nil, encList_cons] at h
    | cons y s =>
      rw [encList_cons, encList_cons] at h
      have h2 : Nat.pair x (encList t) = Nat.pair y (encList s) := by omega
      have hp := Nat.pair_eq_pair.mp h2
      rw [hp.1, ih s hp.2]

theorem toyTag_injective (k k' : List Nat) (h : toyTag k = toyTag k') : k = k' := by
  simp [toyTag] at h
  exact encList_injective _ _ h

theorem length_toyTag (k : List Nat) : (toyTag k).length = 16 := by
  simp [toyTag]

theorem toyCrypto_EncLen : EncLen toyCrypto := by
  intro k n pt
  simp [toyCrypto, toyTag]

theorem toyCrypto_DecEnc : DecEnc toyCrypto := by
  intro k n pt
  have hlen : (pt ++ toyTag k).length = pt.length + 16 := by simp [length_toyTag]
  have hd : (pt ++ toyTag k).drop ((pt ++ toyTag k).length - 16) = toyTag k := by
    rw [hlen]
    simpa using List.drop_left pt (toyTag k)
  have ht : (pt ++ toyTag k).take ((pt ++ toyTag k).length - 16) = pt := by
    rw [hlen]
    simpa using List.take_left pt (toyTag k)
  simp only [toyCrypto]
  rw [if_pos ⟨by omega, hd⟩, ht]

theorem toyCrypto_DecAuth : DecAuth toyCrypto := by
  intro k k' n n' pt hne
  have hlen : (pt ++ toyTag k).length = pt.length + 16 := by simp [length_toyTag]
  have hd : (pt ++ toyTag k).drop ((pt ++ toyTag k).length - 16) = toyTag k := by
    rw [hlen]
    simpa using List.drop_left pt (toyTag k)
  simp only [toyCrypto]
  rw [if_neg]
  intro hcl
  have hteq : toyTag k = toyTag k' := by rw [← hd]; exact hcl.2
  exact hne (toyTag_injective k k' hteq)

theorem toyCrypto_DecLen : DecLen toyCrypto := by
  intro k n ct pt h
  simp only [toyCrypto] at h
  split at h
  · rename_i hcond
    have := Option.some.inj h
    rw [← this]
    simp
    omega
  · exact absurd h (by simp)

theorem toyCrypto_KdfInj : KdfInj toyCrypto := by
  intro p p' s hne heq
  simp only [toyCrypto, List.cons.injEq] at heq
  exact hne (encList_injective _ _ heq.1)

/-! ## Lemmas: the metadata index and its serialization -/

theorem lookupKey_cons (k' : List Nat) (v : FileMetadata) (t : MetadataMap)
    (k : List Nat) :
    lookupKey ((k', v) :: t) k = if k' = k then some v else lookupKey t k := rfl

theorem lookupKey_append_first (m1 m2 : MetadataMap) (k : List Nat)
    (h : lookupKey m1 k = none) :
    lookupKey (m1 ++ m2) k = lookupKey m2 k := by
  induction m1 with
  | nil => rfl
  | cons kv t ih =>
    obtain ⟨k1, v1⟩ := kv
    rw [lookupKey_cons] at h
    rw [List.cons_append, lookupKey_cons]
    split at h
    · exact absurd h (by simp)
    · rename_i hne
      rw [if_neg hne]
      exact ih h

theorem readLe64_append (a r : List Nat) (h : a.length = 8) :
    readLe64 (a ++ r) = readLe64 a := by
  unfold readLe64
  rw [getD_append_left a r 0 (by omega), getD_append_left a r 1 (by omega),
    getD_append_left a r 2 (by omega), getD_append_left a r 3 (by omega),
    getD_append_left a r 4 (by omega), getD_append_left a r 5 (by omega),
    getD_append_left a r 6 (by omega), getD_append_left a r 7 (by omega)]

theorem readLe64_lt (n : Nat) : readLe64 (le64 n) < 2 ^ 64 := by
  simp [readLe64, le64, List.getD_cons_zero, List.getD_cons_succ]
  omega

theorem parseLe64_le64 (n : Nat) (r : List Nat) (h : n < 2 ^ 64) :
    parseLe64 (le64 n ++ r) = some (n, r) := by
  unfold parseLe64
  rw [if_pos (by simp [length_le64])]
  have hread : readLe64 (le64 n ++ r) = n := by
    rw [readLe64_append _ _ (length_le64 n), readLe64_le64 n h]
  have hdrop : (le64 n ++ r).drop 8 = r := by
    rw [show (8 : Nat) = (le64 n).length from (length_le64 n).symm]
    exact List.drop_left _ _
  rw [hread, hdrop]

theorem parseBytes_exact (b r : List Nat) : parseBytes b.length (b ++ r) = some (b, r) := by
  unfold parseBytes
  rw [if_pos (by simp)]
  rw [List.take_left, List.drop_left]

set_option maxHeartbeats 1000000 in
theorem parseEntry_serializeEntry (kv : List Nat × FileMetadata) (r : List Nat)
    (h : EntryWf kv) : parseEntry (serializeEntry kv ++ r) = some (kv, r) := by
  obtain ⟨h1, h2, h3, h4, h5⟩ := h
  unfold serializeEntry parseEntry
  simp only [List.append_assoc]
  rw [parseLe64_le64 _ _ h1]
  simp only [Option.bind_eq_bind, Option.some_bind]
  rw [parseBytes_exact]
  simp only [Option.some_bind]
  rw [parseLe64_le64 _ _ h2]
  simp only [Option.some_bind]
  rw [parseLe64_le64 _ _ h3]
  simp only [Option.some_bind]
  rw [parseLe64_le64 _ _ h4]
  simp only [Option.some_bind]
  rw [parseLe64_le64 _ _ h5]
  simp only [Option.some_bind]
  rw [parseBytes_exact]
  simp only [Option.some_bind]
  rfl

theorem parseEntries_serialized (m : MetadataMap) (r : List Nat)
    (h : ∀ kv ∈ m, EntryWf kv) :
    parseEntries (List.length m) ((m.map serializeEntry).flatten ++ r) = some (m, r) := by
  induction m with
  | nil => rfl
  | cons kv t ih =>
    simp only [List.map_cons, List.flatten_cons, List.length_cons, List.append_assoc]
    unfold parseEntries
    rw [parseEntry_serializeEntry kv _ (h kv (by simp))]
    simp only [Option.bind_eq_bind, Option.some_bind]
    rw [ih (fun e he => h e (by simp [he]))]
    rfl

theorem deserializeMap_serializeMap (m : MetadataMap) (h : MapWf m) :
    deserializeMap (serializeMap m) = some m := by
  obtain ⟨h1, h2⟩ := h
  unfold deserializeMap serializeMap
  rw [parseLe64_le64 _ _ h1]
  simp only [Option.bind_eq_bind, Option.some_bind]
  rw [show (m.map serializeEntry).flatten = (m.map serializeEntry).flatten ++ [] from by simp]
  rw [parseEntries_serialized m [] h2]
  rfl

theorem removeKey_eq_filter (m : MetadataMap) (k : List Nat) :
    removeKey m k = m.filter (fun kv => !(kv.1 == k)) := rfl

theorem foldl_removeKey (ks : List (List Nat)) (m : MetadataMap) :
    ks.foldl (fun mm k => removeKey mm k) m
      = m.filter (fun kv => !(ks.contains kv.1)) := by
  induction ks generalizing m with
  | nil => simp
  | cons k t ih =>
    rw [List.foldl_cons, ih (removeKey m k), removeKey_eq_filter, List.filter_filter]
    apply List.filter_congr
    intro kv _
    by_cases hk : kv.1 = k <;> simp [hk]

/-! ## Lemmas: the layout written by init_blob -/

theorem extractSeg_take_all (l : List Nat) (n : Nat) (h : l.length ≤ n) :
    extractSeg l 0 n = l := by
  unfold extractSeg
  rw [List.drop_zero]
  exact List.take_all_of_le h

theorem stdHeaderBytes_slices (salt nonce : List Nat) (n : Nat)
    (hs : salt.length = 16) (hn : nonce.length = 24) :
    extractSeg (stdHeaderBytes salt nonce n) 0 9 = MAGICB ++ [VERSION] ∧
    extractSeg (stdHeaderBytes salt nonce n) 9 16 = salt ∧
    extractSeg (stdHeaderBytes salt nonce n) 25 32 = nonce ++ le64 n := by
  have hshape : stdHeaderBytes salt nonce n
      = (MAGICB ++ [VERSION]) ++ (salt ++ (nonce ++ le64 n)) := by
    simp [stdHeaderBytes]
  have hlen9 : (MAGICB ++ [VERSION]).length = 9 := by decide
  refine ⟨?_, ?_, ?_⟩
  · rw [hshape, extractSeg_append_left _ _ _ _ (by rw [hlen9])]
    exact extractSeg_take_all _ _ (by rw [hlen9])
  · rw [hshape, extractSeg_append_right' _ _ _ _ (by rw [hlen9]), hlen9]
    rw [show (9 : Nat) - 9 = 0 from rfl, extractSeg_append_left _ _ _ _ (by omega)]
    exact extractSeg_take_all _ _ (by omega)
  · have hshape2 : stdHeaderBytes salt nonce n
        = ((MAGICB ++ [VERSION]) ++ salt) ++ (nonce ++ le64 n) := by
      simp [stdHeaderBytes]
    have hlen25 : ((MAGICB ++ [VERSION]) ++ salt).length = 25 := by
      simp [hlen9, hs]
      decide
    rw [hshape2, extractSeg_append_right' _ _ _ _ (by rw [hlen25]), hlen25]
    rw [show (25 : Nat) - 25 = 0 from rfl]
    exact extractSeg_take_all _ _ (by simp [hn, length_le64])

theorem hidHeaderBytes_slices (salt nonce : List Nat) (n : Nat)
    (hs : salt.length = 16) (hn : nonce.length = 24) :
    extractSeg (hidHeaderBytes salt nonce n) 0 16 = salt ∧
    extractSeg (hidHeaderBytes salt nonce n) 16 32 = nonce ++ le64 n := by
  have hshape : hidHeaderBytes salt nonce n = salt ++ (nonce ++ le64 n) := by
    simp [hidHeaderBytes]
  refine ⟨?_, ?_⟩
  · rw [hshape, extractSeg_append_left _ _ _ _ (by omega)]
    exact extractSeg_take_all _ _ (by omega)
  · rw [hshape, extractSeg_append_right' _ _ _ _ (by omega), hs]
    rw [show (16 : Nat) - 16 = 0 from rfl]
    exact extractSeg_take_all _ _ (by simp [hn, length_le64])

theorem length_hidHeaderBytes (salt nonce : List Nat) (n : Nat)
    (hs : salt.length = 16) (hn : nonce.length = 24) :
    (hidHeaderBytes salt nonce n).length = 48 := by
  simp [hidHeaderBytes, hs, hn, length_le64]

theorem length_stdHeaderBytes (salt nonce : List Nat) (n : Nat)
    (hs : salt.length = 16) (hn : nonce.length = 24) :
    (stdHeaderBytes salt nonce n).length = 57 := by
  simp [stdHeaderBytes, hs, hn, length_le64, MAGICB]

set_option maxHeartbeats 1000000 in
/-- Layout facts for a freshly initialized blob whose two metadata
ciphertexts fit in their regions: length, magic and version, both salts,
both header nonce-size fields, and both metadata ciphertexts. -/
theorem initFileBytes_spec (c : CryptoPrims) (saltS saltH nonceS nonceH : List Nat)
    (padRng : Nat → Nat) (pwS pwH : List Nat)
    (hsS : saltS.length = 16) (hsH : saltH.length = 16)
    (hnS : nonceS.length = 24) (hnH : nonceH.length = 24)
    (hbS : STANDARD_METADATA_OFFSET + (initCt c pwS saltS nonceS).length
      ≤ HIDDEN_HEADER_OFFSET)
    (hbH : HIDDEN_METADATA_OFFSET + (initCt c pwH saltH nonceH).length
      ≤ DATA_AREA_START_OFFSET) :
    (initFileBytes c saltS saltH nonceS nonceH padRng pwS pwH).length
        = DATA_AREA_START_OFFSET ∧
    extractSeg (initFileBytes c saltS saltH nonceS nonceH padRng pwS pwH) 0 9
        = MAGICB ++ [VERSION] ∧
    extractSeg (initFileBytes c saltS saltH nonceS nonceH padRng pwS pwH) 9 16 = saltS ∧
    extractSeg (initFileBytes c saltS saltH nonceS nonceH padRng pwS pwH) 25 32
        = nonceS ++ le64 (initCt c pwS saltS nonceS).length ∧
    extractSeg (initFileBytes c saltS saltH nonceS nonceH padRng pwS pwH) 57
        (initCt c pwS saltS nonceS).length = initCt c pwS saltS nonceS ∧
    extractSeg (initFileBytes c saltS saltH nonceS nonceH padRng pwS pwH) 65536 16
        = saltH ∧
    extractSeg (initFileBytes c saltS saltH nonceS nonceH padRng pwS pwH) 65552 32
        = nonceH ++ le64 (initCt c pwH saltH nonceH).length ∧
    extractSeg (initFileBytes c saltS saltH nonceS nonceH padRng pwS pwH) 65584
        (initCt c pwH saltH nonceH).length = initCt c pwH saltH nonceH := by
  have hSM : STANDARD_METADATA_OFFSET = 57 := by decide
  have hHM : HIDDEN_METADATA_OFFSET = 65584 := by decide
  have hHH : HIDDEN_HEADER_OFFSET = 65536 := by decide
  have hDA : DATA_AREA_START_OFFSET = 1114160 := by decide
  rw [hSM, hHH] at hbS
  rw [hHM, hDA] at hbH
  set ctS := initCt c pwS saltS nonceS with hctS
  set ctH := initCt c pwH saltH nonceH with hctH
  set hdrS := stdHeaderBytes saltS nonceS ctS.length with hhdrS
  set hdrH := hidHeaderBytes saltH nonceH ctH.length with hhdrH
  set g1 := writeAt [] STANDARD_METADATA_OFFSET ctS with hg1
  set g2 := writeAt g1 HIDDEN_METADATA_OFFSET ctH with hg2
  set g3 := writeAt g2 0 hdrS with hg3
  set g4 := writeAt g3 HIDDEN_HEADER_OFFSET hdrH with hg4
  set g5 := padGap padRng (STANDARD_METADATA_OFFSET + ctS.length) g4 with hg5
  have hfile : initFileBytes c saltS saltH nonceS nonceH padRng pwS pwH
      = extendToDataArea g5 := rfl
  have hlenS : hdrS.length = 57 := length_stdHeaderBytes _ _ _ hsS hnS
  have hlenH : hdrH.length = 48 := length_hidHeaderBytes _ _ _ hsH hnH
  have l1 : g1.length = 57 + ctS.length := by
    rw [hg1, length_writeAt, hSM]
    simp
  have l2 : g2.length = 65584 + ctH.length := by
    rw [hg2, length_writeAt, l1, hHM]
    omega
  have l3 : g3.length = g2.length := by
    rw [hg3, length_writeAt, hlenS]
    omega
  have l4 : g4.length = g2.length := by
    rw [hg4, length_writeAt, hlenH, l3, hHH, l2]
    omega
  have l5 : g5.length = g2.length := by
    rw [hg5]
    unfold padGap
    split
    · rw [length_writeAt, l4, hSM]
      simp only [List.length_map, List.length_range, hHH]
      omega
    · exact l4
  have hprop6 : ∀ o l, o + l ≤ g5.length →
      extractSeg (extendToDataArea g5) o l = extractSeg g5 o l := by
    intro o l h
    unfold extendToDataArea
    split
    · exact extractSeg_append_left _ _ _ _ h
    · rfl
  have hprop5 : ∀ o l, (o + l ≤ 57 + ctS.length ∨ 65536 ≤ o) →
      extractSeg g5 o l = extractSeg g4 o l := by
    intro o l h
    rw [hg5]
    unfold padGap
    split
    · rename_i hlt
      rw [hSM] at hlt ⊢
      rcases h with h | h
      · exact extractSeg_writeAt_before _ _ _ _ _ h (by omega)
      · apply extractSeg_writeAt_after
        simp only [List.length_map, List.length_range, hHH]
        omega
    · rfl
  have hlen6 : (extendToDataArea g5).length = DATA_AREA_START_OFFSET := by
    unfold extendToDataArea
    split
    · simp
      omega
    · rename_i hge
      rw [hDA] at hge ⊢
      omega
  have hup : ∀ o l, (o + l ≤ 57 + ctS.length ∨ 65536 ≤ o) → o + l ≤ 65584 + ctH.length →
      extractSeg (initFileBytes c saltS saltH nonceS nonceH padRng pwS pwH) o l
        = extractSeg g4 o l := by
    intro o l h1 h2
    rw [hfile, hprop6 o l (by omega), hprop5 o l h1]
  refine ⟨hfile ▸ hlen6, ?_, ?_, ?_, ?_, ?_, ?_, ?_⟩
  · rw [hup 0 9 (by omega) (by omega), hg4,
      extractSeg_writeAt_before _ _ _ _ _ (by omega) (by omega), hg3,
      extractSeg_writeAt_inside _ _ _ _ _ (by omega) (by omega)]
    exact (stdHeaderBytes_slices saltS nonceS ctS.length hsS hnS).1
  · rw [hup 9 16 (by omega) (by omega), hg4,
      extractSeg_writeAt_before _ _ _ _ _ (by rw [hHH]; omega) (by omega), hg3,
      extractSeg_writeAt_inside _ _ _ _ _ (by omega) (by omega)]
    exact (stdHeaderBytes_slices saltS nonceS ctS.length hsS hnS).2.1
  · rw [hup 25 32 (by omega) (by omega), hg4,
      extractSeg_writeAt_before _ _ _ _ _ (by rw [hHH]; omega) (by omega), hg3,
      extractSeg_writeAt_inside _ _ _ _ _ (by omega) (by omega)]
    exact (stdHeaderBytes_slices saltS nonceS ctS.length hsS hnS).2.2
  · rw [hup 57 ctS.length (by omega) (by omega), hg4,
      extractSeg_writeAt_before _ _ _ _ _ (by rw [hHH]; omega) (by omega), hg3,
      extractSeg_writeAt_after _ _ _ _ _ (by omega), hg2,
      extractSeg_writeAt_before _ _ _ _ _ (by rw [hHM]; omega) (by omega), hg1, hSM,
      extractSeg_writeAt_inside _ _ _ _ _ (by omega) (by omega)]
    rw [show (57 : Nat) - 57 = 0 from rfl]
    exact extractSeg_take_all _ _ (by omega)
  · rw [hup 65536 16 (by omega) (by omega), hg4, hHH,
      extractSeg_writeAt_inside _ _ _ _ _ (by omega) (by omega)]
    rw [show (65536 : Nat) - 65536 = 0 from rfl]
    exact (hidHeaderBytes_slices saltH nonceH ctH.length hsH hnH).1
  · rw [hup 65552 32 (by omega) (by omega), hg4, hHH,
      extractSeg_writeAt_inside _ _ _ _ _ (by omega) (by omega)]
    rw [show (65552 : Nat) - 65536 = 16 from rfl]
    exact (hidHeaderBytes_slices saltH nonceH ctH.length hsH hnH).2
  · rw [hup 65584 ctH.length (by omega) (by omega), hg4,
      extractSeg_writeAt_after _ _ _ _ _ (by rw [hHH]; omega), hg3,
      extractSeg_writeAt_after _ _ _ _ _ (by omega), hg2, hHM,
      extractSeg_writeAt_inside _ _ _ _ _ (by omega) (by omega)]
    rw [show (65584 : Nat) - 65584 = 0 from rfl]
    exact extractSeg_take_all _ _ (by omega)

/-! ## C9: init refuses equal passwords; distinct salts -/

/-- C9: `init_blob` fails whenever the two passwords are equal — the
check precedes `File::create` in the source, so no file is created — and
on success the 16-byte salts stored at offsets 9 (standard) and 65536
(hidden) are the two distinct draws: the hidden salt is redrawn until it
differs from the standard one. -/
theorem c9_init_blob (c : CryptoPrims) (hE : EncLen c) (saltS : List Nat)
    (saltDraw : Nat → List Nat) (hdraw : ∃ i, saltDraw i ≠ saltS)
    (nonceS nonceH : List Nat) (padRng : Nat → Nat) (pwS pwH : List Nat)
    (hsS : saltS.length = 16) (hsD : ∀ i, (saltDraw i).length = 16)
    (hnS : nonceS.length = 24) (hnH : nonceH.length = 24) :
    (pwS = pwH →
      init_blob c saltS saltDraw hdraw nonceS nonceH padRng pwS pwH
        = .error "Standard and hidden passwords must be different") ∧
    ∀ f, init_blob c saltS saltDraw hdraw nonceS nonceH padRng pwS pwH = .ok f →
      extractSeg f 9 16 = saltS ∧
      extractSeg f 65536 16 = saltDraw (Nat.find hdraw) ∧
      saltS ≠ saltDraw (Nat.find hdraw) := by
  constructor
  · intro h
    unfold init_blob
    rw [if_pos h]
  · intro f hf
    unfold init_blob at hf
    by_cases hpw : pwS = pwH
    · rw [if_pos hpw] at hf
      exact absurd hf (by simp)
    · rw [if_neg hpw] at hf
      have hser : (serializeMap ([] : MetadataMap)).length = 8 := by decide
      have hctlen : ∀ pw salt nonce, (initCt c pw salt nonce).length = 24 := by
        intro pw salt nonce
        rw [initCt, hE, hser]
      have hspec := initFileBytes_spec c saltS (saltDraw (Nat.find hdraw)) nonceS nonceH
        padRng pwS pwH hsS (hsD _) hnS hnH
        (by rw [hctlen]; decide) (by rw [hctlen]; decide)
      rw [← Except.ok.inj hf]
      exact ⟨hspec.2.2.1, hspec.2.2.2.2.2.1, fun he => Nat.find_spec hdraw he.symm⟩

/-- C9 witness: the amended facts at a concrete instantiation (constant
salt stream, distinct one-byte passwords). -/
theorem c9_witness :
    extractSeg (initFileBytes toyCrypto (List.replicate 16 0) (List.replicate 16 1)
        (List.replicate 24 0) (List.replicate 24 0) (fun _ => 0) [97] [98]) 9 16
      = List.replicate 16 0 ∧
    extractSeg (initFileBytes toyCrypto (List.replicate 16 0) (List.replicate 16 1)
        (List.replicate 24 0) (List.replicate 24 0) (fun _ => 0) [97] [98]) 65536 16
      = List.replicate 16 1 ∧
    List.replicate 16 0 ≠ List.replicate 16 1 := by
  have h := (c9_init_blob toyCrypto toyCrypto_EncLen (List.replicate 16 0)
    (fun _ => List.replicate 16 1) ⟨0, by decide⟩ (List.replicate 24 0)
    (List.replicate 24 0) (fun _ => 0) [97] [98] (by decide)
    (fun _ => show (List.replicate 16 1).length = 16 from by decide)
    (by decide) (by decide)).2
    (initFileBytes toyCrypto (List.replicate 16 0) (List.replicate 16 1)
      (List.replicate 24 0) (List.replicate 24 0) (fun _ => 0) [97] [98])
    (by unfold init_blob; rw [if_neg (by decide)])
  exact h

/-! ## C6: data-area start offset -/

/-- C6 counterexample: the data-area start offset of the code is
`65584 + 1048576 = 1114160`, not the claimed `1115136`; appending the
first file to a short blob places its data block at 1114160. -/
theorem c6_counterexample :
    DATA_AREA_START_OFFSET = 1114160 ∧ DATA_AREA_START_OFFSET ≠ 1115136 ∧
    (append_file_data toyCrypto (fun _ => 0) (List.replicate 24 0) [] []
      [1, 2, 3] []).2.data_offset = 1114160 := by
  refine ⟨by decide, by decide, rfl⟩

/-- C6 (amended): every data block written by `append_file_data` begins
at or after the data-area start offset 1114160 (65584 + 1048576 in the
code), and when the blob file is shorter than that offset the write path
first pads so the block begins exactly at 1114160. -/
theorem append_file_data_offset (c : CryptoPrims) (padRng : Nat → Nat)
    (nonce f key content mime : List Nat) :
    (append_file_data c padRng nonce f key content mime).2.data_offset
      = if f.length < DATA_AREA_START_OFFSET then DATA_AREA_START_OFFSET
        else f.length := rfl

theorem c6_amended (c : CryptoPrims) (padRng : Nat → Nat)
    (nonce f key content mime : List Nat) :
    DATA_AREA_START_OFFSET = 1114160 ∧
    1114160 ≤ (append_file_data c padRng nonce f key content mime).2.data_offset ∧
    (f.length < 1114160 →
      (append_file_data c padRng nonce f key content mime).2.data_offset = 1114160) := by
  have hD : DATA_AREA_START_OFFSET = 1114160 := by decide
  refine ⟨hD, ?_, ?_⟩
  · rw [append_file_data_offset]
    split <;> omega
  · intro h
    rw [append_file_data_offset, if_pos (by omega)]
    exact hD

/-- C6 witness: the amended statement evaluated on the empty file. -/
theorem c6_witness :
    ([] : List Nat).length < 1114160 ∧
    (append_file_data toyCrypto (fun _ => 0) (List.replicate 24 0) [] []
      [1, 2, 3] []).2.data_offset = 1114160 :=
  ⟨by decide,
    (c6_amended toyCrypto (fun _ => 0) (List.replicate 24 0) [] [] [1, 2, 3] []).2.2
      (by decide)⟩

/-! ## C8: remove_folder semantics -/

/-- C8 counterexample: for the trailing-slash folder path `docs/` the
claim's rule (`key = folder` or `key` starts with `folder + "/"`) matches
nothing in the index containing `docs/x`, so the claim demands a `false`
no-op, but the code trims the slash, removes `docs/x`, and returns
`true`. -/
theorem c8_counterexample :
    remove_folder_update
        [([100, 111, 99, 115, 47, 120], (⟨0, 0, 0, []⟩ : FileMetadata))]
        [100, 111, 99, 115, 47] = (true, []) ∧
    ¬ claimFolderMatches [100, 111, 99, 115, 47] [100, 111, 99, 115, 47, 120] := by
  constructor
  · decide
  · unfold claimFolderMatches
    decide

/-- C8 (amended): `remove_folder` removes exactly the entries whose key
matches the code's predicate — equal to the folder path with trailing
slashes trimmed, or (when the slash-terminated prefix is nonempty)
extending that prefix — and returns `true` iff at least one entry
matched. -/
theorem c8_amended (c : CryptoPrims) (nonceMeta f : List Nat) (vt : VolumeType)
    (key : List Nat) (m : MetadataMap) (folderPath : List Nat) :
    (remove_folder c nonceMeta f vt key m folderPath).2.2
        = m.filter (fun kv => !(removeFolderMatches folderPath kv.1)) ∧
    ((remove_folder c nonceMeta f vt key m folderPath).1 = true ↔
        ∃ kv ∈ m, removeFolderMatches folderPath kv.1 = true) := by
  have hupd : (remove_folder_update m folderPath).2
      = m.filter (fun kv => !(removeFolderMatches folderPath kv.1)) ∧
      ((remove_folder_update m folderPath).1 = true ↔
        ∃ kv ∈ m, removeFolderMatches folderPath kv.1 = true) := by
    unfold remove_folder_update
    by_cases hempty : (m.map Prod.fst).filter (removeFolderMatches folderPath) = []
    · rw [if_pos hempty]
      have hnone : ∀ kv ∈ m, removeFolderMatches folderPath kv.1 = false := by
        intro kv hkv
        have := List.filter_eq_nil_iff.mp hempty kv.1 (List.mem_map_of_mem Prod.fst hkv)
        simpa using this
      constructor
      · rw [List.filter_eq_self.mpr]
        intro kv hkv
        simp [hnone kv hkv]
      · apply iff_of_false (by simp)
        rintro ⟨kv, hkv, hmat⟩
        rw [hnone kv hkv] at hmat
        exact absurd hmat (by simp)
    · rw [if_neg hempty]
      constructor
      · rw [foldl_removeKey]
        apply List.filter_congr
        intro kv hkv
        have hcm : ((m.map Prod.fst).filter (removeFolderMatches folderPath)).contains kv.1
            = removeFolderMatches folderPath kv.1 := by
          by_cases hmat : removeFolderMatches folderPath kv.1 = true
          · rw [hmat]
            exact List.elem_eq_true_of_mem
              (List.mem_filter.mpr ⟨List.mem_map_of_mem Prod.fst hkv, hmat⟩)
          · rw [Bool.eq_false_iff.mpr hmat]
            rw [Bool.eq_false_iff]
            intro hcontra
            exact hmat (List.mem_filter.mp (List.elem_iff.mp hcontra)).2
        rw [hcm]
      · apply iff_of_true rfl
        rcases List.exists_mem_of_ne_nil _ hempty with ⟨k0, hk0⟩
        have hf := List.mem_filter.mp hk0
        rcases List.mem_map.mp hf.1 with ⟨kv, hkv, hfst⟩
        exact ⟨kv, hkv, hfst ▸ hf.2⟩
  unfold remove_folder
  rcases hu : remove_folder_update m folderPath with ⟨b, m'⟩
  cases b
  · simpa [hu] using hupd
  · simpa [hu] using hupd

/-! ## C4: unlock order and the generic error -/

/-- C4: `unlock_blob` attempts the standard volume first and then the
hidden volume; every failure of both attempts — whatever the cause —
returns the one generic error string, so all non-I/O failure modes are
byte-equal and indistinguishable. -/
theorem c4_unlock_generic_error (c : CryptoPrims) (f pw : List Nat) :
    (∀ e, unlock_blob c f pw = .error e → e = unlockFailure) ∧
    (∀ km, unlock_attempt c f pw VolumeType.Standard = .ok km →
      unlock_blob c f pw = .ok (VolumeType.Standard, km.1, km.2)) ∧
    (∀ eS km, unlock_attempt c f pw VolumeType.Standard = .error eS →
      unlock_attempt c f pw VolumeType.Hidden = .ok km →
      unlock_blob c f pw = .ok (VolumeType.Hidden, km.1, km.2)) ∧
    (∀ eS eH, unlock_attempt c f pw VolumeType.Standard = .error eS →
      unlock_attempt c f pw VolumeType.Hidden = .error eH →
      unlock_blob c f pw = .error unlockFailure) := by
  unfold unlock_blob
  rcases hS : unlock_attempt c f pw VolumeType.Standard with eS | kmS
  · rcases hH : unlock_attempt c f pw VolumeType.Hidden with eH | kmH
    · exact ⟨fun e he => (Except.error.inj he).symm, fun km h => absurd h (by simp),
        fun eS' km h1 h2 => absurd h2 (by simp), fun eS' eH' h1 h2 => rfl⟩
    · exact ⟨fun e he => absurd he (by simp), fun km h => absurd h (by simp),
        fun eS' km h1 h2 => by rw [Except.ok.inj h2],
        fun eS' eH' h1 h2 => absurd h2 (by simp)⟩
  · exact ⟨fun e he => absurd he (by simp), fun km h => by rw [Except.ok.inj h],
      fun eS' km h1 h2 => absurd h1 (by simp),
      fun eS' eH' h1 h2 => absurd h1 (by simp)⟩

/-- C4 witness: on the empty file (both header reads fail) the generic
error is returned. -/
theorem c4_witness :
    unlock_attempt toyCrypto [] [97] VolumeType.Standard
        = .error "failed to fill whole buffer" ∧
    unlock_attempt toyCrypto [] [97] VolumeType.Hidden
        = .error "failed to fill whole buffer" ∧
    unlock_blob toyCrypto [] [97] = .error unlockFailure :=
  ⟨by decide, by decide,
    (c4_unlock_generic_error toyCrypto [] [97]).2.2.2 "failed to fill whole buffer"
      "failed to fill whole buffer" (by decide) (by decide)⟩

/-! ## C10: empty payloads return the carrier unchanged -/

/-- C10: for each of the four carriers, `embed` with an empty payload
returns the input bytes unchanged for every input — the check precedes
validation, so this holds for invalid carriers too — and consequently
performs no stripping: `extract` after such an embed equals `extract`
on the original carrier. -/
theorem c10_empty_payload (carrier : List Nat) :
    pngEmbed carrier [] = .ok carrier ∧ jpegEmbed carrier [] = .ok carrier ∧
    mp4Embed carrier [] = .ok carrier ∧ pdfEmbed carrier [] = .ok carrier ∧
    (∀ x, pngEmbed carrier [] = .ok x → pngExtract x = pngExtract carrier) ∧
    (∀ x, jpegEmbed carrier [] = .ok x → jpegExtract x = jpegExtract carrier) ∧
    (∀ x, mp4Embed carrier [] = .ok x → mp4Extract x = mp4Extract carrier) ∧
    (∀ x, pdfEmbed carrier [] = .ok x → pdfExtract x = pdfExtract carrier) := by
  have hp : pngEmbed carrier [] = .ok carrier := by simp [pngEmbed]
  have hj : jpegEmbed carrier [] = .ok carrier := by simp [jpegEmbed]
  have hm : mp4Embed carrier [] = .ok carrier := by simp [mp4Embed]
  have hd : pdfEmbed carrier [] = .ok carrier := by simp [pdfEmbed]
  refine ⟨hp, hj, hm, hd, ?_, ?_, ?_, ?_⟩
  · intro x hx
    rw [Except.ok.inj (hp.symm.trans hx)]
  · intro x hx
    rw [Except.ok.inj (hj.symm.trans hx)]
  · intro x hx
    rw [Except.ok.inj (hm.symm.trans hx)]
  · intro x hx
    rw [Except.ok.inj (hd.symm.trans hx)]

/-- C10 witness: an input that is not valid for any of the four formats
passes through unchanged. -/
theorem c10_witness :
    pngEmbed [5, 6] [] = .ok [5, 6] ∧
    pngExtract [5, 6] = pngExtract [5, 6] :=
  ⟨(c10_empty_payload [5, 6]).1,
    (c10_empty_payload [5, 6]).2.2.2.2.1 [5, 6] (by decide)⟩

/-! ## C3: re-embedding must strip the previous payload -/

set_option maxRecDepth 100000 in
/-- C3 (code bug): the PNG carrier's `embed` does not strip previously
embedded `ruNd` chunks (the other three carriers do): embedding payload
2 over a carrier already holding payload 1 keeps both, `extract` returns
their concatenation instead of payload 2 alone, and the file grows by
both overheads (13 bytes of chunk framing per one-byte payload). -/
theorem c3_png_reembed_accumulates :
    (do
      let a ← (pngEmbed minPng [1]).toOption
      let b ← (pngEmbed a [2]).toOption
      pngExtract b) = some [1, 2] ∧
    some [1, 2] ≠ some [2] ∧
    (do
      let a ← (pngEmbed minPng [1]).toOption
      let b ← (pngEmbed a [2]).toOption
      pure b.length) = some (minPng.length + 13 + 13) := by
  refine ⟨by decide, by decide, by decide⟩

/-! ## C2: extract after embed -/

/-- C2 counterexample: the eight signature bytes alone pass the PNG
carrier's validation and offer 100 MiB of capacity, yet embedding a
one-byte payload returns the carrier unchanged (there is no IDAT chunk
to insert before) and extraction yields nothing. -/
theorem c2_counterexample :
    pngValidate pngSignature = .ok () ∧
    1 ≤ pngCapacity pngSignature ∧
    pngEmbed pngSignature [1] = .ok pngSignature ∧
    pngExtract pngSignature = none := by
  refine ⟨by decide, by decide, by decide, by decide⟩

/-! ## Lemmas: occurrences, straddles, and the embed round-trips -/

theorem occursAt_mismatch (pat f : List Nat) (k i : Nat) (hi : i < pat.length)
    (hne : f.getD (k + i) 0 ≠ pat.getD i 0) : ¬occursAt pat f k := by
  rintro ⟨hlen, hslice⟩
  exact hne (getD_of_extractSeg_eq f pat k pat.length i hslice hi)

theorem occursAt_out (pat f : List Nat) (k : Nat) (h : f.length < k + pat.length) :
    ¬occursAt pat f k := by
  rintro ⟨hlen, _⟩; omega

theorem extractSeg_take (x : List Nat) (n j l : Nat) (h : j + l ≤ n) :
    extractSeg (x.take n) j l = extractSeg x j l := by
  unfold extractSeg
  rw [List.drop_take, List.take_take]
  congr 1
  omega

theorem occursAt_take (pat x : List Nat) (n j : Nat) (h : occursAt pat (x.take n) j) :
    occursAt pat x j := by
  obtain ⟨hlen, hslice⟩ := h
  simp only [List.length_take] at hlen
  refine ⟨by omega, ?_⟩
  rw [← extractSeg_take x n j pat.length (by omega)]
  exact hslice

theorem occursAt_take_of (pat x : List Nat) (n j : Nat) (h : occursAt pat x j)
    (hn : j + pat.length ≤ n) : occursAt pat (x.take n) j := by
  obtain ⟨hlen, hslice⟩ := h
  refine ⟨by simp; omega, ?_⟩
  rw [extractSeg_take x n j pat.length hn]
  exact hslice

theorem findSubFrom_occurs (f pat : List Nat) (fuel : Nat) : ∀ i j,
    findSubFrom f pat fuel i = some j → occursAt pat f j := by
  induction fuel with
  | zero => intro i j h; simp [findSubFrom] at h
  | succ n ih =>
    intro i j h
    unfold findSubFrom at h
    split at h
    · split at h
      · cases h; assumption
      · exact ih (i + 1) j h
    · cases h

theorem findSub_occurs (f pat : List Nat) (j : Nat) (h : findSub f pat = some j) :
    occursAt pat f j :=
  findSubFrom_occurs f pat (f.length + 1) 0 j h

theorem containsSubB_occurs (f pat : List Nat) (h : containsSubB f pat = true) :
    ∃ j, occursAt pat f j := by
  unfold containsSubB at h
  cases hfs : findSub f pat with
  | none => rw [hfs] at h; simp at h
  | some j => exact ⟨j, findSub_occurs f pat j hfs⟩

theorem findSubLastGo_occurs (f pat : List Nat) : ∀ m j,
    findSubLastGo f pat m = some j → occursAt pat f j := by
  intro m
  induction m with
  | zero => intro j h; simp [findSubLastGo] at h
  | succ n ih =>
    intro j h
    unfold findSubLastGo at h
    split at h
    · cases h; assumption
    · exact ih j h

theorem findSubLastGo_found (f pat : List Nat) : ∀ m j, occursAt pat f j → j < m →
    ∃ j', findSubLastGo f pat m = some j' := by
  intro m
  induction m with
  | zero => intro j _ h; omega
  | succ n ih =>
    intro j hocc hj
    unfold findSubLastGo
    split
    · exact ⟨n, rfl⟩
    · rename_i hn
      have : j ≠ n := fun he => hn (he ▸ hocc)
      exact ih j hocc (by omega)

theorem findSubLast_found (f pat : List Nat) (j : Nat) (hocc : occursAt pat f j) :
    ∃ j', findSubLast f pat = some j' ∧ occursAt pat f j' := by
  have hj : j < f.length + 1 - pat.length := by
    obtain ⟨hlen, _⟩ := hocc; omega
  obtain ⟨j', hj'⟩ := findSubLastGo_found f pat (f.length + 1 - pat.length) j hocc hj
  exact ⟨j', hj', findSubLastGo_occurs f pat _ j' hj'⟩

theorem getD_concat_right (a b : List Nat) (j : Nat) :
    (a ++ b).getD (a.length + j) 0 = b.getD j 0 := by
  rw [getD_append_right a b _ (Nat.le_add_right _ _)]
  simp

theorem extractSeg_at_append (A s B : List Nat) :
    extractSeg (A ++ s ++ B) A.length s.length = s := by
  rw [List.append_assoc, extractSeg_append_right' A (s ++ B) A.length s.length le_rfl]
  rw [Nat.sub_self, extractSeg_append_left s B 0 s.length (by omega)]
  exact extractSeg_eq_self s

theorem occursAt_at_append (A s B : List Nat) : occursAt s (A ++ s ++ B) A.length := by
  refine ⟨by simp, extractSeg_at_append A s B⟩

theorem markerB_bounds : ∀ i < 11, 65 ≤ markerB.getD i 0 ∧ markerB.getD i 0 ≤ 90 := by
  decide

theorem length_markerB : markerB.length = 11 := by decide

/-- The MP4 round-trip: on a valid carrier free of the marker, a nonempty
payload below the size bound embeds into an appended `free` box and
extracts back exactly. -/
theorem mp4_roundtrip (c p : List Nat) (hval : mp4Validate c = .ok ())
    (hno : ∀ k < c.length, ¬occursAt markerB c k) (hp : p ≠ [])
    (hsmall : p.length < 16777189) :
    (mp4Embed c p).toOption.bind mp4Extract = some p := by
  -- facts recorded by validation
  have h12 : ¬(c.length < 12) := by
    intro h; unfold mp4Validate at hval; rw [if_pos h] at hval; cases hval
  have hftyp : containsSubB (c.take 1024) ftypB = true := by
    by_contra h
    unfold mp4Validate at hval
    rw [if_neg h12, if_pos (by simpa using h)] at hval
    cases hval
  -- no occurrence of the marker anywhere in the carrier
  have hnoAll : ∀ k, ¬occursAt markerB c k := by
    intro k
    by_cases hk : k < c.length
    · exact hno k hk
    · exact occursAt_out markerB c k (by rw [length_markerB]; omega)
  -- the embed output
  have hstrip : mp4Strip c = c := by
    unfold mp4Strip
    rw [findSub_eq_none c markerB hnoAll]
  have hcap : mp4Capacity c = 4294967268 := by
    unfold mp4Capacity; rw [hval]
  set t := 8 + 11 + 8 + p.length with ht
  set box := be32 t ++ freeB ++ markerB ++ be64 p.length ++ p with hbox
  set out := c ++ box with hout
  have hemb : mp4Embed c p = .ok out := by
    unfold mp4Embed mp4BuildFreeBox
    rw [if_neg hp, hval, hcap, if_neg (by omega), if_neg (by omega), hstrip]
  have hlenbox : box.length = 27 + p.length := by
    rw [hbox]; simp [be32, be64, freeB, markerB]; omega
  have hlenout : out.length = c.length + 27 + p.length := by
    rw [hout]; simp [hlenbox]; omega
  -- transports from `out` to `box`
  have hbj : ∀ j, out.getD (c.length + j) 0 = box.getD j 0 := by
    intro j; rw [hout]; exact getD_concat_right c box j
  have hseg : ∀ off len, extractSeg out (c.length + off) len = extractSeg box off len := by
    intro off len; rw [hout]; exact extractSeg_append_right c box off len
  -- byte values of the box head
  have hb0 : box.getD 0 0 = 0 := by
    rw [hbox, List.append_assoc, List.append_assoc, List.append_assoc,
      getD_append_left _ _ 0 (by rw [length_be32]; omega)]
    have hdiv : t / 16777216 = 0 := Nat.div_eq_of_lt (by omega)
    simp [be32, hdiv]
  have hb47 : ∀ j, 4 ≤ j → j < 8 → box.getD j 0 = freeB.getD (j - 4) 0 := by
    intro j h4 h8
    rw [hbox, List.append_assoc, List.append_assoc, List.append_assoc,
      getD_append_right _ _ j (by rw [length_be32]; omega), length_be32,
      getD_append_left _ _ (j - 4) (by simp [freeB]; omega)]
  have hfree0 : freeB.getD 0 0 = 102 := by decide
  have hfreeVals : ∀ i < 4, 101 ≤ freeB.getD i 0 := by decide
  -- the marker occurs at position |c| + 8 of the output
  have hocc : occursAt markerB out (c.length + 8) := by
    have h1 := occursAt_at_append (c ++ be32 t ++ freeB) markerB (be64 p.length ++ p)
    have h2 : (c ++ be32 t ++ freeB).length = c.length + 8 := by
      simp [be32, freeB]
    have h3 : c ++ be32 t ++ freeB ++ markerB ++ (be64 p.length ++ p) = out := by
      rw [hout, hbox]; simp [List.append_assoc]
    rw [h2, h3] at h1
    exact h1
  -- and nowhere earlier
  have hmin : ∀ k, k < c.length + 8 → ¬occursAt markerB out k := by
    intro k hk hocc'
    by_cases hk1 : k + 11 ≤ c.length
    · refine hnoAll k ⟨hk1, ?_⟩
      have h1 : extractSeg out k 11 = extractSeg c k 11 := by
        rw [hout]; exact extractSeg_append_left c box k 11 hk1
      have h2 := hocc'.2
      rw [length_markerB] at h2
      rw [length_markerB, ← h1]
      exact h2
    · by_cases hk2 : k ≤ c.length
      · refine occursAt_mismatch markerB out k (c.length - k)
          (by rw [length_markerB]; omega) ?_ hocc'
        rw [show k + (c.length - k) = c.length + 0 from by omega, hbj 0, hb0]
        have := (markerB_bounds (c.length - k) (by omega)).1
        omega
      · by_cases hk3 : k ≤ c.length + 4
        · refine occursAt_mismatch markerB out k (c.length + 4 - k)
            (by rw [length_markerB]; omega) ?_ hocc'
          rw [show k + (c.length + 4 - k) = c.length + 4 from by omega,
            hbj 4, hb47 4 le_rfl (by omega)]
          have hm := (markerB_bounds (c.length + 4 - k) (by omega)).2
          simp only [Nat.sub_self] at *
          rw [hfree0]
          omega
        · refine occursAt_mismatch markerB out k 0
            (by rw [length_markerB]; omega) ?_ hocc'
          rw [show k + 0 = c.length + (k - c.length) from by omega,
            hbj (k - c.length), hb47 (k - c.length) (by omega) (by omega)]
          have h1 := (markerB_bounds 0 (by omega)).2
          have h2 := hfreeVals (k - c.length - 4) (by omega)
          omega
  have hfind : findSub out markerB = some (c.length + 8) :=
    findSub_eq_some out markerB (c.length + 8) hocc hmin
  -- the output still validates
  have hvalout : mp4Validate out = .ok () := by
    obtain ⟨j, hj⟩ := containsSubB_occurs (c.take 1024) ftypB hftyp
    have hjlen : j + 4 ≤ min 1024 c.length := by
      have := hj.1
      simpa [ftypB] using this
    have hjc : occursAt ftypB c j := occursAt_take ftypB c 1024 j hj
    have hjout : occursAt ftypB out j := by
      refine ⟨by rw [hlenout]; simp [ftypB]; omega, ?_⟩
      have h1 : extractSeg out j 4 = extractSeg c j 4 := by
        rw [hout]; exact extractSeg_append_left c box j 4 (by omega)
      have h2 := hjc.2
      simp only [show ftypB.length = 4 from rfl] at h2 ⊢
      rw [h1]
      exact h2
    have hcont : containsSubB (out.take 1024) ftypB = true :=
      containsSubB_of_occurs _ ftypB j
        (occursAt_take_of ftypB out 1024 j hjout (by simp [ftypB]; omega))
    unfold mp4Validate
    rw [if_neg (by omega), if_neg (by simp [hcont])]
  -- the length field and payload read back exactly
  have hslice64 : extractSeg out (c.length + 19) 8 = be64 p.length := by
    have h1 := extractSeg_at_append (be32 t ++ freeB ++ markerB) (be64 p.length) p
    have h2 : (be32 t ++ freeB ++ markerB).length = 19 := by
      simp [be32, freeB, markerB]
    have h3 : be32 t ++ freeB ++ markerB ++ be64 p.length ++ p = box := by
      rw [hbox]
    rw [h2, h3, length_be64] at h1
    rw [hseg 19 8, h1]
  have hsliceP : extractSeg out (c.length + 27) p.length = p := by
    have h1 := extractSeg_at_append (be32 t ++ freeB ++ markerB ++ be64 p.length) p []
    have h2 : (be32 t ++ freeB ++ markerB ++ be64 p.length).length = 27 := by
      simp [be32, be64, freeB, markerB]
    have h3 : be32 t ++ freeB ++ markerB ++ be64 p.length ++ p ++ [] = box := by
      rw [hbox, List.append_nil]
    rw [h2, h3] at h1
    rw [hseg 27 p.length, h1]
  have hext : mp4Extract out = some p := by
    simp only [mp4Extract, hvalout, hfind]
    rw [if_neg (by omega),
      show c.length + 8 + 11 = c.length + 19 from by omega, hslice64,
      readBe64_be64 p.length (by omega), if_neg (by omega),
      show c.length + 8 + 19 = c.length + 27 from by omega, hsliceP]
  rw [hemb]
  simpa using hext

theorem pdfSkipNewlines_ge (d : List Nat) : ∀ fuel idx,
    idx ≤ pdfSkipNewlines d fuel idx := by
  intro fuel
  induction fuel with
  | zero => intro idx; simp [pdfSkipNewlines]
  | succ n ih =>
    intro idx
    unfold pdfSkipNewlines
    split
    · exact le_trans (by omega) (ih (idx + 1))
    · exact le_rfl

theorem pdfSkipNewlines_le (d : List Nat) : ∀ fuel idx, idx ≤ d.length →
    pdfSkipNewlines d fuel idx ≤ d.length := by
  intro fuel
  induction fuel with
  | zero => intro idx h; simpa [pdfSkipNewlines] using h
  | succ n ih =>
    intro idx h
    unfold pdfSkipNewlines
    split
    · rename_i hc
      exact ih (idx + 1) (by omega)
    · exact h

/-- The PDF round-trip: on a valid carrier free of the marker, a nonempty
payload within capacity whose length-prefixed encoding is also free of the
marker embeds after the EOF sentinel and extracts back exactly. -/
theorem pdf_roundtrip (c p : List Nat) (hval : pdfValidate c = .ok ())
    (hno : ∀ k < c.length, ¬occursAt markerB c k)
    (hno2 : ∀ k < (be64 p.length ++ p).length,
      ¬occursAt markerB (be64 p.length ++ p) k)
    (hp : p ≠ []) (hcap : p.length ≤ 100 * 1024 * 1024) :
    (pdfEmbed c p).toOption.bind pdfExtract = some p := by
  -- facts recorded by validation
  have h8 : ¬(c.length < 8) := by
    intro h; unfold pdfValidate at hval; rw [if_pos h] at hval; cases hval
  have hhead : extractSeg c 0 5 = pdfHeaderB := by
    by_contra h
    unfold pdfValidate at hval
    rw [if_neg h8, if_pos h] at hval
    cases hval
  have heof : containsSubB c pdfEofB = true := by
    by_contra h
    unfold pdfValidate at hval
    rw [if_neg h8, if_neg (by rw [hhead]; exact fun hh => hh rfl),
      if_pos (by simpa using h)] at hval
    cases hval
  have hnoAll : ∀ k, ¬occursAt markerB c k := by
    intro k
    by_cases hk : k < c.length
    · exact hno k hk
    · exact occursAt_out markerB c k (by rw [length_markerB]; omega)
  have hstrip : pdfStrip c = c := by
    unfold pdfStrip
    rw [findSubLast_eq_none c markerB hnoAll]
  -- locating the EOF sentinel
  obtain ⟨j0, hj0occ⟩ := containsSubB_occurs c pdfEofB heof
  obtain ⟨pos, hposFind, hposOcc⟩ := findSubLast_found c pdfEofB j0 hj0occ
  set eofIdx := pdfSkipNewlines c (c.length + 1) (pos + 5) with heI
  have hlocate : pdfLocateEof c = some eofIdx := by
    unfold pdfLocateEof
    rw [hposFind]
    rfl
  have hpos5 : pos + 5 ≤ c.length := by
    have := hposOcc.1; simpa [pdfEofB] using this
  have heIge : pos + 5 ≤ eofIdx := pdfSkipNewlines_ge c (c.length + 1) (pos + 5)
  have heIle : eofIdx ≤ c.length := pdfSkipNewlines_le c (c.length + 1) (pos + 5) hpos5
  have hcapc : pdfCapacity c = 100 * 1024 * 1024 := by
    unfold pdfCapacity; rw [hval]
  -- the embed output
  set nl : List Nat :=
    if eofIdx = 0 ∨ ¬(c.getD (eofIdx - 1) 0 = 10 ∨ c.getD (eofIdx - 1) 0 = 13)
    then [10] else [] with hnl
  set pre := c.take eofIdx ++ nl with hpre
  set out := pre ++ markerB ++ be64 p.length ++ p with hout
  have hemb : pdfEmbed c p = .ok out := by
    rw [hout, hpre, hnl]
    unfold pdfEmbed
    rw [if_neg hp, hval]
    simp only [hcapc, hstrip, hlocate]
    rw [if_neg (show ¬(100 * 1024 * 1024 < p.length) from by omega)]
  have hnlLen : nl.length ≤ 1 := by
    rw [hnl]; split <;> simp
  have hLpre : pre.length = eofIdx + nl.length := by
    rw [hpre]; simp; omega
  have hlenout : out.length = pre.length + 19 + p.length := by
    rw [hout]; simp [be64, markerB]; omega
  have hL5 : 5 ≤ pre.length := by omega
  -- the last byte before the marker is a newline byte
  have htrans : out.getD (pre.length - 1) 0 = pre.getD (pre.length - 1) 0 := by
    rw [hout]
    simp only [List.append_assoc]
    exact getD_append_left pre _ _ (by omega)
  have hlast : out.getD (pre.length - 1) 0 = 10 ∨ out.getD (pre.length - 1) 0 = 13 := by
    by_cases hcond : eofIdx = 0 ∨
        ¬(c.getD (eofIdx - 1) 0 = 10 ∨ c.getD (eofIdx - 1) 0 = 13)
    · have hnl10 : nl = [10] := by rw [hnl, if_pos hcond]
      left
      have hlen : (c.take eofIdx).length = eofIdx := by simp; omega
      have hidx : pre.length - 1 = (c.take eofIdx).length + 0 := by
        rw [hlen]; rw [hnl10] at hLpre; simp at hLpre; omega
      rw [htrans, hidx, hpre, getD_concat_right, hnl10]
      rfl
    · have hnlE : nl = [] := by rw [hnl, if_neg hcond]
      push_neg at hcond
      obtain ⟨h0, hbyte⟩ := hcond
      have hLval : pre.length = eofIdx := by
        rw [hnlE] at hLpre; simpa using hLpre
      rw [htrans, hLval, hpre, hnlE, List.append_nil,
        getD_take c eofIdx (eofIdx - 1) (by omega)]
      exact hbyte
  -- the marker occurs at position |pre| and nowhere later
  have hocc : occursAt markerB out pre.length := by
    have h1 := occursAt_at_append pre markerB (be64 p.length ++ p)
    have h2 : pre ++ markerB ++ (be64 p.length ++ p) = out := by
      rw [hout]; simp [List.append_assoc]
    rw [h2] at h1
    exact h1
  have hpm : (pre ++ markerB).length = pre.length + 11 := by simp [markerB]
  have hshape : out = (pre ++ markerB) ++ (be64 p.length ++ p) := by
    rw [hout]; simp [List.append_assoc]
  have hbe0 : out.getD (pre.length + 11) 0 = 0 := by
    have h1 : out.getD ((pre ++ markerB).length + 0) 0
        = (be64 p.length ++ p).getD 0 0 := by
      rw [hshape]; exact getD_concat_right _ _ 0
    rw [hpm, Nat.add_zero] at h1
    rw [h1, getD_append_left _ _ 0 (by rw [length_be64]; omega)]
    have hdiv : p.length / 72057594037927936 = 0 := Nat.div_eq_of_lt (by omega)
    simp [be64, hdiv]
  have hlater : ∀ k, pre.length < k → ¬occursAt markerB out k := by
    intro k hk hocc'
    have hklen : k + 11 ≤ out.length := by
      have := hocc'.1; rwa [length_markerB] at this
    by_cases hk2 : pre.length + 11 ≤ k
    · refine hno2 (k - (pre.length + 11)) ?_ ⟨?_, ?_⟩
      · simp [be64]; omega
      · rw [length_markerB]; simp [be64]; omega
      · have h2 := hocc'.2
        rw [length_markerB] at h2 ⊢
        rw [← h2, hshape, extractSeg_append_right' _ _ k 11 (by omega), hpm]
    · refine occursAt_mismatch markerB out k (pre.length + 11 - k)
        (by rw [length_markerB]; omega) ?_ hocc'
      rw [show k + (pre.length + 11 - k) = pre.length + 11 from by omega, hbe0]
      have := (markerB_bounds (pre.length + 11 - k) (by omega)).1
      omega
  have hfindLast : findSubLast out markerB = some pre.length :=
    findSubLast_eq_some out markerB pre.length hocc hlater
  -- the output still validates
  have hvalout : pdfValidate out = .ok () := by
    have hheadout : extractSeg out 0 5 = pdfHeaderB := by
      have h1 : extractSeg out 0 5 = extractSeg pre 0 5 := by
        rw [hout]
        simp only [List.append_assoc]
        exact extractSeg_append_left pre _ 0 5 (by omega)
      have h2 : extractSeg pre 0 5 = extractSeg c 0 5 := by
        rw [hpre, extractSeg_append_left _ _ 0 5 (by simp; omega),
          extractSeg_take c eofIdx 0 5 (by omega)]
      rw [h1, h2, hhead]
    have heofout : containsSubB out pdfEofB = true := by
      have h1 : occursAt pdfEofB (c.take eofIdx) pos :=
        occursAt_take_of pdfEofB c eofIdx pos hposOcc (by simpa [pdfEofB] using heIge)
      have h2 : occursAt pdfEofB pre pos := by
        rw [hpre]; exact occursAt_append_left pdfEofB _ nl pos h1
      have h3 : occursAt pdfEofB out pos := by
        have h4 := occursAt_append_left pdfEofB pre (markerB ++ (be64 p.length ++ p)) pos h2
        have h5 : pre ++ (markerB ++ (be64 p.length ++ p)) = out := by
          rw [hout]; simp [List.append_assoc]
        rwa [h5] at h4
      exact containsSubB_of_occurs out pdfEofB pos h3
    unfold pdfValidate
    rw [if_neg (by omega), if_neg (by rw [hheadout]; exact fun hh => hh rfl),
      if_neg (by simp [heofout])]
  -- the extraction round-trips
  have hslice64 : extractSeg out (pre.length + 11) 8 = be64 p.length := by
    have h1 := extractSeg_at_append (pre ++ markerB) (be64 p.length) p
    have h3 : pre ++ markerB ++ be64 p.length ++ p = out := by rw [hout]
    rw [hpm, h3, length_be64] at h1
    exact h1
  have hsliceP : extractSeg out (pre.length + 19) p.length = p := by
    have h1 := extractSeg_at_append (pre ++ markerB ++ be64 p.length) p []
    have h2 : (pre ++ markerB ++ be64 p.length).length = pre.length + 19 := by
      simp [markerB, be64]
    have h3 : pre ++ markerB ++ be64 p.length ++ p ++ [] = out := by
      rw [List.append_nil, hout]
    rw [h2, h3] at h1
    exact h1
  have hext : pdfExtract out = some p := by
    simp only [pdfExtract, hvalout, hfindLast]
    rw [if_neg (by omega), hslice64, readBe64_be64 p.length (by omega),
      if_neg (by omega), hsliceP]
  rw [hemb]
  simpa using hext

/-! ## Lemmas: the PNG chunk walkers -/

theorem length_pngChunkBytes (ch : List Nat × List Nat × List Nat)
    (h : PngChunkShape ch) : (pngChunkBytes ch).length = 12 + ch.2.1.length := by
  obtain ⟨h1, _, h3⟩ := h
  simp [pngChunkBytes, be32, h1, h3]
  omega

theorem pngChunk_slices (d X Y : List Nat) (ch : List Nat × List Nat × List Nat)
    (hsh : PngChunkShape ch) (hd : d = X ++ pngChunkBytes ch ++ Y) :
    extractSeg d X.length 4 = be32 ch.2.1.length ∧
    extractSeg d (X.length + 4) 4 = ch.1 ∧
    extractSeg d (X.length + 8) ch.2.1.length = ch.2.1 ∧
    extractSeg d X.length (12 + ch.2.1.length) = pngChunkBytes ch ∧
    d.length = X.length + (12 + ch.2.1.length) + Y.length := by
  obtain ⟨hty, hlt, hcrc⟩ := hsh
  refine ⟨?_, ?_, ?_, ?_, ?_⟩
  · have h1 := extractSeg_at_append X (be32 ch.2.1.length) (ch.1 ++ ch.2.1 ++ ch.2.2 ++ Y)
    rw [length_be32] at h1
    have h2 : X ++ be32 ch.2.1.length ++ (ch.1 ++ ch.2.1 ++ ch.2.2 ++ Y) = d := by
      rw [hd]; simp [pngChunkBytes, List.append_assoc]
    rwa [h2] at h1
  · have h1 := extractSeg_at_append (X ++ be32 ch.2.1.length) ch.1 (ch.2.1 ++ ch.2.2 ++ Y)
    rw [hty] at h1
    have h2 : (X ++ be32 ch.2.1.length).length = X.length + 4 := by simp [be32]
    have h3 : X ++ be32 ch.2.1.length ++ ch.1 ++ (ch.2.1 ++ ch.2.2 ++ Y) = d := by
      rw [hd]; simp [pngChunkBytes, List.append_assoc]
    rw [h2, h3] at h1
    exact h1
  · have h1 := extractSeg_at_append (X ++ be32 ch.2.1.length ++ ch.1) ch.2.1 (ch.2.2 ++ Y)
    have h2 : (X ++ be32 ch.2.1.length ++ ch.1).length = X.length + 8 := by
      simp [be32, hty]
    have h3 : X ++ be32 ch.2.1.length ++ ch.1 ++ ch.2.1 ++ (ch.2.2 ++ Y) = d := by
      rw [hd]; simp [pngChunkBytes, List.append_assoc]
    rw [h2, h3] at h1
    exact h1
  · have h1 := extractSeg_at_append X (pngChunkBytes ch) Y
    rw [length_pngChunkBytes ch ⟨hty, hlt, hcrc⟩, ← hd] at h1
    exact h1
  · rw [hd, List.length_append, List.length_append,
      length_pngChunkBytes ch ⟨hty, hlt, hcrc⟩]

theorem pngStego_slices (d X Y dd : List Nat) (hlt : dd.length < 2 ^ 32)
    (hd : d = X ++ pngWriteChunk rundType dd ++ Y) :
    extractSeg d X.length 4 = be32 dd.length ∧
    extractSeg d (X.length + 4) 4 = rundType ∧
    extractSeg d (X.length + 8) dd.length = dd ∧
    d.length = X.length + (12 + dd.length) + Y.length := by
  have hsh : PngChunkShape (rundType, dd, be32 (crc32 (rundType ++ dd))) :=
    ⟨rfl, hlt, length_be32 _⟩
  have hd2 : d = X ++ pngChunkBytes (rundType, dd, be32 (crc32 (rundType ++ dd))) ++ Y := hd
  obtain ⟨a, b, c, _, e⟩ := pngChunk_slices d X Y _ hsh hd2
  exact ⟨a, b, c, e⟩

theorem pngExtractGo_stop (d : List Nat) (fuel pos : Nat) (h : d.length ≤ pos) :
    pngExtractGo d fuel pos = [] := by
  cases fuel with
  | zero => rfl
  | succ n =>
    unfold pngExtractGo
    rw [if_neg (by omega)]

theorem pngExtractGo_congr (d : List Nat) : ∀ fuel fuel' pos,
    d.length ≤ pos + fuel → d.length ≤ pos + fuel' →
    pngExtractGo d fuel pos = pngExtractGo d fuel' pos := by
  intro fuel
  induction fuel with
  | zero =>
    intro fuel' pos h1 h2
    rw [pngExtractGo_stop d 0 pos (by omega), pngExtractGo_stop d fuel' pos (by omega)]
  | succ n ih =>
    intro fuel' pos h1 h2
    by_cases hp : pos < d.length
    · obtain ⟨m, rfl⟩ : ∃ m, fuel' = m + 1 := ⟨fuel' - 1, by omega⟩
      simp only [pngExtractGo]
      split_ifs <;> try rfl
      all_goals (congr 1; exact ih m _ (by omega) (by omega))
    · rw [pngExtractGo_stop d _ pos (by omega), pngExtractGo_stop d _ pos (by omega)]

theorem pngExtractGo_skip (d : List Nat) (chs : List (List Nat × List Nat × List Nat)) :
    ∀ (X Y : List Nat) (fuel : Nat),
    (∀ ch ∈ chs, PngChunkShape ch ∧ ch.1 ≠ rundType ∧ ch.1 ≠ iendType) →
    d = X ++ (chs.map pngChunkBytes).flatten ++ Y →
    d.length ≤ X.length + fuel →
    pngExtractGo d fuel X.length =
      pngExtractGo d (d.length + 1)
        (X.length + ((chs.map pngChunkBytes).flatten).length) := by
  induction chs with
  | nil =>
    intro X Y fuel hall hd hfuel
    simp only [List.map_nil, List.flatten_nil, List.length_nil, Nat.add_zero]
    exact pngExtractGo_congr d fuel (d.length + 1) X.length hfuel (by omega)
  | cons ch t ih =>
    intro X Y fuel hall hd hfuel
    obtain ⟨hsh, hrund, hiend⟩ := hall ch (by simp)
    have hd' : d = X ++ pngChunkBytes ch ++ ((t.map pngChunkBytes).flatten ++ Y) := by
      rw [hd]; simp [List.append_assoc]
    obtain ⟨s1, s2, s3, s4, hlen⟩ := pngChunk_slices d X _ ch hsh hd'
    obtain ⟨f, rfl⟩ : ∃ f, fuel = f + 1 := ⟨fuel - 1, by omega⟩
    conv_lhs => simp only [pngExtractGo]
    rw [s1, readBe32_be32 _ hsh.2.1, s2,
      if_pos (show X.length < d.length from by omega),
      if_pos (show X.length + 4 ≤ d.length from by omega),
      if_pos (show X.length + 8 ≤ d.length from by omega),
      if_pos (show X.length + 8 + ch.2.1.length ≤ d.length from by omega),
      if_pos (show X.length + 12 + ch.2.1.length ≤ d.length from by omega),
      if_neg hrund, if_neg hiend]
    simp only [List.nil_append]
    have hXl : (X ++ pngChunkBytes ch).length = X.length + 12 + ch.2.1.length := by
      simp [length_pngChunkBytes ch hsh]; omega
    have hrec := ih (X ++ pngChunkBytes ch) Y f
      (fun c hc => hall c (by simp [hc]))
      (by rw [hd']; simp [List.append_assoc])
      (by rw [hXl]; omega)
    rw [hXl] at hrec
    rw [hrec, show X.length + 12 + ch.2.1.length + ((t.map pngChunkBytes).flatten).length
      = X.length + (((ch :: t).map pngChunkBytes).flatten).length from by
        simp [length_pngChunkBytes ch hsh]; omega]

theorem pngExtractGo_collect (d : List Nat) (datas : List (List Nat)) :
    ∀ (X Y : List Nat) (fuel : Nat),
    (∀ dd ∈ datas, dd.length < 2 ^ 32) →
    d = X ++ (datas.map (pngWriteChunk rundType)).flatten ++ Y →
    d.length ≤ X.length + fuel →
    pngExtractGo d fuel X.length =
      datas ++ pngExtractGo d (d.length + 1)
        (X.length + ((datas.map (pngWriteChunk rundType)).flatten).length) := by
  induction datas with
  | nil =>
    intro X Y fuel hall hd hfuel
    simp only [List.map_nil, List.flatten_nil, List.length_nil, Nat.add_zero,
      List.nil_append]
    exact pngExtractGo_congr d fuel (d.length + 1) X.length hfuel (by omega)
  | cons dd t ih =>
    intro X Y fuel hall hd hfuel
    have hlt : dd.length < 2 ^ 32 := hall dd (by simp)
    have hd' : d = X ++ pngWriteChunk rundType dd ++
        ((t.map (pngWriteChunk rundType)).flatten ++ Y) := by
      rw [hd]; simp [List.append_assoc]
    obtain ⟨s1, s2, s3, hlen⟩ := pngStego_slices d X _ dd hlt hd'
    obtain ⟨f, rfl⟩ : ∃ f, fuel = f + 1 := ⟨fuel - 1, by omega⟩
    conv_lhs => simp only [pngExtractGo]
    rw [s1, readBe32_be32 _ hlt, s2, s3,
      if_pos (show X.length < d.length from by omega),
      if_pos (show X.length + 4 ≤ d.length from by omega),
      if_pos (show X.length + 8 ≤ d.length from by omega),
      if_pos (show X.length + 8 + dd.length ≤ d.length from by omega),
      if_pos (show X.length + 12 + dd.length ≤ d.length from by omega),
      if_pos rfl, if_neg (show rundType ≠ iendType from by decide)]
    have hWl : (X ++ pngWriteChunk rundType dd).length = X.length + 12 + dd.length := by
      simp [pngWriteChunk, be32, rundType]; omega
    have hrec := ih (X ++ pngWriteChunk rundType dd) Y f
      (fun c hc => hall c (by simp [hc]))
      (by rw [hd']; simp [List.append_assoc])
      (by rw [hWl]; omega)
    rw [hWl] at hrec
    rw [hrec, show X.length + 12 + dd.length
        + ((t.map (pngWriteChunk rundType)).flatten).length
      = X.length + (((dd :: t).map (pngWriteChunk rundType)).flatten).length from by
        simp [pngWriteChunk, be32, rundType]; omega]
    simp

theorem pngExtractGo_tail (d : List Nat) (chs : List (List Nat × List Nat × List Nat)) :
    ∀ (X : List Nat) (fuel : Nat),
    PngTailWf chs →
    d = X ++ (chs.map pngChunkBytes).flatten →
    pngExtractGo d fuel X.length = [] := by
  induction chs with
  | nil =>
    intro X fuel hwf hd
    exact pngExtractGo_stop d fuel X.length (by rw [hd]; simp)
  | cons ch t ih =>
    intro X fuel hwf hd
    obtain ⟨hsh, hrund, hnext⟩ := hwf
    have hd' : d = X ++ pngChunkBytes ch ++ ((t.map pngChunkBytes).flatten ++ []) := by
      rw [hd]; simp [List.append_assoc]
    obtain ⟨s1, s2, s3, s4, hlen⟩ := pngChunk_slices d X _ ch hsh hd'
    cases fuel with
    | zero => rfl
    | succ f =>
      simp only [pngExtractGo]
      rw [s1, readBe32_be32 _ hsh.2.1, s2,
        if_pos (show X.length < d.length from by simp at hlen; omega),
        if_pos (show X.length + 4 ≤ d.length from by simp at hlen; omega),
        if_pos (show X.length + 8 ≤ d.length from by simp at hlen; omega),
        if_pos (show X.length + 8 + ch.2.1.length ≤ d.length from by simp at hlen; omega),
        if_pos (show X.length + 12 + ch.2.1.length ≤ d.length from by simp at hlen; omega),
        if_neg hrund]
      by_cases hie : ch.1 = iendType
      · rw [if_pos hie]; simp
      · rw [if_neg hie]
        simp only [List.nil_append]
        have hXl : (X ++ pngChunkBytes ch).length = X.length + 12 + ch.2.1.length := by
          simp [length_pngChunkBytes ch hsh]; omega
        have hrec := ih (X ++ pngChunkBytes ch) f (hnext hie)
          (by rw [hd']; simp [List.append_assoc])
        rw [hXl] at hrec
        exact hrec

theorem pngEmbedGo_stop (d stego : List Nat) (fuel pos : Nat) (found : Bool)
    (h : d.length ≤ pos) : pngEmbedGo d stego fuel pos found = .ok [] := by
  cases fuel with
  | zero => rfl
  | succ n =>
    unfold pngEmbedGo
    rw [if_neg (by omega)]

theorem pngEmbedGo_congr (d stego : List Nat) : ∀ fuel fuel' pos found,
    d.length ≤ pos + fuel → d.length ≤ pos + fuel' →
    pngEmbedGo d stego fuel pos found = pngEmbedGo d stego fuel' pos found := by
  intro fuel
  induction fuel with
  | zero =>
    intro fuel' pos found h1 h2
    rw [pngEmbedGo_stop d stego 0 pos found (by omega),
      pngEmbedGo_stop d stego fuel' pos found (by omega)]
  | succ n ih =>
    intro fuel' pos found h1 h2
    by_cases hp : pos < d.length
    · obtain ⟨m, rfl⟩ : ∃ m, fuel' = m + 1 := ⟨fuel' - 1, by omega⟩
      simp only [pngEmbedGo]
      split_ifs <;> try rfl
      all_goals (rw [ih m _ _ (by omega) (by omega)])
    · rw [pngEmbedGo_stop d stego _ pos found (by omega),
        pngEmbedGo_stop d stego _ pos found (by omega)]

theorem pngEmbedGo_skipPre (d stego : List Nat)
    (chs : List (List Nat × List Nat × List Nat)) :
    ∀ (X Y : List Nat) (fuel : Nat) (r : List Nat),
    (∀ ch ∈ chs, PngChunkShape ch ∧ ch.1 ≠ idatType ∧ ch.1 ≠ iendType) →
    d = X ++ (chs.map pngChunkBytes).flatten ++ Y →
    d.length ≤ X.length + fuel →
    pngEmbedGo d stego (d.length + 1)
      (X.length + ((chs.map pngChunkBytes).flatten).length) false = .ok r →
    pngEmbedGo d stego fuel X.length false
      = .ok ((chs.map pngChunkBytes).flatten ++ r) := by
  induction chs with
  | nil =>
    intro X Y fuel r hall hd hfuel hrec
    simp only [List.map_nil, List.flatten_nil, List.length_nil, Nat.add_zero] at hrec ⊢
    rw [pngEmbedGo_congr d stego fuel (d.length + 1) X.length false hfuel (by omega), hrec]
    simp
  | cons ch t ih =>
    intro X Y fuel r hall hd hfuel hrec
    obtain ⟨hsh, hidat, hiend⟩ := hall ch (by simp)
    have hd' : d = X ++ pngChunkBytes ch ++ ((t.map pngChunkBytes).flatten ++ Y) := by
      rw [hd]; simp [List.append_assoc]
    obtain ⟨s1, s2, s3, s4, hlen⟩ := pngChunk_slices d X _ ch hsh hd'
    obtain ⟨f, rfl⟩ : ∃ f, fuel = f + 1 := ⟨fuel - 1, by omega⟩
    have hXl : (X ++ pngChunkBytes ch).length = X.length + 12 + ch.2.1.length := by
      simp [length_pngChunkBytes ch hsh]; omega
    have hrec' : pngEmbedGo d stego (d.length + 1)
        ((X ++ pngChunkBytes ch).length + ((t.map pngChunkBytes).flatten).length)
        false = .ok r := by
      rw [hXl, show X.length + 12 + ch.2.1.length + ((t.map pngChunkBytes).flatten).length
        = X.length + (((ch :: t).map pngChunkBytes).flatten).length from by
          simp [length_pngChunkBytes ch hsh]; omega]
      exact hrec
    have htail := ih (X ++ pngChunkBytes ch) Y f r
      (fun c hc => hall c (by simp [hc]))
      (by rw [hd']; simp [List.append_assoc])
      (by rw [hXl]; omega)
      hrec'
    conv_lhs => simp only [pngEmbedGo]
    rw [s1, readBe32_be32 _ hsh.2.1, s2, s4,
      if_pos (show X.length < d.length from by omega),
      if_pos (show X.length + 4 ≤ d.length from by omega),
      if_pos (show X.length + 8 ≤ d.length from by omega),
      if_pos (show X.length + 12 + ch.2.1.length ≤ d.length from by omega),
      if_neg (show ¬(ch.1 = idatType ∧ True) from fun hh => hidat hh.1),
      if_neg hiend,
      show (false || decide (ch.1 = idatType)) = false from by simp [hidat],
      show X.length + 12 + ch.2.1.length = (X ++ pngChunkBytes ch).length from hXl.symm,
      htail]
    simp [List.append_assoc]

theorem pngEmbedGo_insert (d stego X Y : List Nat)
    (ch : List Nat × List Nat × List Nat) (fuel : Nat) (r : List Nat)
    (hsh : PngChunkShape ch) (hty : ch.1 = idatType)
    (hd : d = X ++ pngChunkBytes ch ++ Y)
    (hfuel : d.length ≤ X.length + fuel)
    (hrec : pngEmbedGo d stego (d.length + 1)
      (X.length + 12 + ch.2.1.length) true = .ok r) :
    pngEmbedGo d stego fuel X.length false
      = .ok (stego ++ pngChunkBytes ch ++ r) := by
  obtain ⟨s1, s2, s3, s4, hlen⟩ := pngChunk_slices d X Y ch hsh hd
  obtain ⟨f, rfl⟩ : ∃ f, fuel = f + 1 := ⟨fuel - 1, by omega⟩
  conv_lhs => simp only [pngEmbedGo]
  rw [s1, readBe32_be32 _ hsh.2.1, s2, s4,
    if_pos (show X.length < d.length from by omega),
    if_pos (show X.length + 4 ≤ d.length from by omega),
    if_pos (show X.length + 8 ≤ d.length from by omega),
    if_pos (show X.length + 12 + ch.2.1.length ≤ d.length from by omega),
    if_pos (show ch.1 = idatType ∧ True from ⟨hty, trivial⟩),
    if_neg (show ¬(ch.1 = iendType) from by rw [hty]; decide),
    show (false || decide (ch.1 = idatType)) = true from by simp [hty],
    pngEmbedGo_congr d stego f (d.length + 1)
      (X.length + 12 + ch.2.1.length) true (by omega) (by omega),
    hrec]

theorem pngEmbedGo_copyTail (d stego : List Nat)
    (chs : List (List Nat × List Nat × List Nat)) :
    ∀ (X : List Nat) (fuel : Nat),
    PngTailWf chs →
    d = X ++ (chs.map pngChunkBytes).flatten →
    d.length ≤ X.length + fuel →
    pngEmbedGo d stego fuel X.length true
      = .ok (((pngCopyTail chs).map pngChunkBytes).flatten) := by
  induction chs with
  | nil =>
    intro X fuel hwf hd hfuel
    rw [pngEmbedGo_stop d stego fuel X.length true (by rw [hd]; simp)]
    simp [pngCopyTail]
  | cons ch t ih =>
    intro X fuel hwf hd hfuel
    obtain ⟨hsh, hrund, hnext⟩ := hwf
    have hd' : d = X ++ pngChunkBytes ch ++ ((t.map pngChunkBytes).flatten ++ []) := by
      rw [hd]; simp [List.append_assoc]
    obtain ⟨s1, s2, s3, s4, hlen⟩ := pngChunk_slices d X _ ch hsh hd'
    obtain ⟨f, rfl⟩ : ∃ f, fuel = f + 1 := ⟨fuel - 1, by omega⟩
    conv_lhs => simp only [pngEmbedGo]
    rw [s1, readBe32_be32 _ hsh.2.1, s2, s4,
      if_pos (show X.length < d.length from by omega),
      if_pos (show X.length + 4 ≤ d.length from by omega),
      if_pos (show X.length + 8 ≤ d.length from by omega),
      if_pos (show X.length + 12 + ch.2.1.length ≤ d.length from by omega),
      if_neg (show ¬(ch.1 = idatType ∧ true = false) from fun hh => by cases hh.2)]
    by_cases hie : ch.1 = iendType
    · rw [if_pos hie]
      simp [pngCopyTail, hie]
    · rw [if_neg hie]
      have hXl : (X ++ pngChunkBytes ch).length = X.length + 12 + ch.2.1.length := by
        simp [length_pngChunkBytes ch hsh]; omega
      have htail := ih (X ++ pngChunkBytes ch) f (hnext hie)
        (by rw [hd']; simp [List.append_assoc])
        (by rw [hXl]; omega)
      rw [show (true || decide (ch.1 = idatType)) = true from by simp,
        show X.length + 12 + ch.2.1.length = (X ++ pngChunkBytes ch).length from hXl.symm,
        htail]
      simp [pngCopyTail, hie, List.append_assoc]

theorem pngTailWf_copyTail (chs : List (List Nat × List Nat × List Nat))
    (h : PngTailWf chs) : PngTailWf (pngCopyTail chs) := by
  induction chs with
  | nil => exact trivial
  | cons ch t ih =>
    obtain ⟨hsh, hrund, hnext⟩ := h
    by_cases hie : ch.1 = iendType
    · have hcp : pngCopyTail (ch :: t) = [ch] := by simp [pngCopyTail, hie]
      rw [hcp]
      exact ⟨hsh, hrund, fun _ => trivial⟩
    · have hcp : pngCopyTail (ch :: t) = ch :: pngCopyTail t := by simp [pngCopyTail, hie]
      rw [hcp]
      exact ⟨hsh, hrund, fun _ => ih (hnext hie)⟩

theorem chunksOf_ne_nil (n : Nat) (l : List Nat) (hn : 0 < n) (hl : l ≠ []) :
    chunksOf n l ≠ [] := by
  intro hcon
  unfold chunksOf chunksOfGo at hcon
  rw [if_neg hl, if_neg (by omega)] at hcon
  exact absurd hcon (by simp)

/-- The PNG round-trip on a structurally well-formed carrier: chunks before
the first IDAT carry neither stego nor IDAT nor IEND types, and the tail is
well-framed; a nonempty payload embeds before the IDAT chunk and extracts
back exactly. -/
theorem png_roundtrip (pre post : List (List Nat × List Nat × List Nat))
    (idat : List Nat × List Nat × List Nat) (p : List Nat)
    (hpre : ∀ ch ∈ pre,
      PngChunkShape ch ∧ ch.1 ≠ rundType ∧ ch.1 ≠ idatType ∧ ch.1 ≠ iendType)
    (hidat : PngChunkShape idat) (hidTy : idat.1 = idatType)
    (hpost : PngTailWf post) (hp : p ≠ []) :
    (pngEmbed (mkPng (pre ++ idat :: post)) p).toOption.bind pngExtract = some p := by
  set FP := (pre.map pngChunkBytes).flatten with hFP
  set RI := pngChunkBytes idat with hRI
  set FT := (post.map pngChunkBytes).flatten with hFT
  set CT := ((pngCopyTail post).map pngChunkBytes).flatten with hCT
  set c := mkPng (pre ++ idat :: post) with hc
  set chunks := chunksOf (256 * 1024) p with hchunks
  set stego := (chunks.map (pngWriteChunk rundType)).flatten with hstego
  have hsig : pngSignature.length = 8 := rfl
  have hcshape : c = pngSignature ++ FP ++ RI ++ FT := by
    rw [hc, hFP, hRI, hFT]
    simp [mkPng, List.append_assoc]
  have hRIl : RI.length = 12 + idat.2.1.length := by
    rw [hRI]; exact length_pngChunkBytes idat hidat
  -- validation of any signature-headed file
  have hvalAux : ∀ rest : List Nat, pngValidate (pngSignature ++ rest) = .ok () := by
    intro rest
    have hslice : extractSeg (pngSignature ++ rest) 0 8 = pngSignature := by
      rw [extractSeg_append_left pngSignature rest 0 8 (by rw [hsig]),
        show (8 : Nat) = pngSignature.length from rfl, extractSeg_eq_self]
    unfold pngValidate
    rw [if_neg (by simp [hsig]), if_neg (by rw [hslice]; exact fun hh => hh rfl)]
  have hvalc : pngValidate c = .ok () := by
    have h1 : c = pngSignature ++ (FP ++ (RI ++ FT)) := by
      rw [hcshape]; simp [List.append_assoc]
    rw [h1, hvalAux]
  -- the embed walk over the carrier
  have hcopy : pngEmbedGo c stego (c.length + 1)
      (pngSignature ++ FP ++ RI).length true = .ok CT := by
    have h := pngEmbedGo_copyTail c stego post (pngSignature ++ FP ++ RI) (c.length + 1)
      hpost (by rw [hcshape, ← hFT]) (by omega)
    rw [hCT]
    exact h
  have hinsert : pngEmbedGo c stego (c.length + 1)
      (pngSignature ++ FP).length false = .ok (stego ++ RI ++ CT) := by
    refine pngEmbedGo_insert c stego (pngSignature ++ FP) FT idat (c.length + 1) CT
      hidat hidTy (by rw [hcshape, ← hRI]) (by omega) ?_
    rw [show (pngSignature ++ FP).length + 12 + idat.2.1.length
      = (pngSignature ++ FP ++ RI).length from by simp [hRIl]; omega]
    exact hcopy
  have hskipE : pngEmbedGo c stego (c.length + 1) 8 false
      = .ok (FP ++ (stego ++ RI ++ CT)) := by
    have h := pngEmbedGo_skipPre c stego pre pngSignature (RI ++ FT) (c.length + 1)
      (stego ++ RI ++ CT)
      (fun ch hch => ⟨(hpre ch hch).1, (hpre ch hch).2.2.1, (hpre ch hch).2.2.2⟩)
      (by rw [hcshape, ← hFP]; simp [List.append_assoc]) (by omega)
      (by rw [← hFP, show pngSignature.length + FP.length
          = (pngSignature ++ FP).length from by simp]
          exact hinsert)
    rw [← hFP, hsig] at h
    exact h
  have hembed : pngEmbed c p = .ok (pngSignature ++ (FP ++ (stego ++ RI ++ CT))) := by
    unfold pngEmbed
    rw [if_neg hp, ← hchunks]
    simp only [pngEmbedChunks, hvalc]
    rw [← hstego, hskipE]
  set out := pngSignature ++ (FP ++ (stego ++ RI ++ CT)) with hout
  -- the extract walk over the output
  have hvalout : pngValidate out = .ok () := by rw [hout]; exact hvalAux _
  have htailE : pngExtractGo out (out.length + 1)
      (pngSignature ++ FP ++ stego ++ RI).length = [] := by
    apply pngExtractGo_tail out (pngCopyTail post) _ (out.length + 1)
      (pngTailWf_copyTail post hpost)
    rw [hout, ← hCT]; simp [List.append_assoc]
  have hskipIdat : pngExtractGo out (out.length + 1) (pngSignature ++ FP ++ stego).length
      = pngExtractGo out (out.length + 1)
        ((pngSignature ++ FP ++ stego).length + RI.length) := by
    have h := pngExtractGo_skip out [idat] (pngSignature ++ FP ++ stego) CT (out.length + 1)
      (by
        intro ch hch
        simp at hch
        subst hch
        exact ⟨hidat, by rw [hidTy]; decide, by rw [hidTy]; decide⟩)
      (by rw [hout]; simp [List.append_assoc, hRI]) (by omega)
    rw [show (([idat].map pngChunkBytes).flatten).length = RI.length from by simp [hRI]] at h
    exact h
  have hcollect : pngExtractGo out (out.length + 1) (pngSignature ++ FP).length
      = chunks ++ pngExtractGo out (out.length + 1)
        ((pngSignature ++ FP).length + stego.length) := by
    have h := pngExtractGo_collect out chunks (pngSignature ++ FP) (RI ++ CT)
      (out.length + 1)
      (fun dd hdd => by
        have := (chunksOf_mem (256 * 1024) p dd (by omega) (by rwa [← hchunks])).2
        omega)
      (by rw [hout, ← hstego]; simp [List.append_assoc]) (by omega)
    rw [← hstego] at h
    exact h
  have hskipP : pngExtractGo out (out.length + 1) 8
      = pngExtractGo out (out.length + 1) (8 + FP.length) := by
    have h := pngExtractGo_skip out pre pngSignature (stego ++ RI ++ CT) (out.length + 1)
      (fun ch hch => ⟨(hpre ch hch).1, (hpre ch hch).2.1, (hpre ch hch).2.2.2⟩)
      (by rw [hout, ← hFP]; simp [List.append_assoc]) (by omega)
    rw [← hFP, hsig] at h
    exact h
  have hwalk : pngExtractGo out (out.length + 1) 8 = chunks := by
    rw [hskipP,
      show 8 + FP.length = (pngSignature ++ FP).length from by simp [hsig],
      hcollect,
      show (pngSignature ++ FP).length + stego.length
        = (pngSignature ++ FP ++ stego).length from by simp; omega,
      hskipIdat,
      show (pngSignature ++ FP ++ stego).length + RI.length
        = (pngSignature ++ FP ++ stego ++ RI).length from by simp; omega,
      htailE]
    simp
  have hextract : pngExtract out = some p := by
    simp only [pngExtract, pngExtractChunks, hvalout]
    rw [hwalk, if_neg (by rw [hchunks]; exact chunksOf_ne_nil _ p (by omega) hp),
      hchunks, chunksOf_flatten _ p (by omega)]
  rw [hembed]
  simpa using hextract

/-! ## Lemmas: the JPEG segment walkers -/

theorem length_jpegSegBytes (s : Nat × List Nat) :
    (jpegSegBytes s).length = 4 + s.2.length := by
  simp [jpegSegBytes, be16]; omega

theorem length_jpegRenderSeg (ck : List Nat) :
    (jpegRenderSeg ck).length = 23 + ck.length := by
  simp [jpegRenderSeg, be16, be64, markerB]; omega

theorem jpegSeg_slices (d X Y : List Nat) (m : Nat) (data : List Nat)
    (hd : d = X ++ jpegSegBytes (m, data) ++ Y) :
    d.getD X.length 0 = 255 ∧
    d.getD (X.length + 1) 0 = m ∧
    extractSeg d (X.length + 2) 2 = be16 (data.length + 2) ∧
    d.length = X.length + (4 + data.length) + Y.length := by
  have hshape : d = X ++ ([255, m] ++ (be16 (data.length + 2) ++ (data ++ Y))) := by
    rw [hd]; simp [jpegSegBytes, List.append_assoc]
  refine ⟨?_, ?_, ?_, ?_⟩
  · have h := getD_concat_right X ([255, m] ++ (be16 (data.length + 2) ++ (data ++ Y))) 0
    rw [← hshape, Nat.add_zero] at h
    rw [h]; rfl
  · have h := getD_concat_right X ([255, m] ++ (be16 (data.length + 2) ++ (data ++ Y))) 1
    rw [← hshape] at h
    rw [h]; rfl
  · have h1 := extractSeg_at_append (X ++ [255, m]) (be16 (data.length + 2)) (data ++ Y)
    have h2 : (X ++ [255, m]).length = X.length + 2 := by simp
    have h3 : X ++ [255, m] ++ be16 (data.length + 2) ++ (data ++ Y) = d := by
      rw [hshape]; simp [List.append_assoc]
    rw [h2, h3, length_be16] at h1
    exact h1
  · rw [hd, List.length_append, List.length_append, length_jpegSegBytes]

theorem jpegSeg_data_slice (d X Y : List Nat) (m : Nat) (data : List Nat)
    (hdata : 11 ≤ data.length)
    (hd : d = X ++ jpegSegBytes (m, data) ++ Y) :
    extractSeg d (X.length + 4) 11 = data.take 11 := by
  have hshape : d = (X ++ [255, m] ++ be16 (data.length + 2)) ++ (data ++ Y) := by
    rw [hd]; simp [jpegSegBytes, List.append_assoc]
  have h2 : (X ++ [255, m] ++ be16 (data.length + 2)).length = X.length + 4 := by
    simp [be16]
  rw [hshape, ← h2, show (X ++ [255, m] ++ be16 (data.length + 2)).length
      = (X ++ [255, m] ++ be16 (data.length + 2)).length + 0 from rfl,
    extractSeg_append_right, extractSeg_append_left data Y 0 11 (by omega)]
  unfold extractSeg
  simp

theorem jpegStego_slices (d X Y ck : List Nat) (hck : ck.length ≤ 65514)
    (hd : d = X ++ jpegRenderSeg ck ++ Y) :
    d.getD X.length 0 = 255 ∧
    d.getD (X.length + 1) 0 = 254 ∧
    extractSeg d (X.length + 2) 2 = be16 (2 + 11 + 8 + ck.length) ∧
    extractSeg d (X.length + 4) 11 = markerB ∧
    extractSeg d (X.length + 15) 8 = be64 ck.length ∧
    extractSeg d (X.length + 23) ck.length = ck ∧
    d.length = X.length + (23 + ck.length) + Y.length := by
  have hshape : d = X ++ ([255, 254] ++ (be16 (2 + 11 + 8 + ck.length) ++
      (markerB ++ (be64 ck.length ++ (ck ++ Y))))) := by
    rw [hd]; simp [jpegRenderSeg, List.append_assoc]
  refine ⟨?_, ?_, ?_, ?_, ?_, ?_, ?_⟩
  · have h := getD_concat_right X ([255, 254] ++ (be16 (2 + 11 + 8 + ck.length) ++
      (markerB ++ (be64 ck.length ++ (ck ++ Y))))) 0
    rw [← hshape, Nat.add_zero] at h
    rw [h]; rfl
  · have h := getD_concat_right X ([255, 254] ++ (be16 (2 + 11 + 8 + ck.length) ++
      (markerB ++ (be64 ck.length ++ (ck ++ Y))))) 1
    rw [← hshape] at h
    rw [h]; rfl
  · have h1 := extractSeg_at_append (X ++ [255, 254]) (be16 (2 + 11 + 8 + ck.length))
      (markerB ++ (be64 ck.length ++ (ck ++ Y)))
    have h2 : (X ++ [255, 254]).length = X.length + 2 := by simp
    have h3 : X ++ [255, 254] ++ be16 (2 + 11 + 8 + ck.length) ++
        (markerB ++ (be64 ck.length ++ (ck ++ Y))) = d := by
      rw [hshape]; simp [List.append_assoc]
    rw [h2, h3, length_be16] at h1
    exact h1
  · have h1 := extractSeg_at_append (X ++ [255, 254] ++ be16 (2 + 11 + 8 + ck.length))
      markerB (be64 ck.length ++ (ck ++ Y))
    have h2 : (X ++ [255, 254] ++ be16 (2 + 11 + 8 + ck.length)).length = X.length + 4 := by
      simp [be16]
    have h3 : X ++ [255, 254] ++ be16 (2 + 11 + 8 + ck.length) ++ markerB ++
        (be64 ck.length ++ (ck ++ Y)) = d := by
      rw [hshape]; simp [List.append_assoc]
    rw [h2, h3, length_markerB] at h1
    exact h1
  · have h1 := extractSeg_at_append
      (X ++ [255, 254] ++ be16 (2 + 11 + 8 + ck.length) ++ markerB)
      (be64 ck.length) (ck ++ Y)
    have h2 : (X ++ [255, 254] ++ be16 (2 + 11 + 8 + ck.length) ++ markerB).length
        = X.length + 15 := by simp [be16, markerB]
    have h3 : X ++ [255, 254] ++ be16 (2 + 11 + 8 + ck.length) ++ markerB ++
        be64 ck.length ++ (ck ++ Y) = d := by
      rw [hshape]; simp [List.append_assoc]
    rw [h2, h3, length_be64] at h1
    exact h1
  · have h1 := extractSeg_at_append
      (X ++ [255, 254] ++ be16 (2 + 11 + 8 + ck.length) ++ markerB ++ be64 ck.length)
      ck Y
    have h2 : (X ++ [255, 254] ++ be16 (2 + 11 + 8 + ck.length) ++ markerB ++
        be64 ck.length).length = X.length + 23 := by simp [be16, be64, markerB]
    have h3 : X ++ [255, 254] ++ be16 (2 + 11 + 8 + ck.length) ++ markerB ++
        be64 ck.length ++ ck ++ Y = d := by
      rw [hshape]; simp [List.append_assoc]
    rw [h2, h3] at h1
    exact h1
  · rw [hd, List.length_append, List.length_append, length_jpegRenderSeg]

theorem findStegoGo_stop (d : List Nat) (fuel pos : Nat)
    (h : ¬(pos + 4 < d.length)) : findStegoGo d fuel pos = [] := by
  cases fuel with
  | zero => rfl
  | succ n =>
    unfold findStegoGo
    rw [if_neg h]

theorem findStegoGo_congr (d : List Nat) : ∀ fuel fuel' pos,
    d.length ≤ pos + fuel → d.length ≤ pos + fuel' →
    findStegoGo d fuel pos = findStegoGo d fuel' pos := by
  intro fuel
  induction fuel with
  | zero =>
    intro fuel' pos h1 h2
    rw [findStegoGo_stop d 0 pos (by omega), findStegoGo_stop d fuel' pos (by omega)]
  | succ n ih =>
    intro fuel' pos h1 h2
    by_cases hp : pos + 4 < d.length
    · obtain ⟨m, rfl⟩ : ∃ m, fuel' = m + 1 := ⟨fuel' - 1, by omega⟩
      simp only [findStegoGo]
      split_ifs <;> try rfl
      all_goals first
        | (rw [ih m _ (by omega) (by omega)])
        | (congr 1; rw [ih m _ (by omega) (by omega)])
    · rw [findStegoGo_stop d _ pos hp, findStegoGo_stop d _ pos hp]

theorem insertPosGo_stop (d : List Nat) (fuel pos ipos : Nat)
    (h : ¬(pos + 4 < d.length)) : insertPosGo d fuel pos ipos = ipos := by
  cases fuel with
  | zero => rfl
  | succ n =>
    unfold insertPosGo
    rw [if_neg h]

theorem insertPosGo_segs (d : List Nat) (segs : List (Nat × List Nat)) :
    ∀ (X : List Nat) (fuel : Nat),
    (∀ s ∈ segs, s.1 ≠ 218 ∧ s.2.length + 2 < 65536) →
    d = X ++ (segs.map jpegSegBytes).flatten ++ [255, 217] →
    d.length ≤ X.length + fuel →
    insertPosGo d fuel X.length X.length
      = X.length + ((segs.map jpegSegBytes).flatten).length := by
  induction segs with
  | nil =>
    intro X fuel hall hd hfuel
    simp only [List.map_nil, List.flatten_nil, List.length_nil, Nat.add_zero]
    exact insertPosGo_stop d fuel X.length X.length (by rw [hd]; simp)
  | cons s t ih =>
    intro X fuel hall hd hfuel
    obtain ⟨hm, hfit⟩ := hall s (by simp)
    have hd' : d = X ++ jpegSegBytes (s.1, s.2) ++
        ((t.map jpegSegBytes).flatten ++ [255, 217]) := by
      rw [hd]; simp [List.append_assoc]
    obtain ⟨s0, s1, s2, hlen⟩ := jpegSeg_slices d X _ s.1 s.2 hd'
    obtain ⟨f, rfl⟩ : ∃ f, fuel = f + 1 := ⟨fuel - 1, by omega⟩
    unfold insertPosGo
    rw [if_pos (show X.length + 4 < d.length from by simp at hlen; omega),
      if_neg (by rw [s0]; simp), s1, if_neg hm, s2,
      readBe16_be16 _ (by omega)]
    have hXl : (X ++ jpegSegBytes (s.1, s.2)).length = X.length + 2 + (s.2.length + 2) := by
      simp [length_jpegSegBytes]; omega
    have hrec := ih (X ++ jpegSegBytes (s.1, s.2)) f
      (fun u hu => hall u (by simp [hu]))
      (by rw [hd']; simp [List.append_assoc])
      (by rw [hXl]; omega)
    rw [hXl] at hrec
    rw [hrec, show X.length + 2 + (s.2.length + 2)
        + ((t.map jpegSegBytes).flatten).length
      = X.length + (((s :: t).map jpegSegBytes).flatten).length from by
        simp [length_jpegSegBytes]; omega]

theorem findStegoGo_skipSegs (d : List Nat) (segs : List (Nat × List Nat)) :
    ∀ (X Y : List Nat) (fuel : Nat),
    (∀ s ∈ segs, JpegSegShape s) →
    d = X ++ (segs.map jpegSegBytes).flatten ++ Y →
    d.length ≤ X.length + fuel →
    1 ≤ Y.length →
    findStegoGo d fuel X.length
      = findStegoGo d (d.length + 1)
        (X.length + ((segs.map jpegSegBytes).flatten).length) := by
  induction segs with
  | nil =>
    intro X Y fuel hall hd hfuel hY
    simp only [List.map_nil, List.flatten_nil, List.length_nil, Nat.add_zero]
    exact findStegoGo_congr d fuel (d.length + 1) X.length hfuel (by omega)
  | cons s t ih =>
    intro X Y fuel hall hd hfuel hY
    obtain ⟨hm, hfit, hcom⟩ := hall s (by simp)
    have hd' : d = X ++ jpegSegBytes (s.1, s.2) ++
        ((t.map jpegSegBytes).flatten ++ Y) := by
      rw [hd]; simp [List.append_assoc]
    obtain ⟨s0, s1, s2, hlen⟩ := jpegSeg_slices d X _ s.1 s.2 hd'
    have hYlen : 1 ≤ ((t.map jpegSegBytes).flatten ++ Y).length := by simp; omega
    obtain ⟨f, rfl⟩ : ∃ f, fuel = f + 1 := ⟨fuel - 1, by omega⟩
    have hXl : (X ++ jpegSegBytes (s.1, s.2)).length = X.length + 2 + (s.2.length + 2) := by
      simp [length_jpegSegBytes]; omega
    have hrec := ih (X ++ jpegSegBytes (s.1, s.2)) Y f
      (fun u hu => hall u (by simp [hu]))
      (by rw [hd']; simp [List.append_assoc])
      (by rw [hXl]; omega) hY
    rw [hXl] at hrec
    have hguard : X.length + 4 < d.length := by simp at hlen hYlen ⊢; omega
    have hpos : X.length + 2 + (s.2.length + 2)
        + ((t.map jpegSegBytes).flatten).length
      = X.length + (((s :: t).map jpegSegBytes).flatten).length := by
        simp [length_jpegSegBytes]; omega
    conv_lhs => simp only [findStegoGo]
    rw [if_pos hguard, if_neg (by rw [s0]; simp), s1]
    by_cases h254 : s.1 = 254
    · rw [if_pos h254, s2, readBe16_be16 _ (by omega)]
      rw [if_neg ?hmiss]
      case hmiss =>
        intro hhit
        obtain ⟨hh1, hh2, hh3, hh4⟩ := hhit
        have hdlen : 17 ≤ s.2.length := by omega
        have hslice := jpegSeg_data_slice d X _ s.1 s.2 (by omega) hd'
        rw [hslice] at hh4
        exact hcom h254 hh4
      rw [hrec, hpos]
    · rw [if_neg h254, s2, readBe16_be16 _ (by omega)]
      rw [hrec, hpos]

theorem findStegoGo_collect (d : List Nat) (chunks : List (List Nat)) :
    ∀ (X Y : List Nat) (fuel : Nat),
    (∀ ck ∈ chunks, ck ≠ [] ∧ ck.length ≤ 65514) →
    d = X ++ (chunks.map jpegRenderSeg).flatten ++ Y →
    d.length ≤ X.length + fuel →
    findStegoGo d fuel X.length
      = jpegSpans X.length chunks
        ++ findStegoGo d (d.length + 1)
          (X.length + ((chunks.map jpegRenderSeg).flatten).length) := by
  induction chunks with
  | nil =>
    intro X Y fuel hall hd hfuel
    simp only [List.map_nil, List.flatten_nil, List.length_nil, Nat.add_zero,
      jpegSpans, List.nil_append]
    exact findStegoGo_congr d fuel (d.length + 1) X.length hfuel (by omega)
  | cons ck t ih =>
    intro X Y fuel hall hd hfuel
    obtain ⟨hne, hle⟩ := hall ck (by simp)
    have hd' : d = X ++ jpegRenderSeg ck ++ ((t.map jpegRenderSeg).flatten ++ Y) := by
      rw [hd]; simp [List.append_assoc]
    obtain ⟨s0, s1, s2, s3, s4, s5, hlen⟩ := jpegStego_slices d X _ ck hle hd'
    obtain ⟨f, rfl⟩ : ∃ f, fuel = f + 1 := ⟨fuel - 1, by omega⟩
    have hXl : (X ++ jpegRenderSeg ck).length
        = X.length + 2 + (2 + 11 + 8 + ck.length) := by
      simp [length_jpegRenderSeg]; omega
    have hrec := ih (X ++ jpegRenderSeg ck) Y f
      (fun u hu => hall u (by simp [hu]))
      (by rw [hd']; simp [List.append_assoc])
      (by rw [hXl]; omega)
    rw [hXl] at hrec
    conv_lhs => simp only [findStegoGo]
    rw [if_pos (show X.length + 4 < d.length from by omega),
      if_neg (by rw [s0]; simp), s1, if_pos rfl, s2,
      readBe16_be16 _ (by omega),
      if_pos (show X.length + 2 + (2 + 11 + 8 + ck.length) ≤ d.length ∧
        19 ≤ 2 + 11 + 8 + ck.length ∧ X.length + 4 + 11 ≤ d.length ∧
        extractSeg d (X.length + 4) 11 = markerB from
          ⟨by omega, by omega, by omega, s3⟩),
      hrec,
      show X.length + 2 + (2 + 11 + 8 + ck.length) = X.length + 23 + ck.length
        from by omega,
      show X.length + 23 + ck.length + ((t.map jpegRenderSeg).flatten).length
        = X.length + (((ck :: t).map jpegRenderSeg).flatten).length from by
          simp [length_jpegRenderSeg]; omega]
    simp [jpegSpans]

theorem jpegCollect_go (d : List Nat) (chunks : List (List Nat)) :
    ∀ (X Y : List Nat) (acc : List Nat),
    (∀ ck ∈ chunks, ck ≠ [] ∧ ck.length ≤ 65514) →
    d = X ++ (chunks.map jpegRenderSeg).flatten ++ Y →
    (jpegSpans X.length chunks).foldl
      (fun acc se =>
        if se.2 ≤ se.1 + 23 then acc
        else
          let clen := readBe64 (extractSeg d (se.1 + 15) 8)
          if se.1 + 23 + clen ≤ se.2 then acc ++ extractSeg d (se.1 + 23) clen
          else acc)
      acc = acc ++ chunks.flatten := by
  induction chunks with
  | nil =>
    intro X Y acc hall hd
    simp [jpegSpans]
  | cons ck t ih =>
    intro X Y acc hall hd
    obtain ⟨hne, hle⟩ := hall ck (by simp)
    have hd' : d = X ++ jpegRenderSeg ck ++ ((t.map jpegRenderSeg).flatten ++ Y) := by
      rw [hd]; simp [List.append_assoc]
    obtain ⟨s0, s1, s2, s3, s4, s5, hlen⟩ := jpegStego_slices d X _ ck hle hd'
    have hck0 : 0 < ck.length := List.length_pos.mpr hne
    have hXl : (X ++ jpegRenderSeg ck).length = X.length + 23 + ck.length := by
      simp [length_jpegRenderSeg]; omega
    simp only [jpegSpans, List.foldl_cons]
    rw [if_neg (show ¬(X.length + 23 + ck.length ≤ X.length + 23) from by omega),
      s4, readBe64_be64 _ (by omega),
      if_pos (show X.length + 23 + ck.length ≤ X.length + 23 + ck.length from le_rfl),
      s5,
      show X.length + 23 + ck.length = (X ++ jpegRenderSeg ck).length from hXl.symm,
      ih (X ++ jpegRenderSeg ck) Y (acc ++ ck)
        (fun u hu => hall u (by simp [hu]))
        (by rw [hd']; simp [List.append_assoc])]
    simp

theorem jpegCollectPayload_spans (d : List Nat) (chunks : List (List Nat))
    (X Y : List Nat)
    (hall : ∀ ck ∈ chunks, ck ≠ [] ∧ ck.length ≤ 65514)
    (hd : d = X ++ (chunks.map jpegRenderSeg).flatten ++ Y) :
    jpegCollectPayload d (jpegSpans X.length chunks) = chunks.flatten := by
  unfold jpegCollectPayload
  rw [jpegCollect_go d chunks X Y [] hall hd]
  simp

/-- The JPEG round-trip: on a carrier made of well-shaped segments, a
nonempty payload within capacity embeds as COM segments before the EOI
marker and extracts back exactly. -/
theorem jpeg_roundtrip (segs : List (Nat × List Nat)) (p : List Nat)
    (hsegs : ∀ s ∈ segs, JpegSegShape s) (hp : p ≠ [])
    (hcap : p.length ≤ 100 * 65514) :
    (jpegEmbed (mkJpeg segs) p).toOption.bind jpegExtract = some p := by
  set c := mkJpeg segs with hc
  set B := (segs.map jpegSegBytes).flatten with hB
  set chunks := chunksOf 65514 p with hchunks
  set S := (chunks.map jpegRenderSeg).flatten with hS
  have hcshape : c = [255, 216] ++ B ++ [255, 217] := by
    rw [hc, hB]; simp [mkJpeg]
  have hclen : c.length = 2 + B.length + 2 := by
    rw [hcshape]; simp; omega
  have hval : ∀ M : List Nat,
      jpegValidate ([255, 216] ++ M ++ [255, 217]) = .ok () := by
    intro M
    have hocc : occursAt [255, 217] ([255, 216] ++ M ++ [255, 217])
        ([255, 216] ++ M).length := by
      have h := occursAt_at_append ([255, 216] ++ M) [255, 217] []
      rwa [List.append_nil] at h
    unfold jpegValidate
    have hcont : containsSubB (255 :: 216 :: (M ++ [255, 217])) [255, 217] = true := by
      rw [show (255 :: 216 :: (M ++ [255, 217]) : List Nat)
        = [255, 216] ++ M ++ [255, 217] from by simp]
      exact containsSubB_of_occurs _ _ _ hocc
    rw [if_neg (by simp), if_neg (by push_neg; exact ⟨rfl, rfl⟩),
      if_neg (by simp [hcont])]
  have hvalc : jpegValidate c = .ok () := by rw [hcshape]; exact hval B
  have hcapc : jpegCapacity c = 100 * 65514 := by
    unfold jpegCapacity; rw [hvalc]
  have hfindc : findStegoSegments c = [] := by
    unfold findStegoSegments
    have h := findStegoGo_skipSegs c segs [255, 216] [255, 217] (c.length + 1) hsegs
      (by rw [hcshape, hB]) (by omega) (by simp)
    rw [show (([255, 216] : List Nat)).length = 2 from rfl, ← hB] at h
    rw [h]
    exact findStegoGo_stop c (c.length + 1) (2 + B.length) (by omega)
  have hstrip : jpegStrip c = c := by
    unfold jpegStrip
    rw [hfindc]
    simp
  have hipos : insertPosGo c (c.length + 1) 2 2 = 2 + B.length := by
    have h := insertPosGo_segs c segs [255, 216] (c.length + 1)
      (fun s hs => ⟨(hsegs s hs).1, (hsegs s hs).2.1⟩)
      (by rw [hcshape, hB]) (by omega)
    rw [show (([255, 216] : List Nat)).length = 2 from rfl, ← hB] at h
    exact h
  have hembSegs : jpegEmbedSegments c chunks = [255, 216] ++ B ++ S ++ [255, 217] := by
    unfold jpegEmbedSegments
    rw [← hS, hipos]
    have htake : c.take (2 + B.length) = [255, 216] ++ B := by
      rw [hcshape, show 2 + B.length = (([255, 216] : List Nat) ++ B).length from by
        simp; omega, List.take_left]
    have hdrop : c.drop (2 + B.length) = [255, 217] := by
      rw [hcshape, show 2 + B.length = (([255, 216] : List Nat) ++ B).length from by
        simp; omega, List.drop_left]
    simp only [htake, hdrop]
  have hemb : jpegEmbed c p = .ok ([255, 216] ++ B ++ S ++ [255, 217]) := by
    unfold jpegEmbed
    rw [if_neg hp, hvalc]
    simp only [hcapc]
    rw [if_neg (by omega), hstrip, ← hchunks, hembSegs]
  set out := [255, 216] ++ B ++ S ++ [255, 217] with hout
  have holen : out.length = 2 + B.length + S.length + 2 := by
    rw [hout]; simp; omega
  have hvalout : jpegValidate out = .ok () := by
    rw [hout, show [255, 216] ++ B ++ S ++ [255, 217]
      = [255, 216] ++ (B ++ S) ++ [255, 217] from by simp [List.append_assoc]]
    exact hval (B ++ S)
  have hchProps : ∀ ck ∈ chunks, ck ≠ [] ∧ ck.length ≤ 65514 :=
    fun ck hck => chunksOf_mem 65514 p ck (by omega) (by rw [← hchunks]; exact hck)
  have hskip : findStegoGo out (out.length + 1) 2
      = findStegoGo out (out.length + 1) (2 + B.length) := by
    have h := findStegoGo_skipSegs out segs [255, 216] (S ++ [255, 217])
      (out.length + 1) hsegs (by rw [hout, hB]; simp [List.append_assoc])
      (by omega) (by simp)
    rw [show (([255, 216] : List Nat)).length = 2 from rfl, ← hB] at h
    exact h
  have hcoll : findStegoGo out (out.length + 1) (2 + B.length)
      = jpegSpans (2 + B.length) chunks
        ++ findStegoGo out (out.length + 1) (2 + B.length + S.length) := by
    have h := findStegoGo_collect out chunks ([255, 216] ++ B) [255, 217]
      (out.length + 1) hchProps
      (by rw [hout, hS]) (by omega)
    rw [show (([255, 216] : List Nat) ++ B).length = 2 + B.length from by simp <;> omega,
      ← hS] at h
    exact h
  have hstop : findStegoGo out (out.length + 1) (2 + B.length + S.length) = [] :=
    findStegoGo_stop out (out.length + 1) (2 + B.length + S.length) (by omega)
  have hchne : chunks ≠ [] := by
    rw [hchunks]
    exact chunksOf_ne_nil 65514 p (by omega) hp
  have hspansne : jpegSpans (2 + B.length) chunks ≠ [] := by
    intro hcon
    cases hch : chunks with
    | nil => exact hchne hch
    | cons a t => rw [hch] at hcon; simp [jpegSpans] at hcon
  have hfindout : findStegoSegments out = jpegSpans (2 + B.length) chunks := by
    unfold findStegoSegments
    rw [hskip, hcoll, hstop]
    simp
  have hpay : jpegCollectPayload out (jpegSpans (2 + B.length) chunks) = p := by
    have h := jpegCollectPayload_spans out chunks ([255, 216] ++ B) [255, 217] hchProps
      (by rw [hout, hS])
    rw [show (([255, 216] : List Nat) ++ B).length = 2 + B.length from by simp <;> omega] at h
    rw [h, hchunks, chunksOf_flatten 65514 p (by omega)]
  have hext : jpegExtract out = some p := by
    simp only [jpegExtract, hvalout, hfindout]
    rw [if_neg hspansne, hpay, if_neg hp]
  rw [hemb]
  simpa using hext

/-- C2 (amended): for each carrier, `extract` after `embed` returns exactly
the embedded payload, under the structural side conditions the code actually
needs: the PNG carrier must contain an IDAT chunk and no stray stego/IEND
chunks before it; the JPEG carrier is a run of well-shaped non-SOS segments
between SOI and EOI whose COM segments do not begin with the marker; the MP4
and PDF carriers must not contain the 11-byte marker (for PDF, neither may
the length-prefixed payload), and payloads are nonempty and within the
carrier-specific size bounds. -/
theorem c2_amended :
    (∀ (pre post : List (List Nat × List Nat × List Nat))
        (idat : List Nat × List Nat × List Nat) (p : List Nat),
      (∀ ch ∈ pre,
        PngChunkShape ch ∧ ch.1 ≠ rundType ∧ ch.1 ≠ idatType ∧ ch.1 ≠ iendType) →
      PngChunkShape idat → idat.1 = idatType → PngTailWf post → p ≠ [] →
      (pngEmbed (mkPng (pre ++ idat :: post)) p).toOption.bind pngExtract = some p) ∧
    (∀ (segs : List (Nat × List Nat)) (p : List Nat),
      (∀ s ∈ segs, JpegSegShape s) → p ≠ [] → p.length ≤ 100 * 65514 →
      (jpegEmbed (mkJpeg segs) p).toOption.bind jpegExtract = some p) ∧
    (∀ (c p : List Nat), mp4Validate c = .ok () →
      (∀ k < c.length, ¬occursAt markerB c k) → p ≠ [] → p.length < 16777189 →
      (mp4Embed c p).toOption.bind mp4Extract = some p) ∧
    (∀ (c p : List Nat), pdfValidate c = .ok () →
      (∀ k < c.length, ¬occursAt markerB c k) →
      (∀ k < (be64 p.length ++ p).length, ¬occursAt markerB (be64 p.length ++ p) k) →
      p ≠ [] → p.length ≤ 100 * 1024 * 1024 →
      (pdfEmbed c p).toOption.bind pdfExtract = some p) :=
  ⟨fun pre post idat p h1 h2 h3 h4 h5 => png_roundtrip pre post idat p h1 h2 h3 h4 h5,
   fun segs p h1 h2 h3 => jpeg_roundtrip segs p h1 h2 h3,
   fun c p h1 h2 h3 h4 => mp4_roundtrip c p h1 h2 h3 h4,
   fun c p h1 h2 h3 h4 h5 => pdf_roundtrip c p h1 h2 h3 h4 h5⟩

set_option maxRecDepth 100000 in
/-- Witness for C2 on the repository's own minimal fixtures: the 1x1 PNG,
the minimal JPEG, a single-`ftyp` MP4, and a header-plus-EOF PDF, each with
the one-byte payload `[7]`. -/
theorem c2_witness :
    (pngEmbed (mkPng [([73, 72, 68, 82], [0, 0, 0, 1, 0, 0, 0, 1, 8, 0, 0, 0, 0],
        be32 931592667), (idatType, [120, 156, 98, 0, 0, 0, 2, 0, 1], be32 633431174),
        (iendType, [], be32 2923585666)]) [7]).toOption.bind pngExtract = some [7] ∧
    (jpegEmbed minJpeg [7]).toOption.bind jpegExtract = some [7] ∧
    (mp4Embed minMp4 [7]).toOption.bind mp4Extract = some [7] ∧
    (pdfEmbed minPdf [7]).toOption.bind pdfExtract = some [7] := by
  obtain ⟨h1, h2, h3, h4⟩ := c2_amended
  refine ⟨?_, ?_, ?_, ?_⟩
  · exact h1 [([73, 72, 68, 82], [0, 0, 0, 1, 0, 0, 0, 1, 8, 0, 0, 0, 0],
      be32 931592667)] [(iendType, [], be32 2923585666)]
      (idatType, [120, 156, 98, 0, 0, 0, 2, 0, 1], be32 633431174) [7]
      (by decide) (by decide) (by decide) (by decide) (by decide)
  · exact h2 [(224, [74, 70, 73, 70, 0, 1, 1, 0, 0, 1, 0, 1, 0, 0])] [7]
      (by decide) (by decide) (by decide)
  · exact h3 minMp4 [7] (by decide) (by decide) (by decide) (by decide)
  · exact h4 minPdf [7] (by decide) (by decide) (by decide) (by decide) (by decide)

/-! ## C7: remove_file is a logical removal -/

theorem length_serializeEntry (kv : List Nat × FileMetadata) :
    (serializeEntry kv).length = 40 + kv.1.length + kv.2.mime_type.length := by
  simp [serializeEntry, le64]
  omega

theorem extractSeg_eq_of_getD (f g : List Nat) (off len : Nat)
    (hf : off + len ≤ f.length) (hg : off + len ≤ g.length)
    (h : ∀ j, j < len → f.getD (off + j) 0 = g.getD (off + j) 0) :
    extractSeg f off len = extractSeg g off len := by
  apply List.ext_getElem
  · rw [length_extractSeg_of_le f off len hf, length_extractSeg_of_le g off len hg]
  · intro i h1 h2
    have hlen1 : i < len := by
      have h3 := h1
      rwa [length_extractSeg_of_le f off len hf] at h3
    rw [← List.getD_eq_getElem (extractSeg f off len) 0 h1,
      ← List.getD_eq_getElem (extractSeg g off len) 0 h2,
      getD_extractSeg f off len i hlen1,
      getD_extractSeg g off len i hlen1]
    exact h i hlen1

/-- C7 (amended): when the entry exists and the rewritten metadata
ciphertext still fits between the volume's metadata offset and the data
area, `remove_file` returns true, leaves every byte from the data-area
start onward untouched (in particular the removed entry's
nonce-plus-ciphertext block), and never shrinks the file. -/
theorem c7_amended (c : CryptoPrims) (hE : EncLen c)
    (nonceMeta f key filePath : List Nat) (vt : VolumeType) (m : MetadataMap)
    (fm : FileMetadata)
    (hfound : lookupKey m filePath = some fm)
    (hnl : nonceMeta.length = XNONCE_LEN)
    (hregion : metadataOffset vt + (serializeMap (removeKey m filePath)).length + 16
      ≤ DATA_AREA_START_OFFSET)
    (hblock : DATA_AREA_START_OFFSET ≤ fm.data_offset)
    (hblockIn : fm.data_offset + fm.data_length ≤ f.length) :
    (remove_file c nonceMeta f vt key m filePath).1 = true ∧
    (∀ i, DATA_AREA_START_OFFSET ≤ i →
      (remove_file c nonceMeta f vt key m filePath).2.1.getD i 0 = f.getD i 0) ∧
    extractSeg (remove_file c nonceMeta f vt key m filePath).2.1
        fm.data_offset fm.data_length
      = extractSeg f fm.data_offset fm.data_length ∧
    f.length ≤ (remove_file c nonceMeta f vt key m filePath).2.1.length := by
  have hr : remove_file c nonceMeta f vt key m filePath
      = (true,
        writeAt
          (writeAt f (metadataOffset vt)
            (c.encrypt key nonceMeta (serializeMap (removeKey m filePath))))
          (headerFieldOffset vt)
          (nonceMeta ++ le64
            (c.encrypt key nonceMeta (serializeMap (removeKey m filePath))).length),
        removeKey m filePath) := by
    unfold remove_file write_metadata_block update_header_metadata
    rw [hfound]
  have hctlen : (c.encrypt key nonceMeta (serializeMap (removeKey m filePath))).length
      = (serializeMap (removeKey m filePath)).length + 16 := hE key nonceMeta _
  have hhfo : headerFieldOffset vt + 32 ≤ DATA_AREA_START_OFFSET := by
    cases vt <;> decide
  have hmo : metadataOffset vt
      + (c.encrypt key nonceMeta (serializeMap (removeKey m filePath))).length
      ≤ DATA_AREA_START_OFFSET := by
    rw [hctlen]; omega
  have hnlen : (nonceMeta ++ le64
      (c.encrypt key nonceMeta (serializeMap (removeKey m filePath))).length).length
      = 32 := by
    rw [List.length_append, hnl, length_le64]
    rfl
  have hafter : ∀ i, DATA_AREA_START_OFFSET ≤ i →
      (remove_file c nonceMeta f vt key m filePath).2.1.getD i 0 = f.getD i 0 := by
    intro i hi
    rw [hr]
    rw [getD_writeAt_after _ _ _ _ (by rw [hnlen]; omega),
      getD_writeAt_after _ _ _ _ (by omega)]
  have hlen : f.length ≤ (remove_file c nonceMeta f vt key m filePath).2.1.length := by
    rw [hr]
    simp only [length_writeAt]
    omega
  refine ⟨by rw [hr], hafter, ?_, hlen⟩
  exact extractSeg_eq_of_getD _ f fm.data_offset fm.data_length
    (by omega) hblockIn
    (fun j hj => hafter (fm.data_offset + j) (by omega))

/-- Witness for C7: a standard-volume blob holding one entry whose data
block sits at the data-area start; removing it succeeds and preserves the
data area. -/
theorem c7_witness :
    (remove_file toyCrypto (List.replicate 24 5)
      (List.replicate (DATA_AREA_START_OFFSET + 30) 3) .Standard [9]
      [([1], ⟨0, DATA_AREA_START_OFFSET, 24, []⟩)] [1]).1 = true ∧
    (remove_file toyCrypto (List.replicate 24 5)
      (List.replicate (DATA_AREA_START_OFFSET + 30) 3) .Standard [9]
      [([1], ⟨0, DATA_AREA_START_OFFSET, 24, []⟩)] [1]).2.1.getD
        DATA_AREA_START_OFFSET 0
      = (List.replicate (DATA_AREA_START_OFFSET + 30) 3).getD
          DATA_AREA_START_OFFSET 0 ∧
    extractSeg (remove_file toyCrypto (List.replicate 24 5)
      (List.replicate (DATA_AREA_START_OFFSET + 30) 3) .Standard [9]
      [([1], ⟨0, DATA_AREA_START_OFFSET, 24, []⟩)] [1]).2.1
        DATA_AREA_START_OFFSET 24
      = extractSeg (List.replicate (DATA_AREA_START_OFFSET + 30) 3)
          DATA_AREA_START_OFFSET 24 ∧
    (List.replicate (DATA_AREA_START_OFFSET + 30) 3).length ≤
      (remove_file toyCrypto (List.replicate 24 5)
        (List.replicate (DATA_AREA_START_OFFSET + 30) 3) .Standard [9]
        [([1], ⟨0, DATA_AREA_START_OFFSET, 24, []⟩)] [1]).2.1.length := by
  have h := c7_amended toyCrypto toyCrypto_EncLen (List.replicate 24 5)
    (List.replicate (DATA_AREA_START_OFFSET + 30) 3) [9] [1] .Standard
    [([1], ⟨0, DATA_AREA_START_OFFSET, 24, []⟩)] ⟨0, DATA_AREA_START_OFFSET, 24, []⟩
    (by decide) (by decide) (by decide) (by decide)
    (by simp <;> omega)
  exact ⟨h.1, h.2.1 DATA_AREA_START_OFFSET le_rfl, h.2.2.1, h.2.2.2⟩

/-- C7 counterexample: nothing in `remove_file` bounds the rewritten
metadata ciphertext by the metadata region, so with a surviving entry
whose key is about 1 MiB long the hidden volume's rewritten ciphertext
spills past the data-area start and overwrites data-area bytes in place:
removal reports success, yet the byte at the data-area start changes
from 7 to 0. -/
theorem c7_counterexample :
    (remove_file toyCrypto (List.replicate 24 5)
      (List.replicate (DATA_AREA_START_OFFSET + 4) 7) .Hidden [9]
      [(List.replicate 1048600 0, ⟨0, DATA_AREA_START_OFFSET, 24, []⟩),
       ([1], ⟨0, DATA_AREA_START_OFFSET, 24, []⟩)] [1]).1 = true ∧
    (remove_file toyCrypto (List.replicate 24 5)
      (List.replicate (DATA_AREA_START_OFFSET + 4) 7) .Hidden [9]
      [(List.replicate 1048600 0, ⟨0, DATA_AREA_START_OFFSET, 24, []⟩),
       ([1], ⟨0, DATA_AREA_START_OFFSET, 24, []⟩)] [1]).2.1.getD
        DATA_AREA_START_OFFSET 0 = 0 ∧
    (List.replicate (DATA_AREA_START_OFFSET + 4) 7).getD DATA_AREA_START_OFFSET 0
      = 7 := by
  set K : List Nat := List.replicate 1048600 0 with hK
  set fm : FileMetadata := ⟨0, DATA_AREA_START_OFFSET, 24, []⟩ with hfm
  set f0 : List Nat := List.replicate (DATA_AREA_START_OFFSET + 4) 7 with hf0
  have hKlen : K.length = 1048600 := by rw [hK, List.length_replicate]
  have hKne : K ≠ [1] := by
    intro h
    have h2 := congrArg List.length h
    rw [hKlen] at h2
    exact absurd h2 (by decide)
  have hlook : lookupKey [(K, fm), ([1], fm)] [1] = some fm := by
    rw [lookupKey_cons, if_neg hKne, lookupKey_cons, if_pos rfl]
  have hrm : removeKey [(K, fm), ([1], fm)] [1] = [(K, fm)] := by
    rw [removeKey_eq_filter]
    have h1 : (K == [1]) = false := beq_false_of_ne hKne
    have h2 : (([1] : List Nat) == [1]) = true := by decide
    simp [List.filter_cons, h1, h2]
  have hA : serializeMap [(K, fm)] = le64 1 ++ (serializeEntry (K, fm) ++ []) := rfl
  have hEsh : serializeEntry (K, fm)
      = le64 K.length ++ K ++ le64 0 ++ le64 DATA_AREA_START_OFFSET ++ le64 24
        ++ le64 0 ++ [] := rfl
  have hptlen : (serializeMap [(K, fm)]).length = 1048648 := by
    rw [hA, List.length_append, List.length_append, hEsh]
    simp only [List.length_append, length_le64, hKlen, List.length_nil]
  have hctshape : toyCrypto.encrypt [9] (List.replicate 24 5) (serializeMap [(K, fm)])
      = serializeMap [(K, fm)] ++ toyTag [9] := rfl
  have hctlen : (toyCrypto.encrypt [9] (List.replicate 24 5)
      (serializeMap [(K, fm)])).length = 1048664 := by
    rw [hctshape, List.length_append, hptlen, length_toyTag]
  have hr : remove_file toyCrypto (List.replicate 24 5) f0 .Hidden [9]
      [(K, fm), ([1], fm)] [1]
      = (true,
        writeAt
          (writeAt f0 (metadataOffset .Hidden)
            (toyCrypto.encrypt [9] (List.replicate 24 5) (serializeMap [(K, fm)])))
          (headerFieldOffset .Hidden)
          (List.replicate 24 5 ++ le64 (toyCrypto.encrypt [9] (List.replicate 24 5)
            (serializeMap [(K, fm)])).length),
        [(K, fm)]) := by
    unfold remove_file write_metadata_block update_header_metadata
    rw [hlook, hrm]
  have hD : DATA_AREA_START_OFFSET = 1114160 := by decide
  have hmoh : metadataOffset .Hidden = 65584 := by decide
  have hfoh : headerFieldOffset .Hidden = 65552 := by decide
  refine ⟨by rw [hr], ?_, ?_⟩
  · rw [hr]
    rw [getD_writeAt_after _ _ _ _ (by
      rw [List.length_append, List.length_replicate, length_le64, hfoh, hD]; omega)]
    rw [getD_writeAt_inside _ _ _ _ (by rw [hmoh, hD]; omega)
      (by rw [hmoh, hD, hctlen]; omega)]
    rw [hctshape, hmoh, hD]
    rw [getD_append_left _ _ _ (by rw [hptlen]; omega)]
    rw [hA, List.append_nil]
    rw [getD_append_right _ _ _ (by rw [length_le64]; omega), length_le64]
    rw [hEsh]
    rw [getD_append_left _ _ _ (by
      simp only [List.length_append, length_le64, hKlen, List.length_nil]; omega)]
    rw [getD_append_left _ _ _ (by
      simp only [List.length_append, length_le64, hKlen]; omega)]
    rw [getD_append_left _ _ _ (by
      simp only [List.length_append, length_le64, hKlen]; omega)]
    rw [getD_append_left _ _ _ (by
      simp only [List.length_append, length_le64, hKlen]; omega)]
    rw [getD_append_left _ _ _ (by
      simp only [List.length_append, length_le64, hKlen]; omega)]
    rw [getD_append_right _ _ _ (by rw [length_le64]; omega), length_le64]
    rw [hK]
    rw [getD_replicate _ _ _ (by omega)]
  · rw [hf0]
    rw [getD_replicate _ _ _ (by omega)]

/-! ## C1: init, add, unlock, get round-trip -/

theorem extractSeg_take_part (f : List Nat) (off n k : Nat) :
    extractSeg f off n = (extractSeg f off (n + k)).take n := by
  unfold extractSeg
  rw [List.take_take]
  congr 1
  omega

theorem extractSeg_drop_part (f : List Nat) (off n k : Nat) :
    extractSeg f (off + n) k = (extractSeg f off (n + k)).drop n := by
  unfold extractSeg
  rw [List.drop_take, List.drop_drop]
  congr 1
  omega

theorem lookupKey_eq_none_of_not_mem (m : MetadataMap) (k : List Nat)
    (h : k ∉ m.map Prod.fst) : lookupKey m k = none := by
  induction m with
  | nil => rfl
  | cons kv t ih =>
    obtain ⟨k', v⟩ := kv
    rw [lookupKey_cons, if_neg (by simp at h; exact fun he => h.1 he.symm)]
    · exact ih (by simp at h ⊢; exact h.2)

theorem insertKey_not_mem (m : MetadataMap) (k : List Nat) (v : FileMetadata)
    (h : k ∉ m.map Prod.fst) : insertKey m k v = m ++ [(k, v)] := by
  induction m with
  | nil => rfl
  | cons kv t ih =>
    obtain ⟨k', v'⟩ := kv
    unfold insertKey
    rw [if_neg (by simp at h; exact fun he => h.1 he.symm)]
    · rw [ih (by simp at h ⊢; exact h.2)]
      rfl

theorem lookupKey_append_some (m m2 : MetadataMap) (k : List Nat)
    (v : FileMetadata) (h : lookupKey m k = some v) :
    lookupKey (m ++ m2) k = some v := by
  induction m with
  | nil => cases h
  | cons kv t ih =>
    obtain ⟨k', v'⟩ := kv
    rw [lookupKey_cons] at h
    rw [List.cons_append, lookupKey_cons]
    split at h
    · rename_i he
      rw [if_pos he]
      exact h
    · rename_i he
      rw [if_neg he]
      exact ih h

theorem lookupKey_append_fresh (m : MetadataMap) (k : List Nat) (v : FileMetadata)
    (h : k ∉ m.map Prod.fst) : lookupKey (m ++ [(k, v)]) k = some v := by
  rw [lookupKey_append_first m [(k, v)] k (lookupKey_eq_none_of_not_mem m k h),
    lookupKey_cons, if_pos rfl]

theorem length_serializeMap_append (m : MetadataMap) (e : List Nat × FileMetadata) :
    (serializeMap (m ++ [e])).length
      = (serializeMap m).length + (serializeEntry e).length := by
  simp [serializeMap, length_le64]
  omega

theorem read_file_data_frame (c : CryptoPrims) (f F key : List Nat)
    (md : FileMetadata)
    (hlenf : md.data_offset + md.data_length ≤ f.length)
    (hlenF : f.length ≤ F.length)
    (h24 : 24 ≤ md.data_length)
    (hseg : ∀ len, md.data_offset + len ≤ md.data_offset + md.data_length →
      extractSeg F md.data_offset len = extractSeg f md.data_offset len)
    (hseg2 : extractSeg F (md.data_offset + 24) (md.data_length - 24)
      = extractSeg f (md.data_offset + 24) (md.data_length - 24)) :
    read_file_data c F key md = read_file_data c f key md := by
  unfold read_file_data
  rw [if_neg (by omega), if_neg (by omega), if_neg (by omega), if_neg (by omega),
    hseg 24 (by omega), hseg2]

set_option maxHeartbeats 1000000 in
/-- What one `add_file` call does to a blob whose tail starts at the
data area: the exact result pair, the length growth, frame properties
below the header field and inside the data area, the new header and
metadata slices, and the appended block's slices. -/
theorem add_file_spec (c : CryptoPrims) (hE : EncLen c) (padRng : Nat → Nat)
    (nD nM f key p content mime : List Nat) (m : MetadataMap) (vt : VolumeType)
    (hnD : nD.length = 24) (hnM : nM.length = 24)
    (hflen : DATA_AREA_START_OFFSET ≤ f.length)
    (hfresh : p ∉ m.map Prod.fst)
    (hbound : metadataOffset vt
      + (c.encrypt key nM (serializeMap (m ++
          [(p, ⟨content.length, f.length, 40 + content.length, mime⟩)]))).length
      ≤ regionEnd vt) :
    add_file c padRng nD nM f vt key m p content mime
      = (writeAt
          (writeAt (f ++ nD ++ c.encrypt key nD content) (metadataOffset vt)
            (c.encrypt key nM (serializeMap (m ++
              [(p, ⟨content.length, f.length, 40 + content.length, mime⟩)]))))
          (headerFieldOffset vt)
          (nM ++ le64 (c.encrypt key nM (serializeMap (m ++
            [(p, ⟨content.length, f.length, 40 + content.length, mime⟩)]))).length),
        m ++ [(p, ⟨content.length, f.length, 40 + content.length, mime⟩)]) ∧
    (add_file c padRng nD nM f vt key m p content mime).1.length
      = f.length + (40 + content.length) ∧
    (∀ off len, off + len ≤ headerFieldOffset vt →
      extractSeg (add_file c padRng nD nM f vt key m p content mime).1 off len
        = extractSeg f off len) ∧
    (∀ off len, regionEnd vt ≤ off → off + len ≤ f.length →
      extractSeg (add_file c padRng nD nM f vt key m p content mime).1 off len
        = extractSeg f off len) ∧
    extractSeg (add_file c padRng nD nM f vt key m p content mime).1
        (headerFieldOffset vt) 32
      = nM ++ le64 (c.encrypt key nM (serializeMap (m ++
          [(p, ⟨content.length, f.length, 40 + content.length, mime⟩)]))).length ∧
    extractSeg (add_file c padRng nD nM f vt key m p content mime).1
        (metadataOffset vt)
        (c.encrypt key nM (serializeMap (m ++
          [(p, ⟨content.length, f.length, 40 + content.length, mime⟩)]))).length
      = c.encrypt key nM (serializeMap (m ++
          [(p, ⟨content.length, f.length, 40 + content.length, mime⟩)])) ∧
    extractSeg (add_file c padRng nD nM f vt key m p content mime).1 f.length 24
      = nD ∧
    extractSeg (add_file c padRng nD nM f vt key m p content mime).1
        (f.length + 24) (content.length + 16)
      = c.encrypt key nD content := by
  have hfom : headerFieldOffset vt + 32 ≤ metadataOffset vt := by
    cases vt <;> decide
  have hre : regionEnd vt ≤ DATA_AREA_START_OFFSET := by
    cases vt <;> decide
  have hfo0 : headerFieldOffset vt ≤ DATA_AREA_START_OFFSET := by
    cases vt <;> decide
  have hmd : appendedMeta c nD f key content mime
      = ⟨content.length, f.length, 40 + content.length, mime⟩ := by
    unfold appendedMeta
    rw [if_neg (by omega), hE key nD content,
      show XNONCE_LEN + (content.length + 16) = 40 + content.length from by
        show 24 + (content.length + 16) = 40 + content.length
        omega]
  have h1 : add_file c padRng nD nM f vt key m p content mime
      = (writeAt
          (writeAt (f ++ nD ++ c.encrypt key nD content) (metadataOffset vt)
            (c.encrypt key nM (serializeMap (m ++
              [(p, ⟨content.length, f.length, 40 + content.length, mime⟩)]))))
          (headerFieldOffset vt)
          (nM ++ le64 (c.encrypt key nM (serializeMap (m ++
            [(p, ⟨content.length, f.length, 40 + content.length, mime⟩)]))).length),
        m ++ [(p, ⟨content.length, f.length, 40 + content.length, mime⟩)]) := by
    simp only [add_file, append_file_data, write_metadata_block,
      update_header_metadata, padToDataArea]
    rw [if_neg (by omega), hmd, insertKey_not_mem m p _ hfresh]
  have hctD : (c.encrypt key nD content).length = content.length + 16 := hE key nD content
  have hbl : (f ++ nD ++ c.encrypt key nD content).length
      = f.length + (40 + content.length) := by
    simp [hnD, hctD]
    omega
  have hinlen : (writeAt (f ++ nD ++ c.encrypt key nD content) (metadataOffset vt)
      (c.encrypt key nM (serializeMap (m ++
        [(p, ⟨content.length, f.length, 40 + content.length, mime⟩)])))).length
      = f.length + (40 + content.length) := by
    rw [length_writeAt, hbl]
    omega
  have hnMlen : (nM ++ le64 (c.encrypt key nM (serializeMap (m ++
      [(p, ⟨content.length, f.length, 40 + content.length, mime⟩)]))).length).length
      = 32 := by
    rw [List.length_append, hnM, length_le64]
  have hlen : (add_file c padRng nD nM f vt key m p content mime).1.length
      = f.length + (40 + content.length) := by
    rw [h1]
    simp only [length_writeAt, hinlen]
    rw [hnMlen]
    omega
  refine ⟨h1, hlen, ?_, ?_, ?_, ?_, ?_, ?_⟩
  · intro off len hoff
    rw [h1]
    rw [extractSeg_writeAt_before _ _ _ _ _ (by omega) (by rw [hinlen]; omega),
      extractSeg_writeAt_before _ _ _ _ _ (by omega) (by rw [hbl]; omega)]
    rw [List.append_assoc]
    exact extractSeg_append_left f _ off len (by omega)
  · intro off len hoff hlen2
    rw [h1]
    rw [extractSeg_writeAt_after _ _ _ _ _ (by rw [hnMlen]; omega),
      extractSeg_writeAt_after _ _ _ _ _ (by omega)]
    rw [List.append_assoc]
    exact extractSeg_append_left f _ off len (by omega)
  · rw [h1]
    rw [extractSeg_writeAt_inside _ _ _ _ _ le_rfl (by rw [hnMlen]),
      Nat.sub_self]
    rw [← hnMlen]
    exact extractSeg_eq_self _
  · rw [h1]
    rw [extractSeg_writeAt_after _ _ _ _ _ (by rw [hnMlen]; omega),
      extractSeg_writeAt_inside _ _ _ _ _ le_rfl (by omega), Nat.sub_self]
    exact extractSeg_eq_self _
  · rw [h1]
    rw [extractSeg_writeAt_after _ _ _ _ _ (by rw [hnMlen]; omega),
      extractSeg_writeAt_after _ _ _ _ _ (by omega)]
    rw [List.append_assoc]
    rw [extractSeg_append_right' f _ f.length 24 le_rfl, Nat.sub_self,
      extractSeg_append_left nD _ 0 24 (by omega), ← hnD]
    exact extractSeg_eq_self nD
  · rw [h1]
    rw [extractSeg_writeAt_after _ _ _ _ _ (by rw [hnMlen]; omega),
      extractSeg_writeAt_after _ _ _ _ _ (by omega)]
    have h2 := extractSeg_at_append (f ++ nD) (c.encrypt key nD content) []
    rw [List.append_nil, hctD, List.length_append, hnD] at h2
    exact h2

theorem header_read_ok (f : List Nat) (vt : VolumeType) (salt nm : List Nat)
    (L : Nat) (hflen : 65584 ≤ f.length)
    (hmagic : extractSeg f 0 9 = MAGICB ++ [VERSION])
    (hsalt : extractSeg f (saltOffset vt) 16 = salt)
    (hhf : extractSeg f (headerFieldOffset vt) 32 = nm ++ le64 L)
    (hnm : nm.length = 24) (hL : L < 2 ^ 64) :
    (match vt with
     | VolumeType.Standard => read_standard_header f
     | VolumeType.Hidden => read_hidden_header f) = .ok ⟨salt, nm, L⟩ := by
  have hsplit1 : extractSeg f (headerFieldOffset vt) 24 = nm := by
    have h := extractSeg_take_part f (headerFieldOffset vt) 24 8
    rw [show (24 + 8 : Nat) = 32 from rfl, hhf,
      List.take_append_of_le_length (by omega)] at h
    rw [h, ← hnm, List.take_length]
  have hsplit2 : extractSeg f (headerFieldOffset vt + 24) 8 = le64 L := by
    have h := extractSeg_drop_part f (headerFieldOffset vt) 24 8
    rw [show (24 + 8 : Nat) = 32 from rfl, hhf] at h
    rw [h, ← hnm, List.drop_left]
  cases vt with
  | Standard =>
    have h8 : extractSeg f 0 8 = MAGICB := by
      have h := extractSeg_take_part f 0 8 1
      rw [show (8 + 1 : Nat) = 9 from rfl, hmagic] at h
      rw [h]
      decide
    have h9 : f.getD 8 0 = VERSION := by
      have h := getD_of_extractSeg_eq f (MAGICB ++ [VERSION]) 0 9 8 hmagic (by omega)
      simp only [Nat.zero_add] at h
      rw [h]
      decide
    rw [show saltOffset VolumeType.Standard = 9 from rfl] at hsalt
    rw [show headerFieldOffset VolumeType.Standard = 25 from rfl] at hsplit1
    rw [show headerFieldOffset VolumeType.Standard + 24 = 49 from rfl] at hsplit2
    show read_standard_header f = _
    unfold read_standard_header
    rw [if_neg (by omega), if_neg (by rw [h8]; exact fun hh => hh rfl),
      if_neg (by omega), if_neg (by rw [h9]; exact fun hh => hh rfl),
      if_neg (by omega), hsalt, hsplit1, hsplit2, readLe64_le64 L hL]
  | Hidden =>
    rw [show saltOffset VolumeType.Hidden = 65536 from rfl] at hsalt
    rw [show headerFieldOffset VolumeType.Hidden = 65552 from rfl] at hsplit1
    rw [show headerFieldOffset VolumeType.Hidden + 24 = 65576 from rfl] at hsplit2
    show read_hidden_header f = _
    unfold read_hidden_header
    rw [if_neg (by omega), hsalt, hsplit1, hsplit2, readLe64_le64 L hL]

theorem read_metadata_block_ok (c : CryptoPrims) (hE : EncLen c) (hDE : DecEnc c)
    (f key nm : List Nat) (m : MetadataMap) (hwf : MapWf m) (off : Nat)
    (hslice : extractSeg f off (c.encrypt key nm (serializeMap m)).length
      = c.encrypt key nm (serializeMap m))
    (hflen : off + (c.encrypt key nm (serializeMap m)).length ≤ f.length)
    (hsize : (c.encrypt key nm (serializeMap m)).length ≤ 50 * 1024 * 1024) :
    read_metadata_block c f key nm (c.encrypt key nm (serializeMap m)).length off
      = .ok m := by
  have hpos : (c.encrypt key nm (serializeMap m)).length ≠ 0 := by
    rw [hE key nm _]; omega
  unfold read_metadata_block
  rw [if_neg hpos, if_neg (by omega), if_neg (by omega), hslice,
    hDE key nm (serializeMap m)]
  simp only [deserializeMap_serializeMap m hwf]

theorem read_metadata_block_auth_fail (c : CryptoPrims) (hE : EncLen c)
    (hA : DecAuth c) (f key key' nm nm' pt : List Nat) (off : Nat)
    (hne : key ≠ key')
    (hslice : extractSeg f off (c.encrypt key nm pt).length = c.encrypt key nm pt)
    (hflen : off + (c.encrypt key nm pt).length ≤ f.length)
    (hsize : (c.encrypt key nm pt).length ≤ 50 * 1024 * 1024) :
    read_metadata_block c f key' nm' (c.encrypt key nm pt).length off
      = .error "metadata decryption failed" := by
  have hpos : (c.encrypt key nm pt).length ≠ 0 := by
    rw [hE key nm _]; omega
  unfold read_metadata_block
  rw [if_neg hpos, if_neg (by omega), if_neg (by omega), hslice,
    hA key key' nm nm' pt hne]

theorem unlock_attempt_ok (c : CryptoPrims) (hE : EncLen c) (hDE : DecEnc c)
    (f pw salt nm : List Nat) (vt : VolumeType) (m : MetadataMap)
    (hwf : MapWf m)
    (hflen : 65584 ≤ f.length)
    (hin : metadataOffset vt
      + (c.encrypt (c.deriveKey pw salt) nm (serializeMap m)).length ≤ f.length)
    (hmagic : extractSeg f 0 9 = MAGICB ++ [VERSION])
    (hdisk : VolDisk c vt (c.deriveKey pw salt) salt nm m f)
    (hnm : nm.length = 24)
    (hbound : metadataOffset vt
      + (c.encrypt (c.deriveKey pw salt) nm (serializeMap m)).length ≤ regionEnd vt) :
    unlock_attempt c f pw vt = .ok (c.deriveKey pw salt, m) := by
  obtain ⟨hs, hh, hm⟩ := hdisk
  have hre : regionEnd vt ≤ DATA_AREA_START_OFFSET := by cases vt <;> decide
  have hmo : metadataOffset vt ≤ regionEnd vt := by cases vt <;> decide
  have hDlit : DATA_AREA_START_OFFSET = 1114160 := by decide
  unfold unlock_attempt
  rw [header_read_ok f vt salt nm _ hflen hmagic hs hh hnm (by omega)]
  simp only [read_metadata_block_ok c hE hDE f (c.deriveKey pw salt) nm m hwf
    (metadataOffset vt) hm hin (by omega)]

theorem unlock_attempt_std_fail (c : CryptoPrims) (hE : EncLen c) (hA : DecAuth c)
    (f pwS pw saltS nmS : List Nat) (mS : MetadataMap)
    (hkne : c.deriveKey pwS saltS ≠ c.deriveKey pw saltS)
    (hflen : 65584 ≤ f.length)
    (hmagic : extractSeg f 0 9 = MAGICB ++ [VERSION])
    (hdisk : VolDisk c .Standard (c.deriveKey pwS saltS) saltS nmS mS f)
    (hnm : nmS.length = 24)
    (hbound : metadataOffset .Standard
      + (c.encrypt (c.deriveKey pwS saltS) nmS (serializeMap mS)).length
      ≤ regionEnd .Standard) :
    unlock_attempt c f pw .Standard = .error "metadata decryption failed" := by
  obtain ⟨hs, hh, hm⟩ := hdisk
  have hre : regionEnd VolumeType.Standard ≤ DATA_AREA_START_OFFSET := by decide
  have hDlit : DATA_AREA_START_OFFSET = 1114160 := by decide
  have hmo : metadataOffset VolumeType.Standard ≤ regionEnd VolumeType.Standard := by
    decide
  have hreS : regionEnd VolumeType.Standard = 65536 := by decide
  unfold unlock_attempt
  rw [header_read_ok f .Standard saltS nmS _ hflen hmagic hs hh hnm (by omega)]
  simp only [read_metadata_block_auth_fail c hE hA f (c.deriveKey pwS saltS)
    (c.deriveKey pw saltS) nmS nmS (serializeMap mS) (metadataOffset .Standard)
    hkne hm (by omega) (by omega)]

theorem read_file_data_new (c : CryptoPrims) (hDE : DecEnc c)
    (F key nonceD content mime : List Nat) (off : Nat)
    (hFlen : off + 40 + content.length ≤ F.length)
    (hn : extractSeg F off 24 = nonceD)
    (hct : extractSeg F (off + 24) (content.length + 16)
      = c.encrypt key nonceD content) :
    read_file_data c F key ⟨content.length, off, 40 + content.length, mime⟩
      = .ok content := by
  simp only [read_file_data]
  rw [show (40 + content.length - 24 : Nat) = content.length + 16 from by omega]
  rw [if_neg (by omega), if_neg (by omega), hn, hct, hDE key nonceD content]

theorem addAll_spec (c : CryptoPrims) (hE : EncLen c) (hDE : DecEnc c)
    (padRng : Nat → Nat) (nD nM : Nat → List Nat) (vt : VolumeType)
    (key salt : List Nat) (L0 : Nat) (hL0 : DATA_AREA_START_OFFSET ≤ L0)
    (hnD : ∀ i, (nD i).length = 24) (hnM : ∀ i, (nM i).length = 24) :
    ∀ (todo done : List (List Nat × List Nat × List Nat)) (i0 : Nat) (f : List Nat)
      (m : MetadataMap),
    ((done ++ todo).map (fun e => e.1)).Nodup →
    metadataOffset vt
      + (8 + ((done ++ todo).map (fun e => 40 + e.1.length + e.2.2.length)).sum
          + 16) ≤ regionEnd vt →
    L0 + ((done ++ todo).map (fun e => 40 + e.2.1.length)).sum < 2 ^ 64 →
    C1Inv c vt key salt L0 done f m →
    C1Inv c vt key salt L0 (done ++ todo)
      (addAll c padRng nD nM vt key i0 todo (f, m)).1
      (addAll c padRng nD nM vt key i0 todo (f, m)).2 ∧
    (∀ off len, off + len ≤ headerFieldOffset vt →
      extractSeg (addAll c padRng nD nM vt key i0 todo (f, m)).1 off len
        = extractSeg f off len) ∧
    (∀ off len, regionEnd vt ≤ off → off + len ≤ f.length →
      extractSeg (addAll c padRng nD nM vt key i0 todo (f, m)).1 off len
        = extractSeg f off len) := by
  intro todo
  induction todo with
  | nil =>
    intro done i0 f m hnd hbser hb64 hinv
    simp only [addAll]
    exact ⟨by rw [List.append_nil]; exact hinv, by simp, by simp⟩
  | cons t ts ih =>
    intro done i0 f m hnd hbser hb64 hinv
    obtain ⟨hlen, hkeys, hser, hwf, ⟨nm0, hnm0, hvd⟩, hgood⟩ := hinv
    have hD2 : DATA_AREA_START_OFFSET = 1114160 := by decide
    have hre : regionEnd vt ≤ DATA_AREA_START_OFFSET := by cases vt <;> decide
    have hso16 : saltOffset vt + 16 ≤ headerFieldOffset vt := by cases vt <;> decide
    have hflen : DATA_AREA_START_OFFSET ≤ f.length := by rw [hlen]; omega
    have hfresh : t.1 ∉ m.map Prod.fst := by
      rw [hkeys]
      rw [List.map_append, List.map_cons, List.nodup_append] at hnd
      exact fun hmem => hnd.2.2 hmem (List.mem_cons_self _ _)
    have hsum1 : ((done ++ t :: ts).map
          (fun e => 40 + e.1.length + e.2.2.length)).sum
        = (done.map (fun e => 40 + e.1.length + e.2.2.length)).sum
          + (40 + t.1.length + t.2.2.length)
          + (ts.map (fun e => 40 + e.1.length + e.2.2.length)).sum := by
      simp only [List.map_append, List.sum_append, List.map_cons, List.sum_cons]
      omega
    have hsum2 : ((done ++ t :: ts).map (fun e => 40 + e.2.1.length)).sum
        = (done.map (fun e => 40 + e.2.1.length)).sum + (40 + t.2.1.length)
          + (ts.map (fun e => 40 + e.2.1.length)).sum := by
      simp only [List.map_append, List.sum_append, List.map_cons, List.sum_cons]
      omega
    have hsE : (serializeEntry (t.1,
          (⟨t.2.1.length, f.length, 40 + t.2.1.length, t.2.2⟩ : FileMetadata))).length
        = 40 + t.1.length + t.2.2.length := by
      rw [length_serializeEntry]
    have henc : (c.encrypt key (nM i0) (serializeMap (m ++ [(t.1,
          (⟨t.2.1.length, f.length, 40 + t.2.1.length, t.2.2⟩ : FileMetadata))]))).length
        = 8 + (done.map (fun e => 40 + e.1.length + e.2.2.length)).sum
          + (40 + t.1.length + t.2.2.length) + 16 := by
      rw [hE, length_serializeMap_append, hser, hsE]
    obtain ⟨hrep, hlen', hframe1, hframe2, hhdr', hmeta', hnD', hct'⟩ :=
      add_file_spec c hE padRng (nD i0) (nM i0) f key
        t.1 t.2.1 t.2.2 m vt (hnD _) (hnM _) hflen hfresh
        (by rw [henc]; rw [hsum1] at hbser; omega)
    have hM : (add_file c padRng (nD i0) (nM i0) f vt key m
          t.1 t.2.1 t.2.2).2
        = m ++ [(t.1,
            (⟨t.2.1.length, f.length, 40 + t.2.1.length, t.2.2⟩ : FileMetadata))] := by
      rw [hrep]
    have hlists : (done ++ [t]) ++ ts = done ++ t :: ts := by simp
    have hinv' : C1Inv c vt key salt L0 (done ++ [t])
        (add_file c padRng (nD i0) (nM i0) f vt key m
          t.1 t.2.1 t.2.2).1
        (add_file c padRng (nD i0) (nM i0) f vt key m
          t.1 t.2.1 t.2.2).2 := by
      refine ⟨?_, ?_, ?_, ?_, ?_, ?_⟩
      · rw [hlen']
        simp only [List.map_append, List.sum_append, List.map_cons, List.sum_cons,
          List.map_nil, List.sum_nil]
        omega
      · rw [hM]
        simp only [List.map_append, List.map_cons, List.map_nil, hkeys]
      · rw [hM, length_serializeMap_append, hser, hsE]
        simp only [List.map_append, List.sum_append, List.map_cons, List.sum_cons,
          List.map_nil, List.sum_nil]
        omega
      · rw [hM]
        intro kv hkv
        rcases List.mem_append.mp hkv with hold | hnew
        · exact hwf kv hold
        · have hkv2 : kv = (t.1,
              (⟨t.2.1.length, f.length, 40 + t.2.1.length, t.2.2⟩ : FileMetadata)) := by
            simpa using hnew
          subst hkv2
          rw [hsum1] at hbser
          rw [hsum2] at hb64
          simp only [EntryWf]
          refine ⟨by omega, by omega, by rw [hlen]; omega, by omega, by omega⟩
      · refine ⟨nM i0, hnM _, ?_, ?_, ?_⟩
        · rw [hframe1 (saltOffset vt) 16 hso16]
          exact hvd.1
        · rw [hM]
          exact hhdr'
        · rw [hM]
          exact hmeta'
      · intro e he
        rcases List.mem_append.mp he with hold | hnew
        · obtain ⟨md, hlook, hmime, hsize, hDle, hbnd, hdlen, hread⟩ := hgood e hold
          refine ⟨md, ?_, hmime, hsize, hDle, by omega, hdlen, ?_⟩
          · rw [hM]
            exact lookupKey_append_some m _ e.1 md hlook
          · rw [read_file_data_frame c f _ key md hbnd (by omega)
              (by rw [hdlen]; omega)
              (fun len hl => hframe2 md.data_offset len (by omega) (by omega))
              (hframe2 (md.data_offset + 24) (md.data_length - 24)
                (by omega) (by omega))]
            exact hread
        · have he2 : e = t := by simpa using hnew
          subst he2
          refine ⟨⟨e.2.1.length, f.length, 40 + e.2.1.length, e.2.2⟩, ?_, rfl, rfl,
            hflen, by rw [hlen'], rfl, ?_⟩
          · rw [hM]
            exact lookupKey_append_fresh m e.1 _ hfresh
          · exact read_file_data_new c hDE _ key (nD i0) e.2.1 e.2.2
              f.length (by rw [hlen']; omega) hnD' hct'
    have ihx := ih (done ++ [t]) (i0 + 1)
      (add_file c padRng (nD i0) (nM i0) f vt key m
        t.1 t.2.1 t.2.2).1
      (add_file c padRng (nD i0) (nM i0) f vt key m
        t.1 t.2.1 t.2.2).2
      (by rw [hlists]; exact hnd) (by rw [hlists]; exact hbser)
      (by rw [hlists]; exact hb64) hinv'
    have hpair : ((add_file c padRng (nD i0) (nM i0) f vt key m
          t.1 t.2.1 t.2.2).1,
        (add_file c padRng (nD i0) (nM i0) f vt key m
          t.1 t.2.1 t.2.2).2)
        = add_file c padRng (nD i0) (nM i0) f vt key m
            t.1 t.2.1 t.2.2 := rfl
    rw [hpair, hlists] at ihx
    simp only [addAll]
    exact ⟨ihx.1, fun off len hoff =>
      (ihx.2.1 off len hoff).trans (hframe1 off len hoff),
      fun off len hoff hlen2 =>
        (ihx.2.2 off len hoff (by rw [hlen']; omega)).trans
          (hframe2 off len hoff hlen2)⟩

theorem length_le_sum_map {α : Type} (l : List α) (g : α → Nat)
    (h : ∀ a, 1 ≤ g a) : l.length ≤ (l.map g).sum := by
  induction l with
  | nil => simp
  | cons a t ih =>
    simp only [List.map_cons, List.sum_cons, List.length_cons]
    have := h a
    omega

theorem unlock_after_addAll (c : CryptoPrims) (hE : EncLen c) (hDE : DecEnc c)
    (padRng : Nat → Nat) (nD nM : Nat → List Nat) (vt : VolumeType)
    (pw salt F : List Nat) (L0 : Nat) (hL0 : DATA_AREA_START_OFFSET ≤ L0)
    (hnD : ∀ i, (nD i).length = 24) (hnM : ∀ i, (nM i).length = 24)
    (files : List (List Nat × List Nat × List Nat))
    (hnodup : (files.map (fun e => e.1)).Nodup)
    (hbser : metadataOffset vt
      + (8 + (files.map (fun e => 40 + e.1.length + e.2.2.length)).sum + 16)
      ≤ regionEnd vt)
    (hb64 : L0 + (files.map (fun e => 40 + e.2.1.length)).sum < 2 ^ 64)
    (hmagic : extractSeg F 0 9 = MAGICB ++ [VERSION])
    (hinv0 : C1Inv c vt (c.deriveKey pw salt) salt L0 [] F []) (i0 : Nat) :
    ∀ r, r = addAll c padRng nD nM vt (c.deriveKey pw salt) i0 files (F, []) →
      unlock_attempt c r.1 pw vt = .ok (c.deriveKey pw salt, r.2) ∧
      DATA_AREA_START_OFFSET ≤ r.1.length ∧
      C1Inv c vt (c.deriveKey pw salt) salt L0 files r.1 r.2 ∧
      (∀ off len, off + len ≤ headerFieldOffset vt →
        extractSeg r.1 off len = extractSeg F off len) ∧
      (∀ off len, regionEnd vt ≤ off → off + len ≤ F.length →
        extractSeg r.1 off len = extractSeg F off len) := by
  intro r hr
  have hre : regionEnd vt ≤ DATA_AREA_START_OFFSET := by cases vt <;> decide
  have hD2 : DATA_AREA_START_OFFSET = 1114160 := by decide
  have hmain := addAll_spec c hE hDE padRng nD nM vt (c.deriveKey pw salt) salt
    L0 hL0 hnD hnM files [] i0 F []
    (by simp only [List.nil_append]; exact hnodup)
    (by simp only [List.nil_append]; exact hbser)
    (by simp only [List.nil_append]; exact hb64) hinv0
  simp only [List.nil_append] at hmain
  rw [← hr] at hmain
  obtain ⟨hinvr, hframe, hframeH⟩ := hmain
  obtain ⟨hlen2, hkeys2, hser2, hwf2, ⟨nm2, hnm2, hvd2⟩, hgood2⟩ := hinvr
  have hflen2 : DATA_AREA_START_OFFSET ≤ r.1.length := by rw [hlen2]; omega
  have hmagic2 : extractSeg r.1 0 9 = MAGICB ++ [VERSION] := by
    rw [hframe 0 9 (by cases vt <;> decide)]
    exact hmagic
  have hbound2 : metadataOffset vt
      + (c.encrypt (c.deriveKey pw salt) nm2 (serializeMap r.2)).length
      ≤ regionEnd vt := by
    rw [hE, hser2]
    omega
  have hwfm : MapWf r.2 := by
    refine ⟨?_, hwf2⟩
    have hcount := congrArg List.length hkeys2
    simp only [List.length_map] at hcount
    have hlb := length_le_sum_map files (fun e => 40 + e.1.length + e.2.2.length)
      (fun e => by show 1 ≤ 40 + e.1.length + e.2.2.length; omega)
    omega
  have hul := unlock_attempt_ok c hE hDE r.1 pw salt nm2 vt r.2 hwfm (by omega)
    (by omega) hmagic2 hvd2 hnm2 hbound2
  exact ⟨hul, hflen2,
    ⟨hlen2, hkeys2, hser2, hwf2, ⟨nm2, hnm2, hvd2⟩, hgood2⟩, hframe, hframeH⟩

/-- C1 (amended): for distinct passwords and a family of files with
distinct inner paths whose index fits the chosen volume's metadata region
and whose data fit below `2^64`: after `init_blob` and adding every file
to that volume under its password's derived key, `unlock_blob` with that
password returns exactly that volume, that key, and an index holding
exactly the family's paths, and `get_file` on each entry returns the
original bytes with the original MIME string. -/
theorem c1_amended (c : CryptoPrims) (hE : EncLen c) (hDE : DecEnc c)
    (hDA : DecAuth c) (hKI : KdfInj c)
    (saltS : List Nat) (saltDraw : Nat → List Nat) (hdraw : ∃ i, saltDraw i ≠ saltS)
    (nonceS nonceH : List Nat) (padRng : Nat → Nat) (pwS pwH : List Nat)
    (nD nM : Nat → List Nat)
    (hsS : saltS.length = 16) (hsD : ∀ i, (saltDraw i).length = 16)
    (hnS : nonceS.length = 24) (hnH : nonceH.length = 24)
    (hnD : ∀ i, (nD i).length = 24) (hnM : ∀ i, (nM i).length = 24)
    (hpw : pwS ≠ pwH) (vt : VolumeType)
    (files : List (List Nat × List Nat × List Nat))
    (hnodup : (files.map (fun e => e.1)).Nodup)
    (hbser : metadataOffset vt
      + (8 + (files.map (fun e => 40 + e.1.length + e.2.2.length)).sum + 16)
      ≤ regionEnd vt)
    (hb64 : DATA_AREA_START_OFFSET
      + (files.map (fun e => 40 + e.2.1.length)).sum < 2 ^ 64) :
    ∀ f1, init_blob c saltS saltDraw hdraw nonceS nonceH padRng pwS pwH = .ok f1 →
      unlock_blob c
          (addAll c padRng nD nM vt
            (c.deriveKey (volPw pwS pwH vt)
              (volSalt saltS (saltDraw (Nat.find hdraw)) vt)) 0 files (f1, [])).1
          (volPw pwS pwH vt)
        = .ok (vt,
            c.deriveKey (volPw pwS pwH vt)
              (volSalt saltS (saltDraw (Nat.find hdraw)) vt),
            (addAll c padRng nD nM vt
              (c.deriveKey (volPw pwS pwH vt)
                (volSalt saltS (saltDraw (Nat.find hdraw)) vt)) 0 files (f1, [])).2) ∧
      (addAll c padRng nD nM vt
          (c.deriveKey (volPw pwS pwH vt)
            (volSalt saltS (saltDraw (Nat.find hdraw)) vt)) 0 files (f1, [])).2.map
          Prod.fst
        = files.map (fun e => e.1) ∧
      ∀ e ∈ files, ∃ md,
        lookupKey (addAll c padRng nD nM vt
            (c.deriveKey (volPw pwS pwH vt)
              (volSalt saltS (saltDraw (Nat.find hdraw)) vt)) 0 files (f1, [])).2 e.1
          = some md ∧
        md.mime_type = e.2.2 ∧ md.size = e.2.1.length ∧
        get_file c
            (addAll c padRng nD nM vt
              (c.deriveKey (volPw pwS pwH vt)
                (volSalt saltS (saltDraw (Nat.find hdraw)) vt)) 0 files (f1, [])).1
            (c.deriveKey (volPw pwS pwH vt)
              (volSalt saltS (saltDraw (Nat.find hdraw)) vt)) md
          = .ok e.2.1 := by
  intro f1 hf1
  unfold init_blob at hf1
  rw [if_neg hpw] at hf1
  have hf1' : f1 = initFileBytes c saltS (saltDraw (Nat.find hdraw)) nonceS nonceH
      padRng pwS pwH := (Except.ok.inj hf1).symm
  subst hf1'
  have hser8 : (serializeMap ([] : MetadataMap)).length = 8 := by decide
  have hctlen : ∀ pw salt nonce, (initCt c pw salt nonce).length = 24 := by
    intro pw salt nonce
    rw [initCt, hE, hser8]
  obtain ⟨hlen1, hmagic1, hsaltS1, hhdrS1, hctS1, hsaltH1, hhdrH1, hctH1⟩ :=
    initFileBytes_spec c saltS (saltDraw (Nat.find hdraw)) nonceS nonceH
      padRng pwS pwH hsS (hsD _) hnS hnH
      (by rw [hctlen]; decide) (by rw [hctlen]; decide)
  cases vt with
  | Standard =>
    simp only [volPw, volSalt] at *
    have hinv0 : C1Inv c VolumeType.Standard (c.deriveKey pwS saltS) saltS
        DATA_AREA_START_OFFSET []
        (initFileBytes c saltS (saltDraw (Nat.find hdraw)) nonceS nonceH
          padRng pwS pwH) [] := by
      refine ⟨by rw [hlen1]; simp, rfl, by rw [hser8]; simp,
        by intro kv hkv; exact absurd hkv (List.not_mem_nil kv),
        ⟨nonceS, hnS, hsaltS1, hhdrS1, hctS1⟩,
        by intro e he; exact absurd he (List.not_mem_nil e)⟩
    obtain ⟨hul, hflen2, hinvr, hframe, hframeH⟩ :=
      unlock_after_addAll c hE hDE padRng nD nM VolumeType.Standard pwS saltS
        (initFileBytes c saltS (saltDraw (Nat.find hdraw)) nonceS nonceH
          padRng pwS pwH)
        DATA_AREA_START_OFFSET le_rfl
        hnD hnM files hnodup hbser hb64 hmagic1 hinv0 0 _ rfl
    refine ⟨by simp only [unlock_blob, hul], hinvr.2.1, ?_⟩
    intro e he
    obtain ⟨md, hlook, hmime, hsz, _, _, _, hread⟩ := hinvr.2.2.2.2.2 e he
    exact ⟨md, hlook, hmime, hsz, hread⟩
  | Hidden =>
    simp only [volPw, volSalt] at *
    have hinv0 : C1Inv c VolumeType.Hidden
        (c.deriveKey pwH (saltDraw (Nat.find hdraw))) (saltDraw (Nat.find hdraw))
        DATA_AREA_START_OFFSET []
        (initFileBytes c saltS (saltDraw (Nat.find hdraw)) nonceS nonceH
          padRng pwS pwH) [] := by
      refine ⟨by rw [hlen1]; simp, rfl, by rw [hser8]; simp,
        by intro kv hkv; exact absurd hkv (List.not_mem_nil kv),
        ⟨nonceH, hnH, hsaltH1, hhdrH1, hctH1⟩,
        by intro e he; exact absurd he (List.not_mem_nil e)⟩
    obtain ⟨hulH, hflen2, hinvr, hframe, hframeH⟩ :=
      unlock_after_addAll c hE hDE padRng nD nM VolumeType.Hidden pwH
        (saltDraw (Nat.find hdraw))
        (initFileBytes c saltS (saltDraw (Nat.find hdraw)) nonceS nonceH
          padRng pwS pwH)
        DATA_AREA_START_OFFSET le_rfl
        hnD hnM files hnodup hbser hb64 hmagic1 hinv0 0 _ rfl
    have hmagic2 : extractSeg (addAll c padRng nD nM VolumeType.Hidden
        (c.deriveKey pwH (saltDraw (Nat.find hdraw))) 0 files
        (initFileBytes c saltS (saltDraw (Nat.find hdraw)) nonceS nonceH
          padRng pwS pwH, [])).1 0 9 = MAGICB ++ [VERSION] := by
      rw [hframe 0 9 (by decide)]
      exact hmagic1
    have hfailS := unlock_attempt_std_fail c hE hDA _ pwS pwH saltS nonceS []
      (hKI pwS pwH saltS hpw)
      (by
        have hD : DATA_AREA_START_OFFSET = 1114160 := by decide
        omega) hmagic2
      ⟨by
        rw [hframe (saltOffset VolumeType.Standard) 16 (by decide)]
        exact hsaltS1,
       by
        rw [hframe (headerFieldOffset VolumeType.Standard) 32 (by decide)]
        exact hhdrS1,
       by
        rw [hframe (metadataOffset VolumeType.Standard)
          (c.encrypt (c.deriveKey pwS saltS) nonceS
            (serializeMap ([] : MetadataMap))).length
          (by rw [hE, hser8]; decide)]
        exact hctS1⟩
      hnS (by rw [hE, hser8]; decide)
    refine ⟨by simp only [unlock_blob, hfailS, hulH], hinvr.2.1, ?_⟩
    intro e he
    obtain ⟨md, hlook, hmime, hsz, _, _, _, hread⟩ := hinvr.2.2.2.2.2 e he
    exact ⟨md, hlook, hmime, hsz, hread⟩

/-- C1 witness: the amended round-trip at a concrete instantiation, one
file `([1], [2], [3])` added to the standard volume of a freshly
initialized blob under passwords `[97]` and `[98]`. -/
theorem c1_witness :
    ([97] : List Nat) ≠ [98] ∧
    (∀ f1, init_blob toyCrypto (List.replicate 16 0) (fun _ => List.replicate 16 1)
        ⟨0, by decide⟩ (List.replicate 24 0) (List.replicate 24 0) (fun _ => 0)
        [97] [98] = .ok f1 →
      unlock_blob toyCrypto
          (addAll toyCrypto (fun _ => 0) (fun _ => List.replicate 24 2)
            (fun _ => List.replicate 24 3) VolumeType.Standard
            (toyCrypto.deriveKey [97] (List.replicate 16 0)) 0
            [([1], [2], [3])] (f1, [])).1 [97]
        = .ok (VolumeType.Standard,
            toyCrypto.deriveKey [97] (List.replicate 16 0),
            (addAll toyCrypto (fun _ => 0) (fun _ => List.replicate 24 2)
              (fun _ => List.replicate 24 3) VolumeType.Standard
              (toyCrypto.deriveKey [97] (List.replicate 16 0)) 0
              [([1], [2], [3])] (f1, [])).2) ∧
      (addAll toyCrypto (fun _ => 0) (fun _ => List.replicate 24 2)
          (fun _ => List.replicate 24 3) VolumeType.Standard
          (toyCrypto.deriveKey [97] (List.replicate 16 0)) 0
          [([1], [2], [3])] (f1, [])).2.map Prod.fst = [[1]] ∧
      ∀ e ∈ ([([1], [2], [3])] : List (List Nat × List Nat × List Nat)), ∃ md,
        lookupKey (addAll toyCrypto (fun _ => 0) (fun _ => List.replicate 24 2)
            (fun _ => List.replicate 24 3) VolumeType.Standard
            (toyCrypto.deriveKey [97] (List.replicate 16 0)) 0
            [([1], [2], [3])] (f1, [])).2 e.1 = some md ∧
        md.mime_type = e.2.2 ∧ md.size = e.2.1.length ∧
        get_file toyCrypto
            (addAll toyCrypto (fun _ => 0) (fun _ => List.replicate 24 2)
              (fun _ => List.replicate 24 3) VolumeType.Standard
              (toyCrypto.deriveKey [97] (List.replicate 16 0)) 0
              [([1], [2], [3])] (f1, [])).1
            (toyCrypto.deriveKey [97] (List.replicate 16 0)) md
          = .ok e.2.1) := by
  refine ⟨by decide, ?_⟩
  exact c1_amended toyCrypto toyCrypto_EncLen toyCrypto_DecEnc toyCrypto_DecAuth
    toyCrypto_KdfInj (List.replicate 16 0) (fun _ => List.replicate 16 1)
    ⟨0, by decide⟩ (List.replicate 24 0) (List.replicate 24 0) (fun _ => 0)
    [97] [98] (fun _ => List.replicate 24 2) (fun _ => List.replicate 24 3)
    (by decide) (fun _ => show (List.replicate 16 1).length = 16 from by decide)
    (by decide) (by decide)
    (fun _ => show (List.replicate 24 2).length = 24 from by decide)
    (fun _ => show (List.replicate 24 3).length = 24 from by decide)
    (by decide) VolumeType.Standard [([1], [2], [3])]
    (by decide) (by decide) (by decide)

/-- C1 counterexample: the round-trip fails for unbounded families.  A
single file whose inner path is 1048700 bytes long, added to the hidden
volume of a freshly initialized blob, makes the rewritten hidden metadata
ciphertext spill past the data-area start and overwrite the file's own
data block, so the path is indexed but `get_file` on its entry fails. -/
theorem c1_counterexample :
    ([97] : List Nat) ≠ [98] ∧
    (([(List.replicate 1048700 0, ([7] : List Nat), ([] : List Nat))].map
      (fun e => e.1)).Nodup) ∧
    ∀ f1, init_blob toyCrypto (List.replicate 16 0) (fun _ => List.replicate 16 1)
        ⟨0, by decide⟩ (List.replicate 24 0) (List.replicate 24 0) (fun _ => 0)
        [97] [98] = .ok f1 →
      lookupKey (addAll toyCrypto (fun _ => 0) (fun _ => List.replicate 24 2)
          (fun _ => List.replicate 24 3) VolumeType.Hidden
          (toyCrypto.deriveKey [98] (List.replicate 16 1)) 0
          [(List.replicate 1048700 0, [7], [])] (f1, [])).2
          (List.replicate 1048700 0)
        = some ⟨1, 1114160, 41, []⟩ ∧
      get_file toyCrypto
          (addAll toyCrypto (fun _ => 0) (fun _ => List.replicate 24 2)
            (fun _ => List.replicate 24 3) VolumeType.Hidden
            (toyCrypto.deriveKey [98] (List.replicate 16 1)) 0
            [(List.replicate 1048700 0, [7], [])] (f1, [])).1
          (toyCrypto.deriveKey [98] (List.replicate 16 1)) ⟨1, 1114160, 41, []⟩
        = .error "file data decryption failed" := by
  refine ⟨by decide, by decide, ?_⟩
  intro f1 hf1
  unfold init_blob at hf1
  rw [if_neg (by decide)] at hf1
  have hf1' : f1 = initFileBytes toyCrypto (List.replicate 16 0)
      ((fun _ => List.replicate 16 1)
        (Nat.find (⟨0, by decide⟩ :
          ∃ i, (fun _ => List.replicate 16 1) i ≠ List.replicate 16 0)))
      (List.replicate 24 0) (List.replicate 24 0) (fun _ => 0) [97] [98] :=
    (Except.ok.inj hf1).symm
  have hspec := initFileBytes_spec toyCrypto (List.replicate 16 0)
    (List.replicate 16 1) (List.replicate 24 0) (List.replicate 24 0)
    (fun _ => 0) [97] [98] (by decide) (by decide) (by decide) (by decide)
    (by rw [initCt, toyCrypto_EncLen]; decide)
    (by rw [initCt, toyCrypto_EncLen]; decide)
  have hlen1 : f1.length = 1114160 := by rw [hf1']; exact hspec.1
  set K := List.replicate 1048700 0 with hK
  set kH := toyCrypto.deriveKey [98] (List.replicate 16 1) with hkH
  set nD0 := List.replicate 24 2 with hnD0
  set nM0 := List.replicate 24 3 with hnM0
  have hKlen : K.length = 1048700 := by rw [hK]; exact List.length_replicate _ _
  have hnD0len : nD0.length = 24 := by rw [hnD0]; exact List.length_replicate _ _
  have hnM0len : nM0.length = 24 := by rw [hnM0]; exact List.length_replicate _ _
  have hct : toyCrypto.encrypt kH nM0
      (serializeMap [(K, (⟨1, 1114160, 41, []⟩ : FileMetadata))])
      = serializeMap [(K, (⟨1, 1114160, 41, []⟩ : FileMetadata))] ++ toyTag kH := rfl
  have hA : serializeMap [(K, (⟨1, 1114160, 41, []⟩ : FileMetadata))]
      = le64 1 ++ (serializeEntry (K, (⟨1, 1114160, 41, []⟩ : FileMetadata)) ++ []) :=
    rfl
  have hEsh : serializeEntry (K, (⟨1, 1114160, 41, []⟩ : FileMetadata))
      = le64 K.length ++ K ++ le64 1 ++ le64 1114160 ++ le64 41 ++ le64 0 ++ [] := rfl
  have hserMlen : (serializeMap [(K, (⟨1, 1114160, 41, []⟩ : FileMetadata))]).length
      = 1048748 := by
    rw [hA, hEsh]
    simp only [List.length_append, List.length_nil, length_le64, hKlen]
  have hctlen : (toyCrypto.encrypt kH nM0
      (serializeMap [(K, (⟨1, 1114160, 41, []⟩ : FileMetadata))])).length
      = 1048764 := by
    rw [hct, List.length_append, hserMlen, length_toyTag]
  have hencDlen : (toyCrypto.encrypt kH nD0 [7]).length = 17 := by
    rw [toyCrypto_EncLen]
    decide
  have hA2len : (f1 ++ nD0 ++ toyCrypto.encrypt kH nD0 [7]).length = 1114201 := by
    simp only [List.length_append, hlen1, hnD0len, hencDlen]
  have hpad : padToDataArea (fun _ => 0) f1 = f1 := by
    unfold padToDataArea
    rw [if_neg (by rw [hlen1]; decide)]
  have hmd : appendedMeta toyCrypto nD0 f1 kH [7] []
      = ⟨1, 1114160, 41, []⟩ := by
    unfold appendedMeta
    rw [if_neg (by rw [hlen1]; decide), hlen1, toyCrypto_EncLen]
    decide
  have hstep : addAll toyCrypto (fun _ => 0) (fun _ => nD0) (fun _ => nM0)
      VolumeType.Hidden kH 0 [(K, [7], [])] (f1, [])
      = add_file toyCrypto (fun _ => 0) nD0 nM0 f1 VolumeType.Hidden kH [] K [7] [] := by
    rfl
  have hrep : add_file toyCrypto (fun _ => 0) nD0 nM0 f1 VolumeType.Hidden kH [] K [7] []
      = (writeAt
          (writeAt (f1 ++ nD0 ++ toyCrypto.encrypt kH nD0 [7]) 65584
            (toyCrypto.encrypt kH nM0
              (serializeMap [(K, (⟨1, 1114160, 41, []⟩ : FileMetadata))])))
          65552
          (nM0 ++ le64 (toyCrypto.encrypt kH nM0
            (serializeMap [(K, (⟨1, 1114160, 41, []⟩ : FileMetadata))])).length),
        [(K, (⟨1, 1114160, 41, []⟩ : FileMetadata))]) := by
    unfold add_file append_file_data write_metadata_block update_header_metadata
    rw [hpad, hmd]
    rfl
  have hfull := hstep.trans hrep
  set A2 := f1 ++ nD0 ++ toyCrypto.encrypt kH nD0 [7] with hA2
  set ctM := toyCrypto.encrypt kH nM0
    (serializeMap [(K, (⟨1, 1114160, 41, []⟩ : FileMetadata))]) with hctM
  set W1 := writeAt A2 65584 ctM with hW1
  set W2 := writeAt W1 65552 (nM0 ++ le64 ctM.length) with hW2
  have h1 : (addAll toyCrypto (fun _ => 0) (fun _ => nD0) (fun _ => nM0)
      VolumeType.Hidden kH 0 [(K, [7], [])] (f1, [])).1 = W2 := by
    rw [hfull]
  have h2 : (addAll toyCrypto (fun _ => 0) (fun _ => nD0) (fun _ => nM0)
      VolumeType.Hidden kH 0 [(K, [7], [])] (f1, [])).2
      = [(K, (⟨1, 1114160, 41, []⟩ : FileMetadata))] := by
    rw [hfull]
  have hW1len : W1.length = 1114348 := by
    rw [hW1, length_writeAt, hA2len, hctlen]
    omega
  have hW2len : W2.length = 1114348 := by
    rw [hW2, length_writeAt, hW1len]
    simp only [List.length_append, hnM0len, length_le64]
    omega
  have hslice : extractSeg W2 1114184 17 = List.replicate 17 0 := by
    rw [hW2, extractSeg_writeAt_after _ _ _ _ _
      (by simp only [List.length_append, hnM0len, length_le64]; omega)]
    rw [hW1, extractSeg_writeAt_inside _ _ _ _ _ (by omega)
      (by rw [hctlen]; decide)]
    rw [show (1114184 - 65584 : Nat) = 1048600 from by decide]
    rw [hct]
    rw [extractSeg_append_left _ _ _ _ (by rw [hserMlen]; decide)]
    rw [hA, List.append_nil, hEsh, List.append_nil]
    rw [show le64 1 ++ (le64 K.length ++ K ++ le64 1 ++ le64 1114160 ++ le64 41
          ++ le64 0)
        = (le64 1 ++ le64 K.length)
          ++ (K ++ (le64 1 ++ le64 1114160 ++ le64 41 ++ le64 0)) from by
      simp [List.append_assoc]]
    rw [extractSeg_append_right' _ _ _ _
      (by simp only [List.length_append, length_le64]; decide)]
    rw [show (1048600 - (le64 1 ++ le64 K.length).length : Nat) = 1048584 from by
      simp [length_le64]]
    rw [extractSeg_append_left _ _ _ _ (by rw [hKlen]; decide)]
    rw [hK]
    rw [show extractSeg (List.replicate 1048700 0) 1048584 17
        = ((List.replicate 1048700 0).drop 1048584).take 17 from rfl]
    rw [List.drop_replicate, List.take_replicate]
    rw [show (1048700 - 1048584 : Nat) = 116 from by decide]
    rw [show min 17 116 = 17 from by decide]
  have hcond : ¬(16 ≤ (List.replicate 17 0).length ∧
      (List.replicate 17 0).drop ((List.replicate 17 0).length - 16)
        = toyTag kH) := by
    intro h
    have h2 := h.2
    rw [show (List.replicate 17 0).drop ((List.replicate 17 0).length - 16)
        = 0 :: List.replicate 15 0 from by decide] at h2
    rw [show toyTag kH = encList kH :: List.replicate 15 0 from rfl] at h2
    have h3 : (0 : Nat) = encList kH := (List.cons.inj h2).1
    have hne : encList kH ≠ 0 := by
      rw [hkH]
      show encList (encList [98] :: encList (List.replicate 16 1)
        :: List.replicate 30 0) ≠ 0
      show Nat.pair (encList [98]) (encList (encList (List.replicate 16 1)
        :: List.replicate 30 0)) + 1 ≠ 0
      omega
    exact hne h3.symm
  have hdecAll : ∀ nn : List Nat,
      toyCrypto.decrypt kH nn (List.replicate 17 0) = none := by
    intro nn
    simp only [toyCrypto]
    rw [if_neg hcond]
  refine ⟨?_, ?_⟩
  · rw [h2, lookupKey_cons, if_pos rfl]
  · rw [h1]
    simp only [get_file, read_file_data]
    rw [show (41 - 24 : Nat) = 17 from by decide,
      show (1114160 + 24 : Nat) = 1114184 from by decide]
    rw [if_neg (by rw [hW2len]; decide), if_neg (by rw [hW2len]; decide)]
    rw [hslice, hdecAll]

theorem compactAddAll_eq_addAll (c : CryptoPrims) (padRng : Nat → Nat)
    (nD nM : Nat → List Nat) (oldf oldKey : List Nat) (vt : VolumeType)
    (newKey : List Nat) (dataOf : List Nat × FileMetadata → List Nat) :
    ∀ (entries : List (List Nat × FileMetadata)) (i0 : Nat)
      (s : List Nat × MetadataMap),
    (∀ e ∈ entries, get_file c oldf oldKey e.2 = .ok (dataOf e)) →
    compactAddAll c padRng nD nM oldf oldKey vt newKey i0 entries s
      = .ok (addAll c padRng nD nM vt newKey i0
          (entries.map (fun e => (e.1, dataOf e, e.2.mime_type))) s) := by
  intro entries
  induction entries with
  | nil => intro i0 s h; rfl
  | cons e ts ih =>
    intro i0 s h
    have he := h e (List.mem_cons_self _ _)
    simp only [compactAddAll, he, List.map_cons, addAll]
    exact ih (i0 + 1) _ (fun e' he' => h e' (List.mem_cons_of_mem _ he'))

/-- General compaction specification: for an old blob whose two volumes
unlock as described (`VolDisk` states with well-formed indices, every
entry readable) and whose entries fit the fresh blob's metadata regions,
`compact_blob` succeeds; the new blob's length is exactly the data-area
start plus the sum of the entries' block sizes; unlocking the new blob
with either password returns the same volume, an index with exactly the
old paths, and `get_file` on every entry returns the same bytes with the
same MIME string and size. -/
theorem compact_blob_spec (c : CryptoPrims) (hE : EncLen c) (hDE : DecEnc c)
    (hDA : DecAuth c) (hKI : KdfInj c)
    (saltS : List Nat) (saltDraw : Nat → List Nat) (hdraw : ∃ i, saltDraw i ≠ saltS)
    (nonceS nonceH : List Nat) (padI padA : Nat → Nat) (nD nM : Nat → List Nat)
    (hsS : saltS.length = 16) (hsD : ∀ i, (saltDraw i).length = 16)
    (hnS : nonceS.length = 24) (hnH : nonceH.length = 24)
    (hnD : ∀ i, (nD i).length = 24) (hnM : ∀ i, (nM i).length = 24)
    (f pwS pwH : List Nat) (hpw : pwS ≠ pwH)
    (saltSo saltHo nmSo nmHo : List Nat) (mS mH : MetadataMap)
    (hnmSo : nmSo.length = 24) (hnmHo : nmHo.length = 24)
    (hwfS : MapWf mS) (hwfH : MapWf mH)
    (hmagic : extractSeg f 0 9 = MAGICB ++ [VERSION])
    (hflen : 65584 ≤ f.length)
    (hdiskS : VolDisk c .Standard (c.deriveKey pwS saltSo) saltSo nmSo mS f)
    (hdiskH : VolDisk c .Hidden (c.deriveKey pwH saltHo) saltHo nmHo mH f)
    (hctSin : STANDARD_METADATA_OFFSET
      + (c.encrypt (c.deriveKey pwS saltSo) nmSo (serializeMap mS)).length
      ≤ f.length)
    (hctHin : HIDDEN_METADATA_OFFSET
      + (c.encrypt (c.deriveKey pwH saltHo) nmHo (serializeMap mH)).length
      ≤ f.length)
    (hszS : (c.encrypt (c.deriveKey pwS saltSo) nmSo (serializeMap mS)).length
      ≤ 50 * 1024 * 1024)
    (hszH : (c.encrypt (c.deriveKey pwH saltHo) nmHo (serializeMap mH)).length
      ≤ 50 * 1024 * 1024)
    (dataOfS dataOfH : List Nat × FileMetadata → List Nat)
    (hreadS : ∀ e ∈ mS, get_file c f (c.deriveKey pwS saltSo) e.2 = .ok (dataOfS e))
    (hreadH : ∀ e ∈ mH, get_file c f (c.deriveKey pwH saltHo) e.2 = .ok (dataOfH e))
    (hnodupS : (mS.map (fun e => e.1)).Nodup)
    (hnodupH : (mH.map (fun e => e.1)).Nodup)
    (hbserS : metadataOffset VolumeType.Standard
      + (8 + (mS.map (fun e => 40 + e.1.length + e.2.mime_type.length)).sum + 16)
      ≤ regionEnd VolumeType.Standard)
    (hbserH : metadataOffset VolumeType.Hidden
      + (8 + (mH.map (fun e => 40 + e.1.length + e.2.mime_type.length)).sum + 16)
      ≤ regionEnd VolumeType.Hidden)
    (hb64 : DATA_AREA_START_OFFSET
      + (mS.map (fun e => 40 + (dataOfS e).length)).sum
      + (mH.map (fun e => 40 + (dataOfH e).length)).sum < 2 ^ 64) :
    ∃ g m1 m2,
      compact_blob c saltS saltDraw hdraw nonceS nonceH padI padA nD nM f pwS pwH
        = .ok g ∧
      g.length = DATA_AREA_START_OFFSET
        + (mS.map (fun e => 40 + (dataOfS e).length)).sum
        + (mH.map (fun e => 40 + (dataOfH e).length)).sum ∧
      (DATA_AREA_START_OFFSET
          + (mS.map (fun e => 40 + (dataOfS e).length)).sum
          + (mH.map (fun e => 40 + (dataOfH e).length)).sum ≤ f.length →
        g.length ≤ f.length) ∧
      unlock_blob c g pwS
        = .ok (VolumeType.Standard, c.deriveKey pwS saltS, m1) ∧
      m1.map Prod.fst = mS.map (fun e => e.1) ∧
      (∀ e ∈ mS, ∃ md, lookupKey m1 e.1 = some md ∧
        md.mime_type = e.2.mime_type ∧ md.size = (dataOfS e).length ∧
        get_file c g (c.deriveKey pwS saltS) md = .ok (dataOfS e)) ∧
      unlock_blob c g pwH
        = .ok (VolumeType.Hidden, c.deriveKey pwH (saltDraw (Nat.find hdraw)), m2) ∧
      m2.map Prod.fst = mH.map (fun e => e.1) ∧
      (∀ e ∈ mH, ∃ md, lookupKey m2 e.1 = some md ∧
        md.mime_type = e.2.mime_type ∧ md.size = (dataOfH e).length ∧
        get_file c g (c.deriveKey pwH (saltDraw (Nat.find hdraw))) md
          = .ok (dataOfH e)) := by
  obtain ⟨hsS1o, hhS1o, hmS1o⟩ := hdiskS
  obtain ⟨hsH1o, hhH1o, hmH1o⟩ := hdiskH
  have hD2 : DATA_AREA_START_OFFSET = 1114160 := by decide
  -- reading the old blob
  have h1 : read_standard_header f
      = .ok ⟨saltSo, nmSo,
          (c.encrypt (c.deriveKey pwS saltSo) nmSo (serializeMap mS)).length⟩ :=
    header_read_ok f .Standard saltSo nmSo _ hflen hmagic hsS1o hhS1o hnmSo
      (by omega)
  have h2 : read_hidden_header f
      = .ok ⟨saltHo, nmHo,
          (c.encrypt (c.deriveKey pwH saltHo) nmHo (serializeMap mH)).length⟩ :=
    header_read_ok f .Hidden saltHo nmHo _ hflen hmagic hsH1o hhH1o hnmHo
      (by omega)
  have h3 : read_metadata_block c f (c.deriveKey pwS saltSo) nmSo
      (c.encrypt (c.deriveKey pwS saltSo) nmSo (serializeMap mS)).length
      STANDARD_METADATA_OFFSET = .ok mS :=
    read_metadata_block_ok c hE hDE f (c.deriveKey pwS saltSo) nmSo mS hwfS
      STANDARD_METADATA_OFFSET hmS1o hctSin hszS
  have h4 : read_metadata_block c f (c.deriveKey pwH saltHo) nmHo
      (c.encrypt (c.deriveKey pwH saltHo) nmHo (serializeMap mH)).length
      HIDDEN_METADATA_OFFSET = .ok mH :=
    read_metadata_block_ok c hE hDE f (c.deriveKey pwH saltHo) nmHo mH hwfH
      HIDDEN_METADATA_OFFSET hmH1o hctHin hszH
  -- the fresh blob
  have h5 : init_blob c saltS saltDraw hdraw nonceS nonceH padI pwS pwH
      = .ok (initFileBytes c saltS (saltDraw (Nat.find hdraw)) nonceS nonceH
          padI pwS pwH) := by
    unfold init_blob
    rw [if_neg hpw]
  have hser8 : (serializeMap ([] : MetadataMap)).length = 8 := by decide
  have hctlen : ∀ pw salt nonce, (initCt c pw salt nonce).length = 24 := by
    intro pw salt nonce
    rw [initCt, hE, hser8]
  obtain ⟨hlen1, hmagic1, hsaltS1, hhdrS1, hctS1, hsaltH1, hhdrH1, hctH1⟩ :=
    initFileBytes_spec c saltS (saltDraw (Nat.find hdraw)) nonceS nonceH
      padI pwS pwH hsS (hsD _) hnS hnH
      (by rw [hctlen]; decide) (by rw [hctlen]; decide)
  have hwf0 : MapWf ([] : MetadataMap) := ⟨by decide, by intro kv h; cases h⟩
  have hulS0 : unlock_attempt c
      (initFileBytes c saltS (saltDraw (Nat.find hdraw)) nonceS nonceH padI pwS pwH)
      pwS VolumeType.Standard = .ok (c.deriveKey pwS saltS, []) :=
    unlock_attempt_ok c hE hDE _ pwS saltS nonceS VolumeType.Standard [] hwf0
      (by rw [hlen1]; decide)
      (by rw [hlen1, hE, hser8]; decide) hmagic1
      ⟨hsaltS1, hhdrS1, hctS1⟩ hnS (by rw [hE, hser8]; decide)
  have hulH0 : unlock_attempt c
      (initFileBytes c saltS (saltDraw (Nat.find hdraw)) nonceS nonceH padI pwS pwH)
      pwH VolumeType.Hidden
      = .ok (c.deriveKey pwH (saltDraw (Nat.find hdraw)), []) :=
    unlock_attempt_ok c hE hDE _ pwH (saltDraw (Nat.find hdraw)) nonceH
      VolumeType.Hidden [] hwf0
      (by rw [hlen1]; decide)
      (by rw [hlen1, hE, hser8]; decide) hmagic1
      ⟨hsaltH1, hhdrH1, hctH1⟩ hnH (by rw [hE, hser8]; decide)
  have hfail0 : unlock_attempt c
      (initFileBytes c saltS (saltDraw (Nat.find hdraw)) nonceS nonceH padI pwS pwH)
      pwH VolumeType.Standard = .error "metadata decryption failed" :=
    unlock_attempt_std_fail c hE hDA _ pwS pwH saltS nonceS []
      (hKI pwS pwH saltS hpw) (by rw [hlen1]; decide) hmagic1
      ⟨hsaltS1, hhdrS1, hctS1⟩ hnS (by rw [hE, hser8]; decide)
  have h6 : unlock_blob c
      (initFileBytes c saltS (saltDraw (Nat.find hdraw)) nonceS nonceH padI pwS pwH)
      pwS = .ok (VolumeType.Standard, c.deriveKey pwS saltS, []) := by
    simp only [unlock_blob, hulS0]
  have h7 : unlock_blob c
      (initFileBytes c saltS (saltDraw (Nat.find hdraw)) nonceS nonceH padI pwS pwH)
      pwH = .ok (VolumeType.Hidden, c.deriveKey pwH (saltDraw (Nat.find hdraw)), []) := by
    simp only [unlock_blob, hfail0, hulH0]
  -- the standard re-add pass
  have h8 : compactAddAll c padA nD nM f (c.deriveKey pwS saltSo)
      VolumeType.Standard (c.deriveKey pwS saltS) 0 mS
      (initFileBytes c saltS (saltDraw (Nat.find hdraw)) nonceS nonceH padI pwS pwH,
        [])
      = .ok (addAll c padA nD nM VolumeType.Standard (c.deriveKey pwS saltS) 0
          (mS.map (fun e => (e.1, dataOfS e, e.2.mime_type)))
          (initFileBytes c saltS (saltDraw (Nat.find hdraw)) nonceS nonceH
            padI pwS pwH, [])) :=
    compactAddAll_eq_addAll c padA nD nM f (c.deriveKey pwS saltSo)
      VolumeType.Standard (c.deriveKey pwS saltS) dataOfS mS 0 _ hreadS
  have htkS : (mS.map (fun e => (e.1, dataOfS e, e.2.mime_type))).map
      (fun e => e.1) = mS.map (fun e => e.1) := by simp
  have htsS1 : (mS.map (fun e => (e.1, dataOfS e, e.2.mime_type))).map
      (fun e => 40 + e.1.length + e.2.2.length)
      = mS.map (fun e => 40 + e.1.length + e.2.mime_type.length) := by simp
  have htsS2 : (mS.map (fun e => (e.1, dataOfS e, e.2.mime_type))).map
      (fun e => 40 + e.2.1.length)
      = mS.map (fun e => 40 + (dataOfS e).length) := by simp
  have htkH : (mH.map (fun e => (e.1, dataOfH e, e.2.mime_type))).map
      (fun e => e.1) = mH.map (fun e => e.1) := by simp
  have htsH1 : (mH.map (fun e => (e.1, dataOfH e, e.2.mime_type))).map
      (fun e => 40 + e.1.length + e.2.2.length)
      = mH.map (fun e => 40 + e.1.length + e.2.mime_type.length) := by simp
  have htsH2 : (mH.map (fun e => (e.1, dataOfH e, e.2.mime_type))).map
      (fun e => 40 + e.2.1.length)
      = mH.map (fun e => 40 + (dataOfH e).length) := by simp
  have hinv0S : C1Inv c VolumeType.Standard (c.deriveKey pwS saltS) saltS
      DATA_AREA_START_OFFSET []
      (initFileBytes c saltS (saltDraw (Nat.find hdraw)) nonceS nonceH padI pwS pwH)
      [] := by
    refine ⟨by rw [hlen1]; simp, rfl, by rw [hser8]; simp,
      by intro kv hkv; exact absurd hkv (List.not_mem_nil kv),
      ⟨nonceS, hnS, hsaltS1, hhdrS1, hctS1⟩,
      by intro e he; exact absurd he (List.not_mem_nil e)⟩
  obtain ⟨hulS, hflenS, hinvS, hframeSlow, hframeShigh⟩ :=
    unlock_after_addAll c hE hDE padA nD nM VolumeType.Standard pwS saltS
      (initFileBytes c saltS (saltDraw (Nat.find hdraw)) nonceS nonceH padI pwS pwH)
      DATA_AREA_START_OFFSET le_rfl hnD hnM
      (mS.map (fun e => (e.1, dataOfS e, e.2.mime_type)))
      (by rw [htkS]; exact hnodupS)
      (by rw [htsS1]; exact hbserS)
      (by rw [htsS2]; omega)
      hmagic1 hinv0S 0 _ rfl
  obtain ⟨hlenS, hkeysS, hserS, hwfS2, ⟨nmS2, hnmS2, hvdS2⟩, hgoodS⟩ := hinvS
  -- the hidden re-add pass on top of it
  have hmagicS1 : extractSeg (addAll c padA nD nM VolumeType.Standard
      (c.deriveKey pwS saltS) 0 (mS.map (fun e => (e.1, dataOfS e, e.2.mime_type)))
      (initFileBytes c saltS (saltDraw (Nat.find hdraw)) nonceS nonceH padI pwS pwH,
        [])).1 0 9 = MAGICB ++ [VERSION] := by
    rw [hframeSlow 0 9 (by decide)]
    exact hmagic1
  have hlenS' : (addAll c padA nD nM VolumeType.Standard
      (c.deriveKey pwS saltS) 0 (mS.map (fun e => (e.1, dataOfS e, e.2.mime_type)))
      (initFileBytes c saltS (saltDraw (Nat.find hdraw)) nonceS nonceH padI pwS pwH,
        [])).1.length
      = DATA_AREA_START_OFFSET + (mS.map (fun e => 40 + (dataOfS e).length)).sum := by
    rw [hlenS, htsS2]
  have hinv0H : C1Inv c VolumeType.Hidden
      (c.deriveKey pwH (saltDraw (Nat.find hdraw))) (saltDraw (Nat.find hdraw))
      (DATA_AREA_START_OFFSET + (mS.map (fun e => 40 + (dataOfS e).length)).sum) []
      (addAll c padA nD nM VolumeType.Standard (c.deriveKey pwS saltS) 0
        (mS.map (fun e => (e.1, dataOfS e, e.2.mime_type)))
        (initFileBytes c saltS (saltDraw (Nat.find hdraw)) nonceS nonceH
          padI pwS pwH, [])).1 [] := by
    refine ⟨by rw [hlenS']; simp, rfl, by rw [hser8]; simp,
      by intro kv hkv; exact absurd hkv (List.not_mem_nil kv),
      ⟨nonceH, hnH, ?_, ?_, ?_⟩,
      by intro e he; exact absurd he (List.not_mem_nil e)⟩
    · rw [hframeShigh (saltOffset VolumeType.Hidden) 16 (by decide)
        (by rw [hlen1]; decide)]
      exact hsaltH1
    · rw [hframeShigh (headerFieldOffset VolumeType.Hidden) 32 (by decide)
        (by rw [hlen1]; decide)]
      exact hhdrH1
    · rw [hframeShigh (metadataOffset VolumeType.Hidden)
        (c.encrypt (c.deriveKey pwH (saltDraw (Nat.find hdraw))) nonceH
          (serializeMap ([] : MetadataMap))).length
        (by decide) (by rw [hlen1, hE, hser8]; decide)]
      exact hctH1
  have h9 : compactAddAll c padA nD nM f (c.deriveKey pwH saltHo)
      VolumeType.Hidden (c.deriveKey pwH (saltDraw (Nat.find hdraw))) mS.length mH
      ((addAll c padA nD nM VolumeType.Standard (c.deriveKey pwS saltS) 0
        (mS.map (fun e => (e.1, dataOfS e, e.2.mime_type)))
        (initFileBytes c saltS (saltDraw (Nat.find hdraw)) nonceS nonceH
          padI pwS pwH, [])).1, [])
      = .ok (addAll c padA nD nM VolumeType.Hidden
          (c.deriveKey pwH (saltDraw (Nat.find hdraw))) mS.length
          (mH.map (fun e => (e.1, dataOfH e, e.2.mime_type)))
          ((addAll c padA nD nM VolumeType.Standard (c.deriveKey pwS saltS) 0
            (mS.map (fun e => (e.1, dataOfS e, e.2.mime_type)))
            (initFileBytes c saltS (saltDraw (Nat.find hdraw)) nonceS nonceH
              padI pwS pwH, [])).1, [])) :=
    compactAddAll_eq_addAll c padA nD nM f (c.deriveKey pwH saltHo)
      VolumeType.Hidden (c.deriveKey pwH (saltDraw (Nat.find hdraw))) dataOfH
      mH mS.length _ hreadH
  obtain ⟨hulH2, hflenH, hinvH, hframeHlow, hframeHhigh⟩ :=
    unlock_after_addAll c hE hDE padA nD nM VolumeType.Hidden pwH
      (saltDraw (Nat.find hdraw))
      (addAll c padA nD nM VolumeType.Standard (c.deriveKey pwS saltS) 0
        (mS.map (fun e => (e.1, dataOfS e, e.2.mime_type)))
        (initFileBytes c saltS (saltDraw (Nat.find hdraw)) nonceS nonceH
          padI pwS pwH, [])).1
      (DATA_AREA_START_OFFSET + (mS.map (fun e => 40 + (dataOfS e).length)).sum)
      (by omega) hnD hnM
      (mH.map (fun e => (e.1, dataOfH e, e.2.mime_type)))
      (by rw [htkH]; exact hnodupH)
      (by rw [htsH1]; exact hbserH)
      (by rw [htsH2]; omega)
      hmagicS1 hinv0H mS.length _ rfl
  obtain ⟨hlenH, hkeysH, hserH, hwfH2, ⟨nmH2, hnmH2, hvdH2⟩, hgoodH⟩ := hinvH
  -- the compacted bytes and their length
  have hlenG : (addAll c padA nD nM VolumeType.Hidden
      (c.deriveKey pwH (saltDraw (Nat.find hdraw))) mS.length
      (mH.map (fun e => (e.1, dataOfH e, e.2.mime_type)))
      ((addAll c padA nD nM VolumeType.Standard (c.deriveKey pwS saltS) 0
        (mS.map (fun e => (e.1, dataOfS e, e.2.mime_type)))
        (initFileBytes c saltS (saltDraw (Nat.find hdraw)) nonceS nonceH
          padI pwS pwH, [])).1, [])).1.length
      = DATA_AREA_START_OFFSET
        + (mS.map (fun e => 40 + (dataOfS e).length)).sum
        + (mH.map (fun e => 40 + (dataOfH e).length)).sum := by
    rw [hlenH, htsH2]
  refine ⟨(addAll c padA nD nM VolumeType.Hidden
      (c.deriveKey pwH (saltDraw (Nat.find hdraw))) mS.length
      (mH.map (fun e => (e.1, dataOfH e, e.2.mime_type)))
      ((addAll c padA nD nM VolumeType.Standard (c.deriveKey pwS saltS) 0
        (mS.map (fun e => (e.1, dataOfS e, e.2.mime_type)))
        (initFileBytes c saltS (saltDraw (Nat.find hdraw)) nonceS nonceH
          padI pwS pwH, [])).1, [])).1,
    (addAll c padA nD nM VolumeType.Standard (c.deriveKey pwS saltS) 0
      (mS.map (fun e => (e.1, dataOfS e, e.2.mime_type)))
      (initFileBytes c saltS (saltDraw (Nat.find hdraw)) nonceS nonceH
        padI pwS pwH, [])).2,
    (addAll c padA nD nM VolumeType.Hidden
      (c.deriveKey pwH (saltDraw (Nat.find hdraw))) mS.length
      (mH.map (fun e => (e.1, dataOfH e, e.2.mime_type)))
      ((addAll c padA nD nM VolumeType.Standard (c.deriveKey pwS saltS) 0
        (mS.map (fun e => (e.1, dataOfS e, e.2.mime_type)))
        (initFileBytes c saltS (saltDraw (Nat.find hdraw)) nonceS nonceH
          padI pwS pwH, [])).1, [])).2,
    ?_, hlenG, by intro h; rw [hlenG]; omega, ?_, ?_, ?_, ?_, ?_, ?_⟩
  · -- the run of compact_blob
    simp only [compact_blob, h1, h2, h3, h4, h5, h6, h7, h8, h9,
      bind, Except.bind, pure, Except.pure]
  · -- unlock the compacted blob with the standard password
    have hmagicG : extractSeg (addAll c padA nD nM VolumeType.Hidden
        (c.deriveKey pwH (saltDraw (Nat.find hdraw))) mS.length
        (mH.map (fun e => (e.1, dataOfH e, e.2.mime_type)))
        ((addAll c padA nD nM VolumeType.Standard (c.deriveKey pwS saltS) 0
          (mS.map (fun e => (e.1, dataOfS e, e.2.mime_type)))
          (initFileBytes c saltS (saltDraw (Nat.find hdraw)) nonceS nonceH
            padI pwS pwH, [])).1, [])).1 0 9 = MAGICB ++ [VERSION] := by
      rw [hframeHlow 0 9 (by decide)]
      exact hmagicS1
    have hctSlen : (c.encrypt (c.deriveKey pwS saltS) nmS2
        (serializeMap (addAll c padA nD nM VolumeType.Standard
          (c.deriveKey pwS saltS) 0
          (mS.map (fun e => (e.1, dataOfS e, e.2.mime_type)))
          (initFileBytes c saltS (saltDraw (Nat.find hdraw)) nonceS nonceH
            padI pwS pwH, [])).2)).length
        = (8 + ((mS.map (fun e => (e.1, dataOfS e, e.2.mime_type))).map
            (fun e => 40 + e.1.length + e.2.2.length)).sum) + 16 := by
      rw [hE, hserS]
    have hvdG : VolDisk c VolumeType.Standard (c.deriveKey pwS saltS) saltS nmS2
        (addAll c padA nD nM VolumeType.Standard (c.deriveKey pwS saltS) 0
          (mS.map (fun e => (e.1, dataOfS e, e.2.mime_type)))
          (initFileBytes c saltS (saltDraw (Nat.find hdraw)) nonceS nonceH
            padI pwS pwH, [])).2
        (addAll c padA nD nM VolumeType.Hidden
          (c.deriveKey pwH (saltDraw (Nat.find hdraw))) mS.length
          (mH.map (fun e => (e.1, dataOfH e, e.2.mime_type)))
          ((addAll c padA nD nM VolumeType.Standard (c.deriveKey pwS saltS) 0
            (mS.map (fun e => (e.1, dataOfS e, e.2.mime_type)))
            (initFileBytes c saltS (saltDraw (Nat.find hdraw)) nonceS nonceH
              padI pwS pwH, [])).1, [])).1 := by
      obtain ⟨hv1, hv2, hv3⟩ := hvdS2
      refine ⟨?_, ?_, ?_⟩
      · rw [hframeHlow (saltOffset VolumeType.Standard) 16 (by decide)]
        exact hv1
      · rw [hframeHlow (headerFieldOffset VolumeType.Standard) 32 (by decide)]
        exact hv2
      · rw [hframeHlow (metadataOffset VolumeType.Standard) _
          (by
            rw [hctSlen, htsS1]
            have h57 : metadataOffset VolumeType.Standard = 57 := by decide
            have h65 : regionEnd VolumeType.Standard = 65536 := by decide
            have hhfH : headerFieldOffset VolumeType.Hidden = 65552 := by decide
            omega)]
        exact hv3
    have hwfmS : MapWf (addAll c padA nD nM VolumeType.Standard
        (c.deriveKey pwS saltS) 0
        (mS.map (fun e => (e.1, dataOfS e, e.2.mime_type)))
        (initFileBytes c saltS (saltDraw (Nat.find hdraw)) nonceS nonceH
          padI pwS pwH, [])).2 := by
      refine ⟨?_, hwfS2⟩
      have hcount := congrArg List.length hkeysS
      simp only [List.length_map] at hcount
      have hlb := length_le_sum_map (mS.map (fun e => (e.1, dataOfS e, e.2.mime_type)))
        (fun e => 40 + e.1.length + e.2.2.length)
        (fun e => by show 1 ≤ 40 + e.1.length + e.2.2.length; omega)
      rw [htsS1] at hlb
      simp only [List.length_map] at hlb
      have h65 : regionEnd VolumeType.Standard = 65536 := by decide
      have h57 : metadataOffset VolumeType.Standard = 57 := by decide
      rw [htsS1] at hserS
      omega
    have hulSG := unlock_attempt_ok c hE hDE _ pwS saltS nmS2 VolumeType.Standard
      _ hwfmS
      (by
        rw [hlenG]
        omega)
      (by
        rw [hlenG, hctSlen, htsS1]
        have h57 : metadataOffset VolumeType.Standard = 57 := by decide
        have h65 : regionEnd VolumeType.Standard = 65536 := by decide
        omega)
      hmagicG hvdG hnmS2
      (by
        rw [hctSlen, htsS1]
        exact hbserS)
    simp only [unlock_blob, hulSG]
  · rw [hkeysS, htkS]
  · -- standard entries survive compaction
    intro e he
    have hmem : (e.1, dataOfS e, e.2.mime_type)
        ∈ mS.map (fun e => (e.1, dataOfS e, e.2.mime_type)) :=
      List.mem_map_of_mem _ he
    obtain ⟨md, hlook, hmime, hsz, hDle, hbnd, hdlen, hread⟩ := hgoodS _ hmem
    refine ⟨md, hlook, hmime, hsz, ?_⟩
    show read_file_data c _ (c.deriveKey pwS saltS) md = _
    have hreHid : regionEnd VolumeType.Hidden = DATA_AREA_START_OFFSET := by decide
    rw [read_file_data_frame c
      (addAll c padA nD nM VolumeType.Standard (c.deriveKey pwS saltS) 0
        (mS.map (fun e => (e.1, dataOfS e, e.2.mime_type)))
        (initFileBytes c saltS (saltDraw (Nat.find hdraw)) nonceS nonceH
          padI pwS pwH, [])).1
      _ (c.deriveKey pwS saltS) md hbnd
      (by rw [hlenG, hlenS']; omega)
      (by rw [hdlen]; omega)
      (fun len hl => hframeHhigh md.data_offset len (by omega) (by omega))
      (hframeHhigh (md.data_offset + 24) (md.data_length - 24)
        (by omega) (by omega))]
    exact hread
  · -- unlock the compacted blob with the hidden password
    have hmagicG : extractSeg (addAll c padA nD nM VolumeType.Hidden
        (c.deriveKey pwH (saltDraw (Nat.find hdraw))) mS.length
        (mH.map (fun e => (e.1, dataOfH e, e.2.mime_type)))
        ((addAll c padA nD nM VolumeType.Standard (c.deriveKey pwS saltS) 0
          (mS.map (fun e => (e.1, dataOfS e, e.2.mime_type)))
          (initFileBytes c saltS (saltDraw (Nat.find hdraw)) nonceS nonceH
            padI pwS pwH, [])).1, [])).1 0 9 = MAGICB ++ [VERSION] := by
      rw [hframeHlow 0 9 (by decide)]
      exact hmagicS1
    have hctSlen : (c.encrypt (c.deriveKey pwS saltS) nmS2
        (serializeMap (addAll c padA nD nM VolumeType.Standard
          (c.deriveKey pwS saltS) 0
          (mS.map (fun e => (e.1, dataOfS e, e.2.mime_type)))
          (initFileBytes c saltS (saltDraw (Nat.find hdraw)) nonceS nonceH
            padI pwS pwH, [])).2)).length
        = (8 + ((mS.map (fun e => (e.1, dataOfS e, e.2.mime_type))).map
            (fun e => 40 + e.1.length + e.2.2.length)).sum) + 16 := by
      rw [hE, hserS]
    have hvdG : VolDisk c VolumeType.Standard (c.deriveKey pwS saltS) saltS nmS2
        (addAll c padA nD nM VolumeType.Standard (c.deriveKey pwS saltS) 0
          (mS.map (fun e => (e.1, dataOfS e, e.2.mime_type)))
          (initFileBytes c saltS (saltDraw (Nat.find hdraw)) nonceS nonceH
            padI pwS pwH, [])).2
        (addAll c padA nD nM VolumeType.Hidden
          (c.deriveKey pwH (saltDraw (Nat.find hdraw))) mS.length
          (mH.map (fun e => (e.1, dataOfH e, e.2.mime_type)))
          ((addAll c padA nD nM VolumeType.Standard (c.deriveKey pwS saltS) 0
            (mS.map (fun e => (e.1, dataOfS e, e.2.mime_type)))
            (initFileBytes c saltS (saltDraw (Nat.find hdraw)) nonceS nonceH
              padI pwS pwH, [])).1, [])).1 := by
      obtain ⟨hv1, hv2, hv3⟩ := hvdS2
      refine ⟨?_, ?_, ?_⟩
      · rw [hframeHlow (saltOffset VolumeType.Standard) 16 (by decide)]
        exact hv1
      · rw [hframeHlow (headerFieldOffset VolumeType.Standard) 32 (by decide)]
        exact hv2
      · rw [hframeHlow (metadataOffset VolumeType.Standard) _
          (by
            rw [hctSlen, htsS1]
            have h57 : metadataOffset VolumeType.Standard = 57 := by decide
            have h65 : regionEnd VolumeType.Standard = 65536 := by decide
            have hhfH : headerFieldOffset VolumeType.Hidden = 65552 := by decide
            omega)]
        exact hv3
    have hfailG : unlock_attempt c (addAll c padA nD nM VolumeType.Hidden
        (c.deriveKey pwH (saltDraw (Nat.find hdraw))) mS.length
        (mH.map (fun e => (e.1, dataOfH e, e.2.mime_type)))
        ((addAll c padA nD nM VolumeType.Standard (c.deriveKey pwS saltS) 0
          (mS.map (fun e => (e.1, dataOfS e, e.2.mime_type)))
          (initFileBytes c saltS (saltDraw (Nat.find hdraw)) nonceS nonceH
            padI pwS pwH, [])).1, [])).1 pwH VolumeType.Standard
        = .error "metadata decryption failed" :=
      unlock_attempt_std_fail c hE hDA _ pwS pwH saltS nmS2 _
        (hKI pwS pwH saltS hpw)
        (by rw [hlenG]; omega) hmagicG hvdG hnmS2
        (by
          rw [hctSlen, htsS1]
          exact hbserS)
    simp only [unlock_blob, hfailG, hulH2]
  · rw [hkeysH, htkH]
  · -- hidden entries survive compaction
    intro e he
    have hmem : (e.1, dataOfH e, e.2.mime_type)
        ∈ mH.map (fun e => (e.1, dataOfH e, e.2.mime_type)) :=
      List.mem_map_of_mem _ he
    obtain ⟨md, hlook, hmime, hsz, hDle, hbnd, hdlen, hread⟩ := hgoodH _ hmem
    exact ⟨md, hlook, hmime, hsz, hread⟩

/-- C5 (amended): for an old blob whose two volumes unlock as described
(`VolDisk` states with well-formed indices, every entry readable) and
whose entries fit the fresh blob's metadata regions, `compact_blob`
succeeds; the new blob's length is exactly the data-area start plus the
sum of the entries' block sizes (so it is at most the old length
whenever the old blob is at least that long, as every add-produced blob
is); unlocking the new blob with either password returns the same
volume, an index with exactly the old paths, and `get_file` on every
entry returns the same bytes with the same MIME string and size. -/
theorem c5_amended (c : CryptoPrims) (hE : EncLen c) (hDE : DecEnc c)
    (hDA : DecAuth c) (hKI : KdfInj c)
    (saltS : List Nat) (saltDraw : Nat → List Nat) (hdraw : ∃ i, saltDraw i ≠ saltS)
    (nonceS nonceH : List Nat) (padI padA : Nat → Nat) (nD nM : Nat → List Nat)
    (hsS : saltS.length = 16) (hsD : ∀ i, (saltDraw i).length = 16)
    (hnS : nonceS.length = 24) (hnH : nonceH.length = 24)
    (hnD : ∀ i, (nD i).length = 24) (hnM : ∀ i, (nM i).length = 24)
    (f pwS pwH : List Nat) (hpw : pwS ≠ pwH)
    (saltSo saltHo nmSo nmHo : List Nat) (mS mH : MetadataMap)
    (hnmSo : nmSo.length = 24) (hnmHo : nmHo.length = 24)
    (hwfS : MapWf mS) (hwfH : MapWf mH)
    (hmagic : extractSeg f 0 9 = MAGICB ++ [VERSION])
    (hflen : 65584 ≤ f.length)
    (hdiskS : VolDisk c .Standard (c.deriveKey pwS saltSo) saltSo nmSo mS f)
    (hdiskH : VolDisk c .Hidden (c.deriveKey pwH saltHo) saltHo nmHo mH f)
    (hctSin : STANDARD_METADATA_OFFSET
      + (c.encrypt (c.deriveKey pwS saltSo) nmSo (serializeMap mS)).length
      ≤ f.length)
    (hctHin : HIDDEN_METADATA_OFFSET
      + (c.encrypt (c.deriveKey pwH saltHo) nmHo (serializeMap mH)).length
      ≤ f.length)
    (hszS : (c.encrypt (c.deriveKey pwS saltSo) nmSo (serializeMap mS)).length
      ≤ 50 * 1024 * 1024)
    (hszH : (c.encrypt (c.deriveKey pwH saltHo) nmHo (serializeMap mH)).length
      ≤ 50 * 1024 * 1024)
    (dataOfS dataOfH : List Nat × FileMetadata → List Nat)
    (hreadS : ∀ e ∈ mS, get_file c f (c.deriveKey pwS saltSo) e.2 = .ok (dataOfS e))
    (hreadH : ∀ e ∈ mH, get_file c f (c.deriveKey pwH saltHo) e.2 = .ok (dataOfH e))
    (hnodupS : (mS.map (fun e => e.1)).Nodup)
    (hnodupH : (mH.map (fun e => e.1)).Nodup)
    (hbserS : metadataOffset VolumeType.Standard
      + (8 + (mS.map (fun e => 40 + e.1.length + e.2.mime_type.length)).sum + 16)
      ≤ regionEnd VolumeType.Standard)
    (hbserH : metadataOffset VolumeType.Hidden
      + (8 + (mH.map (fun e => 40 + e.1.length + e.2.mime_type.length)).sum + 16)
      ≤ regionEnd VolumeType.Hidden)
    (hb64 : DATA_AREA_START_OFFSET
      + (mS.map (fun e => 40 + (dataOfS e).length)).sum
      + (mH.map (fun e => 40 + (dataOfH e).length)).sum < 2 ^ 64) :
    ∃ g m1 m2,
      compact_blob c saltS saltDraw hdraw nonceS nonceH padI padA nD nM f pwS pwH
        = .ok g ∧
      g.length = DATA_AREA_START_OFFSET
        + (mS.map (fun e => 40 + (dataOfS e).length)).sum
        + (mH.map (fun e => 40 + (dataOfH e).length)).sum ∧
      (DATA_AREA_START_OFFSET
          + (mS.map (fun e => 40 + (dataOfS e).length)).sum
          + (mH.map (fun e => 40 + (dataOfH e).length)).sum ≤ f.length →
        g.length ≤ f.length) ∧
      unlock_blob c g pwS
        = .ok (VolumeType.Standard, c.deriveKey pwS saltS, m1) ∧
      m1.map Prod.fst = mS.map (fun e => e.1) ∧
      (∀ e ∈ mS, ∃ md, lookupKey m1 e.1 = some md ∧
        md.mime_type = e.2.mime_type ∧ md.size = (dataOfS e).length ∧
        get_file c g (c.deriveKey pwS saltS) md = .ok (dataOfS e)) ∧
      unlock_blob c g pwH
        = .ok (VolumeType.Hidden, c.deriveKey pwH (saltDraw (Nat.find hdraw)), m2) ∧
      m2.map Prod.fst = mH.map (fun e => e.1) ∧
      (∀ e ∈ mH, ∃ md, lookupKey m2 e.1 = some md ∧
        md.mime_type = e.2.mime_type ∧ md.size = (dataOfH e).length ∧
        get_file c g (c.deriveKey pwH (saltDraw (Nat.find hdraw))) md
          = .ok (dataOfH e)) :=
  compact_blob_spec c hE hDE hDA hKI saltS saltDraw hdraw nonceS nonceH padI padA
    nD nM hsS hsD hnS hnH hnD hnM f pwS pwH hpw saltSo saltHo nmSo nmHo mS mH
    hnmSo hnmHo hwfS hwfH hmagic hflen hdiskS hdiskH hctSin hctHin hszS hszH
    dataOfS dataOfH hreadS hreadH hnodupS hnodupH hbserS hbserH hb64

/-- C5 witness: the amended compaction facts at a concrete instantiation
(the old blob is a freshly initialized blob with empty indices under
passwords `[97]` and `[98]`). -/
theorem c5_witness :
    ([97] : List Nat) ≠ [98] ∧
    (∃ g m1 m2,
      compact_blob toyCrypto (List.replicate 16 0) (fun _ => List.replicate 16 1)
        ⟨0, by decide⟩ (List.replicate 24 0) (List.replicate 24 0)
        (fun _ => 0) (fun _ => 0) (fun _ => List.replicate 24 2)
        (fun _ => List.replicate 24 3)
        (initFileBytes toyCrypto (List.replicate 16 0) (List.replicate 16 1)
          (List.replicate 24 0) (List.replicate 24 0) (fun _ => 0) [97] [98])
        [97] [98] = .ok g ∧
      g.length = DATA_AREA_START_OFFSET
        + (List.map (fun e => 40 + ((fun _ => ([] : List Nat)) e).length)
            ([] : MetadataMap)).sum
        + (List.map (fun e => 40 + ((fun _ => ([] : List Nat)) e).length)
            ([] : MetadataMap)).sum ∧
      (DATA_AREA_START_OFFSET
          + (List.map (fun e => 40 + ((fun _ => ([] : List Nat)) e).length)
              ([] : MetadataMap)).sum
          + (List.map (fun e => 40 + ((fun _ => ([] : List Nat)) e).length)
              ([] : MetadataMap)).sum
          ≤ (initFileBytes toyCrypto (List.replicate 16 0) (List.replicate 16 1)
              (List.replicate 24 0) (List.replicate 24 0) (fun _ => 0)
              [97] [98]).length →
        g.length ≤ (initFileBytes toyCrypto (List.replicate 16 0)
          (List.replicate 16 1) (List.replicate 24 0) (List.replicate 24 0)
          (fun _ => 0) [97] [98]).length) ∧
      unlock_blob toyCrypto g [97]
        = .ok (VolumeType.Standard,
            toyCrypto.deriveKey [97] (List.replicate 16 0), m1) ∧
      m1.map Prod.fst = List.map (fun e => e.1) ([] : MetadataMap) ∧
      (∀ e ∈ ([] : MetadataMap), ∃ md, lookupKey m1 e.1 = some md ∧
        md.mime_type = e.2.mime_type ∧
        md.size = ((fun _ => ([] : List Nat)) e).length ∧
        get_file toyCrypto g (toyCrypto.deriveKey [97] (List.replicate 16 0)) md
          = .ok ((fun _ => ([] : List Nat)) e)) ∧
      unlock_blob toyCrypto g [98]
        = .ok (VolumeType.Hidden,
            toyCrypto.deriveKey [98]
              ((fun _ => List.replicate 16 1)
                (Nat.find (⟨0, by decide⟩ :
                  ∃ i, (fun _ => List.replicate 16 1) i ≠ List.replicate 16 0))),
            m2) ∧
      m2.map Prod.fst = List.map (fun e => e.1) ([] : MetadataMap) ∧
      (∀ e ∈ ([] : MetadataMap), ∃ md, lookupKey m2 e.1 = some md ∧
        md.mime_type = e.2.mime_type ∧
        md.size = ((fun _ => ([] : List Nat)) e).length ∧
        get_file toyCrypto g
          (toyCrypto.deriveKey [98]
            ((fun _ => List.replicate 16 1)
              (Nat.find (⟨0, by decide⟩ :
                ∃ i, (fun _ => List.replicate 16 1) i ≠ List.replicate 16 0)))) md
          = .ok ((fun _ => ([] : List Nat)) e))) := by
  refine ⟨by decide, ?_⟩
  have hspec := initFileBytes_spec toyCrypto (List.replicate 16 0)
    (List.replicate 16 1) (List.replicate 24 0) (List.replicate 24 0)
    (fun _ => 0) [97] [98] (by decide) (by decide) (by decide) (by decide)
    (by rw [initCt, toyCrypto_EncLen]; decide)
    (by rw [initCt, toyCrypto_EncLen]; decide)
  obtain ⟨hL, hmg, hs1, hh1, hc1, hs2, hh2, hc2⟩ := hspec
  exact c5_amended toyCrypto toyCrypto_EncLen toyCrypto_DecEnc toyCrypto_DecAuth
    toyCrypto_KdfInj (List.replicate 16 0) (fun _ => List.replicate 16 1)
    ⟨0, by decide⟩ (List.replicate 24 0) (List.replicate 24 0)
    (fun _ => 0) (fun _ => 0) (fun _ => List.replicate 24 2)
    (fun _ => List.replicate 24 3)
    (by decide) (fun _ => show (List.replicate 16 1).length = 16 from by decide)
    (by decide) (by decide)
    (fun _ => show (List.replicate 24 2).length = 24 from by decide)
    (fun _ => show (List.replicate 24 3).length = 24 from by decide)
    (initFileBytes toyCrypto (List.replicate 16 0) (List.replicate 16 1)
      (List.replicate 24 0) (List.replicate 24 0) (fun _ => 0) [97] [98])
    [97] [98] (by decide)
    (List.replicate 16 0) (List.replicate 16 1)
    (List.replicate 24 0) (List.replicate 24 0) [] []
    (by decide) (by decide)
    ⟨by decide, by intro kv h; cases h⟩ ⟨by decide, by intro kv h; cases h⟩
    hmg (by rw [hL]; decide)
    ⟨hs1, hh1, hc1⟩ ⟨hs2, hh2, hc2⟩
    (by rw [toyCrypto_EncLen, hL]; decide)
    (by rw [toyCrypto_EncLen, hL]; decide)
    (by rw [toyCrypto_EncLen]; decide)
    (by rw [toyCrypto_EncLen]; decide)
    (fun _ => []) (fun _ => [])
    (fun e he => absurd he (List.not_mem_nil e))
    (fun e he => absurd he (List.not_mem_nil e))
    (by decide) (by decide) (by decide) (by decide) (by decide)

theorem unlock_blob_std (c : CryptoPrims) (f pw k : List Nat) (m : MetadataMap)
    (h : unlock_attempt c f pw VolumeType.Standard = .ok (k, m)) :
    unlock_blob c f pw = .ok (VolumeType.Standard, k, m) := by
  unfold unlock_blob
  rw [h]

theorem unlock_blob_hidden (c : CryptoPrims) (f pw : List Nat) (e : String)
    (k : List Nat) (m : MetadataMap)
    (hS : unlock_attempt c f pw VolumeType.Standard = .error e)
    (hH : unlock_attempt c f pw VolumeType.Hidden = .ok (k, m)) :
    unlock_blob c f pw = .ok (VolumeType.Hidden, k, m) := by
  unfold unlock_blob
  rw [hS, hH]

/-- C5 counterexample: the size claim fails.  A 65608-byte blob holding
both headers and both (empty) metadata blocks is valid — both passwords
unlock it — yet `compact_blob` rebuilds it as a fresh blob padded to the
data-area start, so the compacted file is 1114160 bytes, larger than the
original. -/
theorem c5_counterexample :
    ∃ g, compact_blob toyCrypto (List.replicate 16 0) (fun _ => List.replicate 16 1)
        ⟨0, by decide⟩ (List.replicate 24 0) (List.replicate 24 0)
        (fun _ => 0) (fun _ => 0) (fun _ => List.replicate 24 2)
        (fun _ => List.replicate 24 3)
        (extractSeg (initFileBytes toyCrypto (List.replicate 16 0)
          (List.replicate 16 1) (List.replicate 24 0) (List.replicate 24 0)
          (fun _ => 0) [97] [98]) 0 65608)
        [97] [98] = .ok g ∧
      unlock_blob toyCrypto
        (extractSeg (initFileBytes toyCrypto (List.replicate 16 0)
          (List.replicate 16 1) (List.replicate 24 0) (List.replicate 24 0)
          (fun _ => 0) [97] [98]) 0 65608) [97]
        = .ok (VolumeType.Standard,
            toyCrypto.deriveKey [97] (List.replicate 16 0), []) ∧
      unlock_blob toyCrypto
        (extractSeg (initFileBytes toyCrypto (List.replicate 16 0)
          (List.replicate 16 1) (List.replicate 24 0) (List.replicate 24 0)
          (fun _ => 0) [97] [98]) 0 65608) [98]
        = .ok (VolumeType.Hidden,
            toyCrypto.deriveKey [98] (List.replicate 16 1), []) ∧
      (extractSeg (initFileBytes toyCrypto (List.replicate 16 0)
        (List.replicate 16 1) (List.replicate 24 0) (List.replicate 24 0)
        (fun _ => 0) [97] [98]) 0 65608).length < g.length := by
  have hser8 : (serializeMap ([] : MetadataMap)).length = 8 := by decide
  obtain ⟨hL, hmg, hs1, hh1, hc1, hs2, hh2, hc2⟩ :=
    initFileBytes_spec toyCrypto (List.replicate 16 0)
      (List.replicate 16 1) (List.replicate 24 0) (List.replicate 24 0)
      (fun _ => 0) [97] [98] (by decide) (by decide) (by decide) (by decide)
      (by rw [initCt, toyCrypto_EncLen]; decide)
      (by rw [initCt, toyCrypto_EncLen]; decide)
  set F1 := initFileBytes toyCrypto (List.replicate 16 0) (List.replicate 16 1)
    (List.replicate 24 0) (List.replicate 24 0) (fun _ => 0) [97] [98] with hF1
  have holdlen : (extractSeg F1 0 65608).length = 65608 :=
    length_extractSeg_of_le F1 0 65608 (by rw [hL]; decide)
  have htk65 : extractSeg F1 0 65608 = F1.take 65608 := by
    unfold extractSeg
    rw [List.drop_zero]
  have hsl : ∀ j l, j + l ≤ 65608 →
      extractSeg (extractSeg F1 0 65608) j l = extractSeg F1 j l := by
    intro j l h
    rw [htk65]
    exact extractSeg_take F1 65608 j l h
  have hwf0 : MapWf ([] : MetadataMap) := ⟨by decide, by intro kv h; cases h⟩
  have hmagicOld : extractSeg (extractSeg F1 0 65608) 0 9 = MAGICB ++ [VERSION] := by
    rw [hsl 0 9 (by decide)]
    exact hmg
  have hdiskSold : VolDisk toyCrypto VolumeType.Standard
      (toyCrypto.deriveKey [97] (List.replicate 16 0)) (List.replicate 16 0)
      (List.replicate 24 0) [] (extractSeg F1 0 65608) := by
    refine ⟨?_, ?_, ?_⟩
    · rw [hsl (saltOffset VolumeType.Standard) 16 (by decide)]
      exact hs1
    · rw [hsl (headerFieldOffset VolumeType.Standard) 32 (by decide)]
      exact hh1
    · rw [hsl (metadataOffset VolumeType.Standard) _
        (by rw [toyCrypto_EncLen, hser8]; decide)]
      exact hc1
  have hdiskHold : VolDisk toyCrypto VolumeType.Hidden
      (toyCrypto.deriveKey [98] (List.replicate 16 1)) (List.replicate 16 1)
      (List.replicate 24 0) [] (extractSeg F1 0 65608) := by
    refine ⟨?_, ?_, ?_⟩
    · rw [hsl (saltOffset VolumeType.Hidden) 16 (by decide)]
      exact hs2
    · rw [hsl (headerFieldOffset VolumeType.Hidden) 32 (by decide)]
      exact hh2
    · rw [hsl (metadataOffset VolumeType.Hidden) _
        (by rw [toyCrypto_EncLen, hser8]; decide)]
      exact hc2
  -- the unlocks of the old blob itself
  have hulSold : unlock_attempt toyCrypto (extractSeg F1 0 65608) [97]
      VolumeType.Standard
      = .ok (toyCrypto.deriveKey [97] (List.replicate 16 0), []) :=
    unlock_attempt_ok toyCrypto toyCrypto_EncLen toyCrypto_DecEnc
      (extractSeg F1 0 65608) [97] (List.replicate 16 0) (List.replicate 24 0)
      VolumeType.Standard [] hwf0 (by rw [holdlen]; decide)
      (by rw [toyCrypto_EncLen, hser8, holdlen]; decide) hmagicOld
      hdiskSold (by decide) (by rw [toyCrypto_EncLen, hser8]; decide)
  have hulHold : unlock_attempt toyCrypto (extractSeg F1 0 65608) [98]
      VolumeType.Hidden
      = .ok (toyCrypto.deriveKey [98] (List.replicate 16 1), []) :=
    unlock_attempt_ok toyCrypto toyCrypto_EncLen toyCrypto_DecEnc
      (extractSeg F1 0 65608) [98] (List.replicate 16 1) (List.replicate 24 0)
      VolumeType.Hidden [] hwf0 (by rw [holdlen]; decide)
      (by rw [toyCrypto_EncLen, hser8, holdlen]; decide) hmagicOld
      hdiskHold (by decide) (by rw [toyCrypto_EncLen, hser8]; decide)
  have hfailOld : unlock_attempt toyCrypto (extractSeg F1 0 65608) [98]
      VolumeType.Standard = .error "metadata decryption failed" :=
    unlock_attempt_std_fail toyCrypto toyCrypto_EncLen toyCrypto_DecAuth
      (extractSeg F1 0 65608) [97] [98] (List.replicate 16 0)
      (List.replicate 24 0) []
      (toyCrypto_KdfInj [97] [98] (List.replicate 16 0) (by decide))
      (by rw [holdlen]; decide) hmagicOld hdiskSold (by decide)
      (by rw [toyCrypto_EncLen, hser8]; decide)
  obtain ⟨g, m1, m2, hok, hlenG, -, -, -, -, -, -, -⟩ :=
    compact_blob_spec toyCrypto toyCrypto_EncLen toyCrypto_DecEnc toyCrypto_DecAuth
      toyCrypto_KdfInj (List.replicate 16 0) (fun _ => List.replicate 16 1)
      ⟨0, by decide⟩ (List.replicate 24 0) (List.replicate 24 0)
      (fun _ => 0) (fun _ => 0) (fun _ => List.replicate 24 2)
      (fun _ => List.replicate 24 3)
      (by decide) (fun _ => show (List.replicate 16 1).length = 16 from by decide)
      (by decide) (by decide)
      (fun _ => show (List.replicate 24 2).length = 24 from by decide)
      (fun _ => show (List.replicate 24 3).length = 24 from by decide)
      (extractSeg F1 0 65608) [97] [98] (by decide)
      (List.replicate 16 0) (List.replicate 16 1)
      (List.replicate 24 0) (List.replicate 24 0) [] []
      (by decide) (by decide) hwf0 hwf0
      hmagicOld (by rw [holdlen]; decide)
      hdiskSold hdiskHold
      (by rw [toyCrypto_EncLen, hser8, holdlen]; decide)
      (by rw [toyCrypto_EncLen, hser8, holdlen]; decide)
      (by rw [toyCrypto_EncLen, hser8]; decide)
      (by rw [toyCrypto_EncLen, hser8]; decide)
      (fun _ => []) (fun _ => [])
      (fun e he => absurd he (List.not_mem_nil e))
      (fun e he => absurd he (List.not_mem_nil e))
      (by decide) (by decide) (by decide) (by decide) (by decide)
  refine ⟨g, hok, ?_, ?_, ?_⟩
  · exact unlock_blob_std toyCrypto (extractSeg F1 0 65608) [97] _ [] hulSold
  · exact unlock_blob_hidden toyCrypto (extractSeg F1 0 65608) [98] _ _ []
      hfailOld hulHold
  · rw [holdlen, hlenG]
    decide

end Kurpod
